import Mathlib

/-
  Verification development for the galfit configuration/model layer.

  Shallow embedding of the core Python modules:
    collection.py (SlotsDict)  -> generic typed-record schema + operations
    parameter.py  (Parameter)  -> Param structure + update semantics
    model.py      (Model + concrete profiles and transforms)
    constraint.py (ConsRule / Constraints)
    header.py     (Header schema)
    galfit.py     (GalFit document: load_file loop, chdir_to)

  Python floats are modelled as rationals (exact arithmetic); machine-level
  floating point rounding is not modelled.  Python exceptions are modelled by
  an error kind (messages dropped).  Python dicts are association lists with
  insertion-order update-in-place semantics (matching CPython dict order).
-/

namespace GalfitSpec

/-- Kinds of Python exceptions raised by the embedded code.
    excErr stands for a plain `raise Exception(...)`. -/
inductive PyErr where
  | attrErr | typeErr | valErr | keyErr | assertErr | indexErr | zeroDivErr | excErr
  deriving DecidableEq, Repr

/-- Fitting parameter (parameter.py `Parameter`): value, fit state (int; 1 free,
    0 frozen), optional uncertainty.  Python leaves `val` unset until the first
    `update`; every construction in this development supplies a value, so `val`
    is a plain field. -/
structure Param where
  val : ℚ
  state : Int
  uncert : Option ℚ
  deriving DecidableEq, Repr

/-- Universe of Python values stored in records: None, int, float, str,
    list/tuple, Parameter.  (list and tuple are not distinguished; nothing in
    the embedded code depends on the difference.) -/
inductive PyV where
  | vnone : PyV
  | vint : Int → PyV
  | vfloat : ℚ → PyV
  | vstr : String → PyV
  | vvec : List PyV → PyV
  | vpar : Param → PyV

mutual

/-- Structural equality on Python values (Python's == restricted to the
    same-type comparisons actually performed by the embedded code). -/
def PyV.decEq : (a b : PyV) → Decidable (a = b)
  | .vnone, .vnone => .isTrue rfl
  | .vint a, .vint b =>
    if h : a = b then .isTrue (by rw [h]) else .isFalse (by simp [h])
  | .vfloat a, .vfloat b =>
    if h : a = b then .isTrue (by rw [h]) else .isFalse (by simp [h])
  | .vstr a, .vstr b =>
    if h : a = b then .isTrue (by rw [h]) else .isFalse (by simp [h])
  | .vpar a, .vpar b =>
    if h : a = b then .isTrue (by rw [h]) else .isFalse (by simp [h])
  | .vvec a, .vvec b =>
    match PyV.decEqList a b with
    | .isTrue h => .isTrue (by rw [h])
    | .isFalse h => .isFalse (by simp [h])
  | .vnone, .vint _ => .isFalse (fun h => nomatch h)
  | .vnone, .vfloat _ => .isFalse (fun h => nomatch h)
  | .vnone, .vstr _ => .isFalse (fun h => nomatch h)
  | .vnone, .vvec _ => .isFalse (fun h => nomatch h)
  | .vnone, .vpar _ => .isFalse (fun h => nomatch h)
  | .vint _, .vnone => .isFalse (fun h => nomatch h)
  | .vint _, .vfloat _ => .isFalse (fun h => nomatch h)
  | .vint _, .vstr _ => .isFalse (fun h => nomatch h)
  | .vint _, .vvec _ => .isFalse (fun h => nomatch h)
  | .vint _, .vpar _ => .isFalse (fun h => nomatch h)
  | .vfloat _, .vnone => .isFalse (fun h => nomatch h)
  | .vfloat _, .vint _ => .isFalse (fun h => nomatch h)
  | .vfloat _, .vstr _ => .isFalse (fun h => nomatch h)
  | .vfloat _, .vvec _ => .isFalse (fun h => nomatch h)
  | .vfloat _, .vpar _ => .isFalse (fun h => nomatch h)
  | .vstr _, .vnone => .isFalse (fun h => nomatch h)
  | .vstr _, .vint _ => .isFalse (fun h => nomatch h)
  | .vstr _, .vfloat _ => .isFalse (fun h => nomatch h)
  | .vstr _, .vvec _ => .isFalse (fun h => nomatch h)
  | .vstr _, .vpar _ => .isFalse (fun h => nomatch h)
  | .vvec _, .vnone => .isFalse (fun h => nomatch h)
  | .vvec _, .vint _ => .isFalse (fun h => nomatch h)
  | .vvec _, .vfloat _ => .isFalse (fun h => nomatch h)
  | .vvec _, .vstr _ => .isFalse (fun h => nomatch h)
  | .vvec _, .vpar _ => .isFalse (fun h => nomatch h)
  | .vpar _, .vnone => .isFalse (fun h => nomatch h)
  | .vpar _, .vint _ => .isFalse (fun h => nomatch h)
  | .vpar _, .vfloat _ => .isFalse (fun h => nomatch h)
  | .vpar _, .vstr _ => .isFalse (fun h => nomatch h)
  | .vpar _, .vvec _ => .isFalse (fun h => nomatch h)

def PyV.decEqList : (a b : List PyV) → Decidable (a = b)
  | [], [] => .isTrue rfl
  | [], _ :: _ => .isFalse (fun h => nomatch h)
  | _ :: _, [] => .isFalse (fun h => nomatch h)
  | x :: xs, y :: ys =>
    match PyV.decEq x y with
    | .isFalse h => .isFalse (by simp [h])
    | .isTrue h =>
      match PyV.decEqList xs ys with
      | .isTrue h2 => .isTrue (by rw [h, h2])
      | .isFalse h2 => .isFalse (by simp [h2])

end

instance : DecidableEq PyV := PyV.decEq

/-- Whitespace characters recognized by Python's str.split()/strip() and `\s`
    (restricted to ASCII, which is all the embedded data uses). -/
def isWsChar (c : Char) : Bool :=
  c == ' ' || c == '\t' || c == '\n' || c == '\r' || c == '\x0b' || c == '\x0c'

def isDigitChar (c : Char) : Bool := '0' ≤ c && c ≤ '9'

/-- Character class `[a-zA-Z\d]` of the constraint grammars (ASCII fragment). -/
def isAlnumChar (c : Char) : Bool := c.isAlpha || isDigitChar c

/-- Numeric value of a decimal digit list, most significant first. -/
def digitsToNat (l : List Char) : Nat :=
  l.foldl (fun a c => a * 10 + (c.toNat - 48)) 0

/-- Decimal digits, fuel-structured so the kernel can evaluate it; any fuel
    above the argument suffices. -/
def natDigitsAux : Nat → Nat → List Char
  | 0, _ => []
  | fuel + 1, n =>
    if n < 10 then [Char.ofNat (48 + n)]
    else natDigitsAux fuel (n / 10) ++ [Char.ofNat (48 + n % 10)]

/-- Decimal digits of a natural number, most significant first (str(n)). -/
def natDigits (n : Nat) : List Char := natDigitsAux (n + 1) n

/-- str(i) for a Python int. -/
def intStr (i : Int) : String :=
  if i < 0 then String.mk ('-' :: natDigits i.natAbs) else String.mk (natDigits i.natAbs)

/-- Python str.strip() on a character list. -/
def stripChars (l : List Char) : List Char :=
  ((l.dropWhile isWsChar).reverse.dropWhile isWsChar).reverse

/-- Accumulator loop of the whitespace splitter (current word reversed). -/
def splitWsAux : List Char → List Char → List (List Char)
  | [], cur => if cur.isEmpty then [] else [cur.reverse]
  | c :: t, cur =>
    if isWsChar c then
      if cur.isEmpty then splitWsAux t [] else cur.reverse :: splitWsAux t []
    else splitWsAux t (c :: cur)

/-- Python str.split() (split on whitespace runs, no empty fields). -/
def splitWsChars (l : List Char) : List (List Char) := splitWsAux l []

def splitWsStr (s : String) : List String :=
  (splitWsChars s.data).map String.mk

/-- int(s) for a Python string: optional surrounding whitespace, optional sign,
    at least one digit, nothing else (underscore grouping not modelled). -/
def strToIntChars (l : List Char) : Except PyErr Int :=
  let l := stripChars l
  let (sgn, r) : Int × List Char :=
    match l with
    | '-' :: t => (-1, t)
    | '+' :: t => (1, t)
    | _ => (1, l)
  let d := r.takeWhile isDigitChar
  if d = [] ∨ r.drop d.length ≠ [] then .error .valErr
  else .ok (sgn * (digitsToNat d : Int))

def strToInt (s : String) : Except PyErr Int := strToIntChars s.data

/-- The rational denoted by sign, integer digits, fraction digits and a
    decimal exponent: +- (ip.fp) * 10^ex, built through Rat.divInt so the
    kernel can evaluate it. -/
def floatOfParts (neg : Bool) (ip fp : List Char) (ex : Int) : ℚ :=
  let mant : Int := ((digitsToNat ip * 10 ^ fp.length + digitsToNat fp : Nat) : Int)
  let mant := if neg then -mant else mant
  let e : Int := ex - fp.length
  if 0 ≤ e then Rat.divInt (mant * ((10 ^ e.toNat : Nat) : Int)) 1
  else Rat.divInt mant ((10 ^ (-e).toNat : Nat) : Int)

/-- float(s) for a Python string: optional whitespace and sign, then either
    `digits [. digits] [exp]` or `. digits [exp]`, all consumed.
    inf/nan/underscores are not modelled (they never occur in this code's
    well-formed inputs; unparsable text yields ValueError as in Python). -/
def strToFloatChars (l : List Char) : Except PyErr ℚ :=
  let l := stripChars l
  let neg : Bool := l.head? == some '-'
  let hasSgn : Bool := neg || (l.head? == some '+')
  let r : List Char := if hasSgn then l.drop 1 else l
  let ip := r.takeWhile isDigitChar
  let r1 := r.drop ip.length
  let hasDot : Bool := r1.head? == some '.'
  let fp : List Char := if hasDot then (r1.drop 1).takeWhile isDigitChar else []
  let r2 : List Char := if hasDot then (r1.drop 1).dropWhile isDigitChar else r1
  if ip = [] ∧ fp = [] then .error .valErr
  else
    match r2 with
    | [] => .ok (floatOfParts neg ip fp 0)
    | e :: t =>
      if e = 'e' ∨ e = 'E' then
        match strToIntChars t with
        | .ok ex => .ok (floatOfParts neg ip fp ex)
        | .error _ => .error .valErr
      else .error .valErr

def strToFloat (s : String) : Except PyErr ℚ := strToFloatChars s.data

/-- Rational multiplication through Rat.divInt (numerically equal to *, but
    evaluable by the kernel; see qMul_eq_mul). -/
def qMul (a b : ℚ) : ℚ := Rat.divInt (a.num * b.num) ((a.den : Int) * b.den)

/-- Rational division through Rat.divInt (numerically equal to /). -/
def qDiv (a b : ℚ) : ℚ := Rat.divInt (a.num * (b.den : Int)) ((a.den : Int) * b.num)

/-- q * 10^k through Rat.divInt. -/
def qScale10 (q : ℚ) (k : Nat) : ℚ :=
  Rat.divInt (q.num * ((10 ^ k : Nat) : Int)) (q.den : Int)

/-- float(v) applied to a Python value (parameter.py set_val / set_uncert). -/
def pyFloat : PyV → Except PyErr ℚ
  | .vint n => .ok (Rat.divInt n 1)
  | .vfloat q => .ok q
  | .vstr s => strToFloat s
  | _ => .error .typeErr

namespace Param

/-- parameter.py `set_state`: assert int or str; a str is either the key
    'free'/'freeze' or parsed as int. -/
def stateOfPyV : PyV → Except PyErr Int
  | .vint n => .ok n
  | .vstr s =>
    if s = "free" then .ok 1
    else if s = "freeze" then .ok 0
    else strToInt s
  | _ => .error .assertErr

/-- parameter.py `set_uncert`: None stays absent, otherwise float(v). -/
def uncertOfPyV : PyV → Except PyErr (Option ℚ)
  | .vnone => .ok none
  | v => do let q ← pyFloat v; .ok (some q)

/-- The kwargs assignment loop of `Parameter.update`: positional args are bound
    to (val, state, uncert) in order and each is set through its setter. -/
def setFields (p : Param) (args : List PyV) : Except PyErr Param := do
  match args with
  | [] => .ok p
  | [a] => do
    let v ← pyFloat a
    .ok { p with val := v }
  | [a, b] => do
    let v ← pyFloat a
    let s ← stateOfPyV b
    .ok { p with val := v, state := s }
  | [a, b, c] => do
    let v ← pyFloat a
    let s ← stateOfPyV b
    let u ← uncertOfPyV c
    .ok { val := v, state := s, uncert := u }
  | _ => .error .excErr

/-- `Parameter.update` restricted to arity ≠ 1 (raise for more than 3 args,
    otherwise assign fields positionally). -/
def updateMulti (p : Param) (args : List PyV) : Except PyErr Param :=
  if args.length > 3 then .error .excErr else p.setFields args

/-- The single-argument branch of `Parameter.update`: a string is split on
    whitespace and redispatched (a single field falls through as that
    stripped field); a Parameter copies its three fields; a sequence is
    spread as arguments (a one-element sequence redispatching on its
    element). -/
def update1 (p : Param) : PyV → Except PyErr Param
  | PyV.vstr s =>
    (match splitWsChars s.data with
     | [w] => p.setFields [PyV.vstr (String.mk w)]
     | ws => p.updateMulti (ws.map (fun w => PyV.vstr (String.mk w))))
  | PyV.vpar q =>
    p.setFields [PyV.vfloat q.val, PyV.vint q.state,
                 match q.uncert with | none => PyV.vnone | some u => PyV.vfloat u]
  | PyV.vvec [x] => p.update1 x
  | PyV.vvec l => p.updateMulti l
  | v => p.setFields [v]

/-- parameter.py `Parameter.update` with positional arguments. -/
def updateArgs (p : Param) (args : List PyV) : Except PyErr Param :=
  match args with
  | [v] => p.update1 v
  | _ => p.updateMulti args

/-- `Parameter(*args)`: default state 0 and no uncertainty, then update;
    with no argument the constructor's assert fires. -/
def new (args : List PyV) : Except PyErr Param :=
  match args with
  | [] => .error .assertErr
  | _ => updateArgs { val := 0, state := 0, uncert := none } args

/-- parameter.py `state_of_comb_pars` on two states: int(bool(p0+p1)). -/
def state_of_comb (s0 s1 : Int) : Int :=
  if s0 + s1 = 0 then 0 else 1

end Param

/-
  collection.py: the generic SlotsDict layer.

  A class's metaclass-computed tables are modelled as a Schema record; the
  instance dict `pars` is an insertion-ordered association list.
-/

/-- The stored pairs of a record instance (`self.pars`). -/
abbrev Pars := List (String × PyV)

/-- Python dict assignment d[k]=v: overwrite in place, else append. -/
def alistSet {α : Type} (l : List (String × α)) (k : String) (v : α) :
    List (String × α) :=
  match l with
  | [] => [(k, v)]
  | (k', v') :: t => if k' = k then (k, v) :: t else (k', v') :: alistSet t k v

/-- Class-level tables of a SlotsDict subclass, as computed by
    MetaSlotsDict/init_class from the class body. -/
structure Schema where
  keysSorted : List String
  mapKeysAlias : List (String × String)
  keysOptional : List String
  valuesDefault : List (String × PyV)
  valuesFuncsType : List (String × (PyV → Except PyErr PyV))
  mapValuesAlias : List (String × List (PyV × PyV))
  valuesValid : List (String × List PyV)
  valuesExample : List (String × PyV)

namespace SlotsDict

/-- collection.py `get_std_key`: translate an alias to its canonical key. -/
def getStdKey (sch : Schema) (k : String) : String :=
  match sch.mapKeysAlias.lookup k with
  | some k' => k'
  | none => k

/-- collection.py `is_valid_key`. -/
def isValidKey (sch : Schema) (k : String) : Bool :=
  sch.keysSorted.contains (getStdKey sch k)

/-- collection.py `is_opt_key`. -/
def isOptKey (sch : Schema) (k : String) : Bool :=
  let k := getStdKey sch k
  isValidKey sch k && sch.keysOptional.contains k

/-- collection.py `is_set_key`. -/
def isSetKey (sch : Schema) (pars : Pars) (k : String) : Bool :=
  (pars.lookup (getStdKey sch k)).isSome

/-- collection.py `is_mutable_val`: Python asks for __iadd__/__imul__; among
    the embedded value types exactly list and Parameter have them
    (str/int/float/None do not). -/
def isMutableVal : PyV → Bool
  | .vvec _ => true
  | .vpar _ => true
  | _ => false

/-- collection.py `is_mutable_prop`: decided from the example value. -/
def isMutableProp (sch : Schema) (k : String) : Bool :=
  match sch.valuesExample.lookup (getStdKey sch k) with
  | none => false
  | some v => isMutableVal v

/-- collection.py `is_val_known_key`: set, or optional with a default. -/
def isValKnownKey (sch : Schema) (pars : Pars) (k : String) : Bool :=
  isSetKey sch pars k ||
    (isOptKey sch k && (sch.valuesDefault.lookup (getStdKey sch k)).isSome)

/-- collection.py `get_default_val`: assert optional, then look up the
    default (AttributeError when absent). -/
def getDefaultVal (sch : Schema) (k : String) : Except PyErr PyV :=
  let k := getStdKey sch k
  if ¬ isOptKey sch k then .error .assertErr
  else
    match sch.valuesDefault.lookup k with
    | none => .error .attrErr
    | some v => .ok v

/-- collection.py `set_prop`.  Returned as (outcome, stored pairs): the pair
    records the instance state even when an exception propagates, which is
    what the atomicity property is about.  Mutation happens only in the final
    store, mirroring the statement order of the source. -/
def setProp (sch : Schema) (pars : Pars) (k : String) (v : PyV) :
    Except PyErr Unit × Pars :=
  let p := getStdKey sch k
  if ¬ sch.keysSorted.contains p then (.error .excErr, pars)
  else
    let v1 :=
      match sch.mapValuesAlias.lookup p with
      | some m => match m.lookup v with
                  | some v' => v'
                  | none => v
      | none => v
    match (match sch.valuesFuncsType.lookup p with
           | some f => f v1
           | none => .ok v1) with
    | .error e => (.error e, pars)
    | .ok v2 =>
      match sch.valuesValid.lookup p with
      | some vs =>
        if vs.contains v2 then (.ok (), alistSet pars p v2)
        else (.error .excErr, pars)
      | none => (.ok (), alistSet pars p v2)

/-- collection.py `set_prop` in exception-propagating form.  Dropping the
    state on error is justified by theorem c9_set_prop_atomic below: a failing
    set_prop leaves the stored pairs unchanged. -/
def setPropE (sch : Schema) (pars : Pars) (k : String) (v : PyV) :
    Except PyErr Pars :=
  match setProp sch pars k v with
  | (.ok _, p) => .ok p
  | (.error e, _) => .error e

/-- collection.py `touch_opt_key`: materialize an unset optional key via the
    base set_prop; no-op for set or non-optional keys. -/
def touchOptKey (sch : Schema) (pars : Pars) (k : String) :
    Except PyErr Unit × Pars :=
  if isSetKey sch pars k || ¬ isOptKey sch k then (.ok (), pars)
  else
    match getDefaultVal sch k with
    | .error e => (.error e, pars)
    | .ok d => setProp sch pars k d

/-- collection.py `get_val`.  Returns the value together with the possibly
    touched stored pairs (an unset optional key with a mutable example value
    is materialized before reading). -/
def getVal (sch : Schema) (pars : Pars) (k : String) :
    Except PyErr (PyV × Pars) :=
  let p := getStdKey sch k
  if ¬ sch.keysSorted.contains p then .error .attrErr
  else
    match pars.lookup p with
    | some v => .ok (v, pars)
    | none =>
      if sch.keysOptional.contains p then
        if isMutableProp sch p then
          match touchOptKey sch pars p with
          | (.error e, _) => .error e
          | (.ok _, pars') =>
            match pars'.lookup p with
            | some v => .ok (v, pars')
            | none => .error .keyErr
        else
          match getDefaultVal sch p with
          | .error e => .error e
          | .ok d => .ok (d, pars)
      else .error .attrErr

end SlotsDict

/-
  collection.py GFSlotsDict: the normalization functions derived from the
  example values (ext_func_type / get_func_scalar / combine_func_vector).
-/

/-- GFSlotsDict.func_str: only str accepted, returned unchanged. -/
def funcStr : PyV → Except PyErr PyV
  | .vstr s => .ok (.vstr s)
  | _ => .error .assertErr

/-- GFSlotsDict.func_int: int or numeric str, result int. -/
def funcInt : PyV → Except PyErr PyV
  | .vstr s => do let n ← strToInt s; .ok (.vint n)
  | .vint n => .ok (.vint n)
  | _ => .error .assertErr

/-- Scalar normalizer for a float example value: float(arg). -/
def funcFloat (v : PyV) : Except PyErr PyV := do
  let q ← pyFloat v
  .ok (.vfloat q)

/-- Elementwise application for vector normalizers; a length mismatch is the
    assert in combine_func_vector. -/
def applyFuncs : List (PyV → Except PyErr PyV) → List PyV →
    Except PyErr (List PyV)
  | [], [] => .ok []
  | f :: fs, v :: vs => do
    let x ← f v
    let xs ← applyFuncs fs vs
    .ok (x :: xs)
  | _, _ => .error .assertErr

/-- combine_func_vector with the default whitespace splitter: a string is
    split to a vector first; a sequence must match the example's length and
    each element is normalized positionally; anything else has no len(). -/
def combineVec (fes : List (PyV → Except PyErr PyV)) : PyV →
    Except PyErr PyV
  | .vstr s => do
    let l ← applyFuncs fes ((splitWsChars s.data).map
                              (fun w => PyV.vstr (String.mk w)))
    .ok (.vvec l)
  | .vvec l => do
    let l' ← applyFuncs fes l
    .ok (.vvec l')
  | _ => .error .typeErr

/-- Normalizer for a Parameter example value (the class itself is the scalar
    function, so normalization constructs a new Parameter from the input). -/
def funcParam (v : PyV) : Except PyErr PyV := do
  let p ← Param.new [v]
  .ok (.vpar p)

/-
  header.py: the Header schema (keys A-K, O, P).
-/

/-- header.py Header: class tables as computed by init_class. -/
def headerSchema : Schema where
  keysSorted := ["A", "B", "C", "D", "E", "F", "G", "H", "I", "J", "K", "O", "P"]
  mapKeysAlias :=
    [("input", "A"), ("output", "B"), ("sigma", "C"), ("psf", "D"),
     ("psfFactor", "E"), ("mask", "F"), ("constraints", "G"), ("cons", "G"),
     ("region", "H"), ("fitregion", "H"), ("xyminmax", "H"), ("conv", "I"),
     ("zerop", "J"), ("pscale", "K"), ("psize", "K"), ("disp", "O"),
     ("mod", "P")]
  keysOptional := ["A", "C", "D", "E", "F", "G", "J", "K", "O", "P"]
  valuesDefault :=
    [("A", .vstr "none"), ("B", .vstr "none"), ("C", .vstr "none"),
     ("D", .vstr "none"), ("E", .vint 1), ("F", .vstr "none"),
     ("G", .vstr "none"), ("H", .vvec [.vint 0, .vint 0, .vint 0, .vint 0]),
     ("I", .vvec [.vint 0, .vint 0]), ("J", .vfloat 20),
     ("K", .vvec [.vfloat 1, .vfloat 1]), ("O", .vstr "regular"),
     ("P", .vstr "0")]
  valuesFuncsType :=
    [("A", funcStr), ("B", funcStr), ("C", funcStr), ("D", funcStr),
     ("E", funcInt), ("F", funcStr), ("G", funcStr),
     ("H", combineVec [funcInt, funcInt, funcInt, funcInt]),
     ("I", combineVec [funcInt, funcInt]), ("J", funcFloat),
     ("K", combineVec [funcFloat, funcFloat]), ("O", funcStr), ("P", funcStr)]
  mapValuesAlias :=
    [("P", [(.vstr "optimize", .vstr "0"), (.vstr "opt", .vstr "0"),
            (.vstr "o", .vstr "0"), (.vstr "model", .vstr "1"),
            (.vstr "mod", .vstr "1"), (.vstr "m", .vstr "1"),
            (.vstr "imgblock", .vstr "2"), (.vstr "block", .vstr "2"),
            (.vstr "b", .vstr "2"), (.vstr "subcomps", .vstr "3"),
            (.vstr "sub", .vstr "3"), (.vstr "s", .vstr "3")])]
  valuesValid :=
    [("O", [.vstr "regular", .vstr "curses", .vstr "both"]),
     ("P", [.vstr "0", .vstr "1", .vstr "2", .vstr "3"])]
  valuesExample :=
    [("A", .vstr "none"), ("B", .vstr "none"), ("C", .vstr "none"),
     ("D", .vstr "none"), ("E", .vint 1), ("F", .vstr "none"),
     ("G", .vstr "none"), ("H", .vvec [.vint 0, .vint 0, .vint 0, .vint 0]),
     ("I", .vvec [.vint 0, .vint 0]), ("J", .vfloat 20),
     ("K", .vvec [.vfloat 1, .vfloat 1]), ("O", .vstr "regular"),
     ("P", .vstr "0")]

namespace Header

/-- header.py `is_par_none`: the parameter's value equals the string 'none'. -/
def isParNone (pars : Pars) (par : String) : Except PyErr Bool := do
  let (v, _) ← SlotsDict.getVal headerSchema pars par
  .ok (v = PyV.vstr "none")

end Header

/-
  Helper views of set_prop used to state its success contract.
-/

/-- Alias substitution followed by the per-key normalization function, for an
    already canonical key: the value-processing pipeline of set_prop. -/
def slotsNormalize (sch : Schema) (p : String) (v : PyV) : Except PyErr PyV :=
  let v1 :=
    match sch.mapValuesAlias.lookup p with
    | some m => match m.lookup v with
                | some v' => v'
                | none => v
    | none => v
  match sch.valuesFuncsType.lookup p with
  | some f => f v1
  | none => .ok v1

/-- The allowed-value check of set_prop for a canonical key. -/
def slotsAllowed (sch : Schema) (p : String) (v : PyV) : Bool :=
  match sch.valuesValid.lookup p with
  | some vs => vs.contains v
  | none => true

/-
  constraint.py: ConsRule / Constraints.

  The six regular grammars are embedded as deterministic matchers on
  character lists.  The patterns involved are anchored and their adjacent
  pieces draw from disjoint character classes (digits/underscores, then
  mandatory whitespace, then alphanumerics, ...), so greedy matching with the
  local fall-backs of the optional fraction/exponent groups coincides with
  Python's backtracking regex semantics on these patterns.
-/

/-- One constraint rule (fields of ConsRule.__init__). -/
structure ConsRule where
  comps : List Int
  par : String
  type_cons : String
  range_cons : List ℚ
  deriving DecidableEq, Repr

/-- The freshly initialized rule of ConsRule.__init__. -/
def ConsRule.empty : ConsRule :=
  { comps := [], par := "", type_cons := "", range_cons := [] }

/-- Keys of ptns_cons in declaration order (the order load_line tries). -/
def kindsOrderCons : List String :=
  ["hard_offset", "hard_ratio", "soft_fromto", "soft_shift",
   "soft_offset", "soft_ratio"]

/-- alias_types_cons, inverted (map_alias_types). -/
def mapAliasTypesCons : List (String × String) :=
  [("hard_diff", "hard_offset"), ("soft_vary", "soft_shift"),
   ("soft_diff", "soft_offset")]

/-- seps_cons: the component separator of each kind (none when empty). -/
def sepCharOf (t : String) : Option Char :=
  if t = "hard_offset" ∨ t = "hard_ratio" then some '_'
  else if t = "soft_offset" then some '-'
  else if t = "soft_ratio" then some '/'
  else none

/-- seps_cons as a string, for serialization. -/
def sepStrOf (t : String) : String :=
  match sepCharOf t with
  | some c => String.mk [c]
  | none => ""

/-- valid_par_names. -/
def validParNames : List String :=
  ["x", "y", "mag", "re", "rs", "n", "q", "pa",
   "alpha", "beta", "gamma", "c", "f1a", "f1p", "f2a", "f2p", "r5"]

/-- alias_par_names_cons, inverted (map_alias_par_names). -/
def mapAliasParNames : List (String × String) :=
  [("ba", "q"), ("x0", "x"), ("y0", "y")]

/-- Python str.isdigit (ASCII): nonempty and all digits. -/
def pyIsDigitStr (s : String) : Bool :=
  decide (s.data ≠ []) && s.data.all isDigitChar

/-- constraint.py `standard_par_name` with raise_err=True: a digit string is
    kept, an alias is canonicalized, a known name is kept, anything else is a
    ValueError.  (A non-str argument would also be a ValueError; the embedding
    takes strings.) -/
def standardParName (par : String) : Except PyErr String :=
  if pyIsDigitStr par then .ok par
  else
    match mapAliasParNames.lookup par with
    | some c => .ok c
    | none =>
      if validParNames.contains par then .ok par else .error .valErr

/-- constraint.py `is_soft_cons` (t.startswith('soft_')). -/
def isSoftCons (t : String) : Bool :=
  t.data.take 5 = ['s', 'o', 'f', 't', '_']

/-- constraint.py `num_comps_req_of_cons`. -/
def numCompsReq (t : String) : Option Nat :=
  if ¬ isSoftCons t then none
  else if t.data.drop 5 = ['f', 'r', 'o', 'm', 't', 'o']
        ∨ t.data.drop 5 = ['s', 'h', 'i', 'f', 't'] then some 1
  else some 2

/-- constraint.py `set_cons`: normalize the kind through its aliases and
    assert validity, take the component ints, check the kind's component
    count, standardize the parameter name, and for soft kinds require a
    2-value range (floats).  Components arrive as ints here: both call sites
    apply int() beforehand, and set_cons's own int() is then the identity. -/
def ConsRule.set_cons (r : ConsRule) (comps : List Int) (par : String)
    (typeCons : String) (rangeCons : Option (List ℚ)) :
    Except PyErr ConsRule := do
  let t :=
    match mapAliasTypesCons.lookup typeCons with
    | some t' => t'
    | none => typeCons
  if ¬ kindsOrderCons.contains t then .error .assertErr
  else do
    (match numCompsReq t with
     | some n => if comps.length ≠ n then .error .assertErr else pure ()
     | none => pure ())
    let p ← standardParName par
    if isSoftCons t then
      match rangeCons with
      | none => .error .typeErr
      | some rs =>
        if rs.length ≠ 2 then .error .assertErr
        else .ok { comps := comps, par := p, type_cons := t, range_cons := rs }
    else .ok { comps := comps, par := p, type_cons := t,
               range_cons := r.range_cons }

/- Grammar matchers. -/

/-- Maximal run of `\d+`; fails when empty. -/
def digitsTok (l : List Char) : Option (List Char × List Char) :=
  let d := l.takeWhile isDigitChar
  if d = [] then none else some (d, l.drop d.length)

/-- Greedy `(?:_\d+)*` (fuel-structured; each round consumes at least two
    characters, so any fuel above the length suffices). -/
def underscoreDigitsAux : Nat → List Char → List Char × List Char
  | 0, l => ([], l)
  | fuel + 1, l =>
    match l with
    | '_' :: r =>
      let d := r.takeWhile isDigitChar
      if d.isEmpty then ([], l)
      else
        let p := underscoreDigitsAux fuel (r.drop d.length)
        ('_' :: (d ++ p.1), p.2)
    | _ => ([], l)

/-- Greedy `(?:_\d+)*`: returns the consumed characters and the rest. -/
def underscoreDigits (l : List Char) : List Char × List Char :=
  underscoreDigitsAux (l.length + 1) l

/-- fmt_comps `\d+_\d+(?:_\d+)*` of the hard kinds: at least two
    underscore-separated runs of digits. -/
def hardCompsTok (l : List Char) : Option (List Char × List Char) := do
  let (d1, r1) ← digitsTok l
  match r1 with
  | '_' :: r2 => do
    let (d2, r3) ← digitsTok r2
    let (c, rest) := underscoreDigits r3
    some (d1 ++ '_' :: (d2 ++ c), rest)
  | _ => none

/-- Pair components `\d+S\d+` for a fixed separator (soft_offset/soft_ratio). -/
def pairCompsTok (sep : Char) (l : List Char) :
    Option (List Char × List Char) := do
  let (d1, r1) ← digitsTok l
  match r1 with
  | c :: r2 =>
    if c = sep then do
      let (d2, r3) ← digitsTok r2
      some (d1 ++ c :: d2, r3)
    else none
  | _ => none

/-- The exponent part `(?:[eE][+-]?\d+)?` with its local fall-back: consumed
    only when complete. -/
def expPart (l : List Char) : List Char × List Char :=
  let isE : Bool :=
    match l.head? with
    | some e => e == 'e' || e == 'E'
    | none => false
  if isE then
    let rest := l.drop 1
    let hasSgn : Bool :=
      match rest.head? with
      | some s => s == '+' || s == '-'
      | none => false
    let rr := if hasSgn then rest.drop 1 else rest
    match digitsTok rr with
    | some (d, r') =>
      (l.take 1 ++ (if hasSgn then rest.take 1 else []) ++ d, r')
    | none => ([], l)
  else ([], l)

/-- fmt_flt `[+-]?\d+(?:\.\d*)?(?:[eE][+-]?\d+)?`. -/
def fltTok (l : List Char) : Option (List Char × List Char) :=
  let hasSgn : Bool :=
    match l.head? with
    | some c => c == '+' || c == '-'
    | none => false
  let sgn : List Char := if hasSgn then l.take 1 else []
  let r0 : List Char := if hasSgn then l.drop 1 else l
  match digitsTok r0 with
  | none => none
  | some (d, r1) =>
    let hasFrac : Bool := r1.head? == some '.'
    let frac : List Char :=
      if hasFrac then '.' :: (r1.drop 1).takeWhile isDigitChar else []
    let r2 : List Char :=
      if hasFrac then (r1.drop 1).dropWhile isDigitChar else r1
    let (ex, r3) := expPart r2
    some (sgn ++ d ++ frac ++ ex, r3)

/-- `\s+` (greedy; the group that follows never starts with whitespace). -/
def wsPlus (l : List Char) : Option (List Char) :=
  match l with
  | c :: _ => if isWsChar c then some (l.dropWhile isWsChar) else none
  | [] => none

/-- The trailing `(?:\s*$|\s+#)` shared by all patterns. -/
def tailWsOrComment (l : List Char) : Bool :=
  if l.all isWsChar then true
  else
    let w := l.takeWhile isWsChar
    decide (w ≠ []) && ((l.drop w.length).head? == some '#')

/-- Literal vals of the hard patterns ('offset' / 'ratio'); no range groups. -/
def litValsTok (lit : List Char) (l : List Char) :
    Option (List (List Char) × List Char) :=
  if l.take lit.length = lit then some ([], l.drop lit.length) else none

/-- fmt_cons_to `({flt})\s+to\s+({flt})` of soft_fromto. -/
def fromtoValsTok (l : List Char) : Option (List (List Char) × List Char) := do
  let (f1, r1) ← fltTok l
  let r2 ← wsPlus r1
  match r2 with
  | 't' :: 'o' :: r3 => do
    let r4 ← wsPlus r3
    let (f2, r5) ← fltTok r4
    some ([f1, f2], r5)
  | _ => none

/-- fmt_cons_range `({flt})\s+({flt})` of the other soft kinds. -/
def rangeValsTok (l : List Char) : Option (List (List Char) × List Char) := do
  let (f1, r1) ← fltTok l
  let r2 ← wsPlus r1
  let (f2, r3) ← fltTok r2
  some ([f1, f2], r3)

/-- fmt_ptn `^\s*(COMPS)\s+([a-zA-Z\d]+)\s+(VALS)(?:\s*$|\s+#)` with the
    kind's components and vals sub-matchers; yields the groups load_line
    uses: components token, parameter token, and the float tokens vals[-2:]
    for soft kinds. -/
def matchConsPtn (compsTok : List Char → Option (List Char × List Char))
    (valsTok : List Char → Option (List (List Char) × List Char))
    (line : List Char) : Option (List Char × List Char × List (List Char)) := do
  let l := line.dropWhile isWsChar
  let (comps, r1) ← compsTok l
  let r2 ← wsPlus r1
  let par := r2.takeWhile isAlnumChar
  if par = [] then none
  else do
    let r4 ← wsPlus (r2.drop par.length)
    let (vals, r5) ← valsTok r4
    if tailWsOrComment r5 then some (comps, par, vals) else none

/-- ptns_cons: the matcher of each kind. -/
def matchKind (t : String) (l : List Char) :
    Option (List Char × List Char × List (List Char)) :=
  if t = "hard_offset" then
    matchConsPtn hardCompsTok (litValsTok ['o', 'f', 'f', 's', 'e', 't']) l
  else if t = "hard_ratio" then
    matchConsPtn hardCompsTok (litValsTok ['r', 'a', 't', 'i', 'o']) l
  else if t = "soft_fromto" then matchConsPtn digitsTok fromtoValsTok l
  else if t = "soft_shift" then matchConsPtn digitsTok rangeValsTok l
  else if t = "soft_offset" then matchConsPtn (pairCompsTok '-') rangeValsTok l
  else if t = "soft_ratio" then matchConsPtn (pairCompsTok '/') rangeValsTok l
  else none

/-- load_line's pattern loop: first kind (in declaration order) whose pattern
    matches. -/
def firstMatchCons (l : List Char) :
    Option (String × List Char × List Char × List (List Char)) :=
  kindsOrderCons.findSome? (fun t =>
    (matchKind t l).map (fun g => (t, g.1, g.2.1, g.2.2)))

/-- Python str.split(sep) for a single-character separator (keeps empties). -/
def splitOnChar (l : List Char) (c : Char) : List (List Char) :=
  match l with
  | [] => [[]]
  | x :: t =>
    if x = c then [] :: splitOnChar t c
    else
      match splitOnChar t c with
      | h :: r => (x :: h) :: r
      | [] => [[x]]

/-- constraint.py `ConsRule.load_line`: skip blank/comment lines, try the six
    grammars in order (silently keeping the rule unchanged when none
    matches), split the components on the kind's separator, parse ints and
    (for soft kinds) the two floats, and delegate to set_cons. -/
def ConsRule.load_line (r : ConsRule) (line : String) : Except PyErr ConsRule :=
  let l := stripChars line.data
  match l with
  | [] => .ok r
  | c :: _ =>
    if c = '#' then .ok r
    else
      match firstMatchCons l with
      | none => .ok r
      | some (t, comps, par, vals) => do
        let compsInts ←
          (match sepCharOf t with
           | none => do
             let n ← strToIntChars comps
             pure [n]
           | some ch => (splitOnChar comps ch).mapM strToIntChars)
        if isSoftCons t then do
          let rs ← (vals.drop (vals.length - 2)).mapM strToFloatChars
          r.set_cons compsInts (String.mk par) t (some rs)
        else r.set_cons compsInts (String.mk par) t none

/-- `ConsRule(line)`: a fresh rule loaded from one line. -/
def ConsRule.ofLine (line : String) : Except PyErr ConsRule :=
  ConsRule.empty.load_line line

/-- constraint.py `Constraints.add_cons` with a single line argument:
    construct the rule and append it to rules_cons. -/
def Constraints.addConsLine (rules : List ConsRule) (line : String) :
    Except PyErr (List ConsRule) := do
  let r ← ConsRule.ofLine line
  .ok (rules ++ [r])

/- Serialization (ConsRule.__str__). -/

/-- Left-pad a digit list with zeros to the given minimal length. -/
def leftPadZeros (l : List Char) (n : Nat) : List Char :=
  List.replicate (n - l.length) '0' ++ l

/-- Fixed-notation rendering of the decimal (sign) a / 10^k with k minimal
    (no trailing fraction zeros): digits with a point k places from the
    right, integer part zero-padded. -/
def renderFixedChars (neg : Bool) (a k : Nat) : List Char :=
  let ds := leftPadZeros (natDigits a) (k + 1)
  let ip := ds.take (ds.length - k)
  let fp := ds.drop (ds.length - k)
  (if neg then ['-'] else []) ++ ip ++ (if k = 0 then [] else '.' :: fp)

/-- The integer-part digits of renderFixedChars (view used in proofs). -/
def ipOf (a k : Nat) : List Char :=
  (leftPadZeros (natDigits a) (k + 1)).take
    ((leftPadZeros (natDigits a) (k + 1)).length - k)

/-- The fraction digits of renderFixedChars (view used in proofs). -/
def fpOf (a k : Nat) : List Char :=
  (leftPadZeros (natDigits a) (k + 1)).drop
    ((leftPadZeros (natDigits a) (k + 1)).length - k)

/-- Smallest scale k with q * 10^k integral (none when q is not a finite
    decimal of scale at most 40). -/
def findDecScale (q : ℚ) : Option Nat :=
  (List.range 41).find? (fun k => (qScale10 q k).den = 1)

/-- C's '%g' conversion on the rational model, exact on its fixed-notation
    domain: finite decimals with at most 6 significant digits and decimal
    exponent between -4 and 5 are printed exactly (sign, digits, point, no
    trailing zeros); everything else %g would round or print in scientific
    notation, which is outside the domain the round-trip theorem is stated
    on, and is rendered here as an out-of-domain marker. -/
def fmtG (q : ℚ) : String :=
  if q = 0 then "0"
  else
    match findDecScale q with
    | none => "?"
    | some k =>
      let n : Int := (qScale10 q k).num
      let a : Nat := n.natAbs
      let dg := natDigits a
      let e : Int := (dg.length : Int) - (k : Int) - 1
      if dg.length ≤ 6 ∧ -4 ≤ e ∧ e ≤ 5 then
        String.mk (renderFixedChars (n < 0) a k)
      else "?"

/-- Join component strings with the kind's separator. -/
def joinSep (sep : List Char) : List (List Char) → List Char
  | [] => []
  | [x] => x
  | x :: t => x ++ sep ++ joinSep sep t

/-- constraint.py `ConsRule.__str__` (character-list form): empty for a rule
    with no components, else components joined by the kind's separator, the
    parameter, and the vals ('offset'/'ratio' literal for hard kinds, '%g'
    pair with a 'to' infix only for soft_fromto), separated by 4 spaces.
    ('%g %g' % tuple(...) with an arity other than 2 would be a TypeError;
    it cannot arise for rules built by set_cons.) -/
def ConsRule.lineChars (r : ConsRule) : List Char :=
  match r.comps with
  | [] => []
  | _ =>
    let comps := joinSep (sepStrOf r.type_cons).data
                   (r.comps.map (fun i => (intStr i).data))
    let vals : List Char :=
      if r.type_cons.data.take 5 = ['h', 'a', 'r', 'd', '_'] then
        r.type_cons.data.drop 5
      else
        match r.range_cons with
        | [a, b] =>
          if r.type_cons = "soft_fromto" then
            (fmtG a).data ++ (' ' :: 't' :: 'o' :: ' ' :: (fmtG b).data)
          else (fmtG a).data ++ ' ' :: (fmtG b).data
        | _ => []
    comps ++ [' ', ' ', ' ', ' '] ++ r.par.data ++ [' ', ' ', ' ', ' '] ++ vals

/-- String form of ConsRule.__str__. -/
def ConsRule.toStr (r : ConsRule) : String := String.mk r.lineChars

/-
  model.py: the Model registry and its concrete profiles.

  Each concrete profile's class tables are the parent's tables merged per
  copy_to_subclass/init_class: a subclass that declares its own keys_alias
  has the parent's entries copied in only for its own keys not already
  declared; a subclass that declares none inherits the parent's table whole.
  values_example and values_funcs_type are inherited whole from Model.
  values_default is the model name for '0' plus the parent defaults for the
  subclass's remaining keys.
-/

/-- Model.values_example, inherited by every concrete profile: Parameter
    examples for keys 1..10, a string for '0', an int for 'Z'. -/
def modelValuesExample : List (String × PyV) :=
  [("0", .vstr ""),
   ("1", .vpar { val := 0, state := 0, uncert := none }),
   ("2", .vpar { val := 0, state := 0, uncert := none }),
   ("3", .vpar { val := 0, state := 0, uncert := none }),
   ("4", .vpar { val := 0, state := 0, uncert := none }),
   ("5", .vpar { val := 0, state := 0, uncert := none }),
   ("6", .vpar { val := 0, state := 0, uncert := none }),
   ("7", .vpar { val := 0, state := 0, uncert := none }),
   ("8", .vpar { val := 0, state := 0, uncert := none }),
   ("9", .vpar { val := 0, state := 0, uncert := none }),
   ("10", .vpar { val := 0, state := 0, uncert := none }),
   ("Z", .vint 0)]

/-- Model.values_funcs_type, inherited by every concrete profile: the
    Parameter constructor for model-variable keys, func_str / func_int for
    '0' / 'Z'. -/
def modelValuesFuncs : List (String × (PyV → Except PyErr PyV)) :=
  [("0", funcStr), ("1", funcParam), ("2", funcParam), ("3", funcParam),
   ("4", funcParam), ("5", funcParam), ("6", funcParam), ("7", funcParam),
   ("8", funcParam), ("9", funcParam), ("10", funcParam), ("Z", funcInt)]

/-- Model.keys_alias (map form), inherited whole by subclasses that declare
    no keys_alias of their own (Sersic, Devauc, PSF, ...). -/
def modelBaseAliasMap : List (String × String) :=
  [("name", "0"), ("modname", "0"), ("x0", "1"), ("y0", "2"), ("mag", "3"),
   ("re", "4"), ("n", "5"), ("ba", "9"), ("pa", "10"), ("skip", "Z")]

/-- values_default of a concrete profile: the model name for '0' and the
    parent's default (from Model.values_default, a copy of its examples) for
    the profile's other keys. -/
def mkModelDefaults (name : String) (keys : List String) :
    List (String × PyV) :=
  ("0", .vstr name) ::
    (keys.filter (fun k => k ≠ "0")).filterMap
      (fun k => (modelValuesExample.lookup k).map (fun v => (k, v)))

/-- Schema of one concrete profile from its keys, alias map and optional
    keys. -/
def mkModelSchema (name : String) (keys : List String)
    (aliasMap : List (String × String)) (opt : List String) : Schema where
  keysSorted := keys
  mapKeysAlias := aliasMap
  keysOptional := opt
  valuesDefault := mkModelDefaults name keys
  valuesFuncsType := modelValuesFuncs
  mapValuesAlias := []
  valuesValid := []
  valuesExample := modelValuesExample

/-- Sersic: keys 0 1 2 3 4 5 9 10 Z, inherited aliases, optional 0/Z. -/
def sersicSchema : Schema :=
  mkModelSchema "sersic" ["0", "1", "2", "3", "4", "5", "9", "10", "Z"]
    modelBaseAliasMap ["0", "Z"]

/-- Sky: keys 0 1 2 3 Z, own aliases bkg/dbdx/dbdy plus inherited 0/Z
    entries, all keys optional. -/
def skySchema : Schema :=
  mkModelSchema "sky" ["0", "1", "2", "3", "Z"]
    [("bkg", "1"), ("dbdx", "2"), ("dbdy", "3"),
     ("name", "0"), ("modname", "0"), ("skip", "Z")]
    ["0", "1", "2", "3", "Z"]

/-- Expdisk: keys 0 1 2 3 4 9 10 Z; '4' is rs (the parent's re alias for '4'
    is not copied in, since '4' is already declared). -/
def expdiskSchema : Schema :=
  mkModelSchema "expdisk" ["0", "1", "2", "3", "4", "9", "10", "Z"]
    [("rs", "4"), ("name", "0"), ("modname", "0"), ("x0", "1"), ("y0", "2"),
     ("mag", "3"), ("ba", "9"), ("pa", "10"), ("skip", "Z")]
    ["0", "Z"]

/-- Edgedisk: keys 0 1 2 3 4 5 10 Z; 3=mu/sb, 4=hs/dh, 5=rs/dl. -/
def edgediskSchema : Schema :=
  mkModelSchema "edgedisk" ["0", "1", "2", "3", "4", "5", "10", "Z"]
    [("mu", "3"), ("sb", "3"), ("hs", "4"), ("dh", "4"), ("rs", "5"),
     ("dl", "5"), ("name", "0"), ("modname", "0"), ("x0", "1"), ("y0", "2"),
     ("pa", "10"), ("skip", "Z")]
    ["0", "Z"]

/-- Devauc: keys 0 1 2 3 4 9 10 Z, inherited aliases. -/
def devaucSchema : Schema :=
  mkModelSchema "devauc" ["0", "1", "2", "3", "4", "9", "10", "Z"]
    modelBaseAliasMap ["0", "Z"]

/-- PSF: keys 0 1 2 3 Z, inherited aliases. -/
def psfSchema : Schema :=
  mkModelSchema "psf" ["0", "1", "2", "3", "Z"] modelBaseAliasMap ["0", "Z"]

/-- Nuker: keys 0..7 9 10 Z; 3=ub, 4=rb, 5=alpha, 6=beta, 7=gamma. -/
def nukerSchema : Schema :=
  mkModelSchema "nuker" ["0", "1", "2", "3", "4", "5", "6", "7", "9", "10", "Z"]
    [("ub", "3"), ("rb", "4"), ("alpha", "5"), ("beta", "6"), ("gamma", "7"),
     ("name", "0"), ("modname", "0"), ("x0", "1"), ("y0", "2"), ("ba", "9"),
     ("pa", "10"), ("skip", "Z")]
    ["0", "Z"]

/-- Moffat: keys 0 1 2 3 4 5 9 10 Z; 4=fwhm, 5=pl. -/
def moffatSchema : Schema :=
  mkModelSchema "moffat" ["0", "1", "2", "3", "4", "5", "9", "10", "Z"]
    [("fwhm", "4"), ("pl", "5"), ("name", "0"), ("modname", "0"),
     ("x0", "1"), ("y0", "2"), ("mag", "3"), ("ba", "9"), ("pa", "10"),
     ("skip", "Z")]
    ["0", "Z"]

/-- Ferrer: keys 0 1 2 3 4 5 6 9 10 Z; 3=mu/sb, 4=tr, 5=alpha, 6=beta. -/
def ferrerSchema : Schema :=
  mkModelSchema "ferrer" ["0", "1", "2", "3", "4", "5", "6", "9", "10", "Z"]
    [("mu", "3"), ("sb", "3"), ("tr", "4"), ("alpha", "5"), ("beta", "6"),
     ("name", "0"), ("modname", "0"), ("x0", "1"), ("y0", "2"), ("ba", "9"),
     ("pa", "10"), ("skip", "Z")]
    ["0", "Z"]

/-- Gaussian: keys 0 1 2 3 4 9 10 Z; 4=fwhm. -/
def gaussianSchema : Schema :=
  mkModelSchema "gaussian" ["0", "1", "2", "3", "4", "9", "10", "Z"]
    [("fwhm", "4"), ("name", "0"), ("modname", "0"), ("x0", "1"),
     ("y0", "2"), ("mag", "3"), ("ba", "9"), ("pa", "10"), ("skip", "Z")]
    ["0", "Z"]

/-- King: keys 0 1 2 3 4 5 6 9 10 Z; 3=mu/sb, 4=rc, 5=rt, 6=alpha. -/
def kingSchema : Schema :=
  mkModelSchema "king" ["0", "1", "2", "3", "4", "5", "6", "9", "10", "Z"]
    [("mu", "3"), ("sb", "3"), ("rc", "4"), ("rt", "5"), ("alpha", "6"),
     ("name", "0"), ("modname", "0"), ("x0", "1"), ("y0", "2"), ("ba", "9"),
     ("pa", "10"), ("skip", "Z")]
    ["0", "Z"]

/-- Model.get_all_models: registered names in Model.__subclasses__ order
    (class definition order in model.py). -/
def modelRegistry : List String :=
  ["sersic", "sky", "expdisk", "edgedisk", "devauc", "psf", "nuker",
   "moffat", "ferrer", "gaussian", "king"]

/-- Model.get_model_class: schema lookup by (lower-case) model name; a
    missing name is the registry KeyError. -/
def modelSchemaOf : String → Option Schema
  | "sersic" => some sersicSchema
  | "sky" => some skySchema
  | "expdisk" => some expdiskSchema
  | "edgedisk" => some edgediskSchema
  | "devauc" => some devaucSchema
  | "psf" => some psfSchema
  | "nuker" => some nukerSchema
  | "moffat" => some moffatSchema
  | "ferrer" => some ferrerSchema
  | "gaussian" => some gaussianSchema
  | "king" => some kingSchema
  | _ => none

/-- A model instance: concrete profile name plus its stored pairs. -/
structure MInst where
  name : String
  pars : Pars
  deriving DecidableEq

namespace MInst

/-- Schema of an instance (total; instances are only created for registered
    names). -/
def sch (m : MInst) : Schema := (modelSchemaOf m.name).getD sersicSchema

/-- model.py `is_sky`. -/
def isSky (m : MInst) : Bool := m.name = "sky"

/-- model.py `is_modvar_key`: valid and not the type-name or skip key.
    (Python tests membership of the key in the string '0Z', i.e. substring:
    for the actual keys '0','1',...,'10','Z' that is exactly being '0' or
    'Z'.) -/
def isModvarKey (m : MInst) (k : String) : Bool :=
  let k := SlotsDict.getStdKey m.sch k
  SlotsDict.isValidKey m.sch k && ¬ (k = "0" || k = "Z")

/-- model.py `get_all_modvars`: the model-variable keys in declared order. -/
def getAllModvars (m : MInst) : List String :=
  m.sch.keysSorted.filter (fun k => isModvarKey m k)

/-- model.py `is_xyvar_key`: key '1' (not through an alias) of a non-sky
    profile addresses the x/y pair in string form. -/
def isXyvarKey (m : MInst) (k : String) : Bool :=
  ¬ isSky m && k = "1"

/-- The in-place `self.get_val(key).update(val)` tail of set_modvar_val for a
    key that is (now) set: fetch the stored Parameter, update it, store the
    updated value back (value-level view of the in-place mutation). -/
def updateSetModvar (m : MInst) (k : String) (v : PyV) :
    Except PyErr MInst := do
  let (pv, pars') ← SlotsDict.getVal m.sch m.pars k
  match pv with
  | .vpar p => do
    let p' ← p.updateArgs [v]
    .ok { m with pars := alistSet pars' (SlotsDict.getStdKey m.sch k) (.vpar p') }
  | _ => .error .attrErr

/-- The non-xy body of model.py `set_modvar_val`: a required unset key goes
    through the base set_prop (constructing a fresh Parameter); an optional
    unset key is first materialized; otherwise the stored Parameter is
    updated in place. -/
def setModvarCore (m : MInst) (k : String) (v : PyV) : Except PyErr MInst := do
  if ¬ isModvarKey m k then .error .assertErr
  else if ¬ SlotsDict.isSetKey m.sch m.pars k then
    if ¬ SlotsDict.isOptKey m.sch k then do
      let pars' ← SlotsDict.setPropE m.sch m.pars k v
      .ok { m with pars := pars' }
    else
      match SlotsDict.touchOptKey m.sch m.pars k with
      | (.error e, _) => .error e
      | (.ok _, pars') => updateSetModvar { m with pars := pars' } k v
  else updateSetModvar m k v

/-- model.py `set_modvar_val`: a 4-field string given for key '1' of a
    non-sky profile sets both x and y (even fields to '1', odd to '2'). -/
def setModvarVal (m : MInst) (k : String) (v : PyV) : Except PyErr MInst := do
  if ¬ isModvarKey m k then .error .assertErr
  else
    match v with
    | .vstr s =>
      if isXyvarKey m k then
        match splitWsChars s.data with
        | [a, b, c, d] => do
          let m1 ← m.setModvarCore "1"
            (.vvec [.vstr (String.mk a), .vstr (String.mk c)])
          m1.setModvarCore "2" (.vvec [.vstr (String.mk b), .vstr (String.mk d)])
        | _ => m.setModvarCore k v
      else m.setModvarCore k v
    | _ => m.setModvarCore k v

/-- model.py Model.set_prop: model variables route through set_modvar_val,
    everything else through the base set_prop. -/
def setProp (m : MInst) (k : String) (v : PyV) : Except PyErr MInst := do
  if isModvarKey m k then m.setModvarVal k v
  else do
    let pars' ← SlotsDict.setPropE m.sch m.pars k v
    .ok { m with pars := pars' }

/-- In-place state mutation of a stored Parameter (m.key.free()/freeze(),
    after the attribute access fetched the object). -/
def setParState (m : MInst) (k : String) (s : Int) : Except PyErr MInst := do
  let (pv, pars') ← SlotsDict.getVal m.sch m.pars k
  match pv with
  | .vpar p =>
    .ok { m with pars := alistSet pars' (SlotsDict.getStdKey m.sch k)
                           (.vpar { p with state := s }) }
  | _ => .error .attrErr

/-- In-place `m.key *= q` on a stored Parameter (Parameter.__imul__ with a
    number: set_val(val * q)). -/
def imulPar (m : MInst) (k : String) (q : ℚ) : Except PyErr MInst := do
  let (pv, pars') ← SlotsDict.getVal m.sch m.pars k
  match pv with
  | .vpar p =>
    .ok { m with pars := alistSet pars' (SlotsDict.getStdKey m.sch k)
                           (.vpar { p with val := qMul p.val q }) }
  | _ => .error .attrErr

/-- model.py `_gen_to_other_model` (diagnostic printing not modelled): build
    a fresh instance of the target, copy the skip flag, and copy every
    model-variable whose key is known in the source and valid in the target.
    Returns the new instance together with the (possibly touched) source. -/
def genToOtherModel (self : MInst) (modName : String) :
    Except PyErr (MInst × MInst) := do
  match modelSchemaOf modName with
  | none => .error .keyErr
  | some _ => do
    let m0 : MInst := { name := modName, pars := [] }
    -- m.Z = self.Z
    let (z, selfPars1) ← SlotsDict.getVal self.sch self.pars "Z"
    let m1 ← m0.setProp "Z" z
    let self1 : MInst := { self with pars := selfPars1 }
    -- keys known in the source, in the target's declared order
    let keysSet := (getAllModvars self1).filter
      (fun k => SlotsDict.isValKnownKey self1.sch self1.pars k)
    let keys := (getAllModvars m1).filter (fun k => keysSet.contains k)
    -- vals = self.get_modvars(keys, return_dict=True): reads can materialize
    -- optional defaults in the source (sky), so the source pars are threaded
    let r ← keys.foldlM
      (fun (acc : List (String × PyV) × Pars) k => do
        let (v, ps) ← SlotsDict.getVal self1.sch acc.2 k
        pure (acc.1 ++ [(k, v)], ps))
      (([], self1.pars) : List (String × PyV) × Pars)
    let (vals, selfPars2) := r
    -- m.set_modvars_val(vals)
    let m2 ← vals.foldlM (fun mm kv => mm.setModvarVal kv.1 kv.2) m1
    .ok (m2, { self with pars := selfPars2 })

/-- model.py SlotsDict.copy for a model instance: fresh instance of the same
    type, then set_prop of every set key's value.  (Python iterates the
    keys_valid set in unspecified order; declared key order is used here —
    the resulting stored pairs are equal as a map.) -/
def copyM (self : MInst) : Except PyErr MInst := do
  let m0 : MInst := { name := self.name, pars := [] }
  self.sch.keysSorted.foldlM
    (fun mm k => do
      if SlotsDict.isSetKey self.sch self.pars k then do
        let (v, _) ← SlotsDict.getVal self.sch self.pars k
        mm.setProp k v
      else pure mm)
    m0

end MInst

/-- model.py `Sersic.to_devauc` (the warn branch only prints). -/
def Sersic.to_devauc (self : MInst) : Except PyErr MInst := do
  let (m, _) ← self.genToOtherModel "devauc"
  .ok m

/-- model.py `Sersic.to_expdisk`: generic transform, then the radius '4' is
    rescaled in place by 1/1.678 when known in the new expdisk (whose alias
    for '4' is rs). -/
def Sersic.to_expdisk (self : MInst) : Except PyErr MInst := do
  let (m, _) ← self.genToOtherModel "expdisk"
  if SlotsDict.isValKnownKey m.sch m.pars "rs" then
    -- the float 1/1.678 of the source
    m.imulPar "rs" (Rat.divInt 1000 1678)
  else .ok m

/-- model.py `Expdisk.to_sersic`: generic transform; the radius rescale by
    1.678 is guarded by is_val_known_key('rs') asked of the new Sersic, for
    which 'rs' is not a key, so the guard is always false; then n is set to 1
    and frozen (freed again when n_free). -/
def Expdisk.to_sersic (self : MInst) (nFree : Bool) : Except PyErr MInst := do
  let (m, _) ← self.genToOtherModel "sersic"
  let m ←
    if SlotsDict.isValKnownKey m.sch m.pars "rs" then
      -- the float literal 1.678 of the source (dead branch, see the claim)
      m.imulPar "re" (Rat.divInt 1678 1000)
    else pure m
  let m ← m.setProp "5" (.vint 1)
  let m ← m.setParState "5" 0
  if nFree then m.setParState "5" 1 else pure m

/-- model.py `Expdisk.to_edgedisk`: generic transform; the scale length '4'
    of the expdisk becomes '5' of the edgedisk, and its scale height '4' is
    derived as rs.val * ba.val with the combined free/frozen state. -/
def Expdisk.to_edgedisk (self : MInst) : Except PyErr MInst := do
  let (m, self1) ← self.genToOtherModel "edgedisk"
  let (rsV, sp1) ← SlotsDict.getVal self1.sch self1.pars "rs"
  match rsV with
  | .vpar rs => do
    let m ← m.setProp "5" (.vpar rs)
    let (baV, _) ← SlotsDict.getVal self1.sch sp1 "ba"
    match baV with
    | .vpar ba => do
      let hs := qMul rs.val ba.val
      let shs := Param.state_of_comb rs.state ba.state
      m.setProp "4" (.vvec [.vfloat hs, .vint shs])
    | _ => .error .attrErr
  | _ => .error .attrErr

/-- model.py `Edgedisk.to_expdisk`: the inverse derivation; asserts a
    positive scale height and divides by the scale length (ZeroDivisionError
    when zero). -/
def Edgedisk.to_expdisk (self : MInst) : Except PyErr MInst := do
  let (m, self1) ← self.genToOtherModel "expdisk"
  let (rsV, sp1) ← SlotsDict.getVal self1.sch self1.pars "rs"
  match rsV with
  | .vpar rs => do
    let m ← m.setProp "4" (.vpar rs)
    let (hsV, _) ← SlotsDict.getVal self1.sch sp1 "hs"
    match hsV with
    | .vpar hs => do
      if ¬ (hs.val > 0) then .error .assertErr
      else if rs.val = 0 then .error .zeroDivErr
      else do
        let ba := qDiv hs.val rs.val
        let sba := Param.state_of_comb rs.state hs.state
        m.setProp "9" (.vvec [.vfloat ba, .vint sba])
    | _ => .error .attrErr
  | _ => .error .attrErr

/-- model.py `Devauc.to_sersic`: generic transform, then n = 4 frozen. -/
def Devauc.to_sersic (self : MInst) (nFree : Bool) : Except PyErr MInst := do
  let (m, _) ← self.genToOtherModel "sersic"
  let m ← m.setProp "5" (.vint 4)
  let m ← m.setParState "5" 0
  if nFree then m.setParState "5" 1 else pure m

namespace MInst

/-- model.py `has_direct_trans`: hasattr(cls, 'to_' + mod) over the concrete
    profiles (each to_* method lives on exactly one class). -/
def hasDirectTrans (src dst : String) : Bool :=
  (src = "sersic" && (dst = "devauc" || dst = "expdisk")) ||
  (src = "expdisk" && (dst = "sersic" || dst = "edgedisk")) ||
  (src = "edgedisk" && dst = "expdisk") ||
  (src = "devauc" && dst = "sersic")

/-- The transform function of a declared edge (kwargs are empty in graph
    traversal, so n_free defaults to false). -/
def applyEdge (e : String × String) (m : MInst) : Except PyErr MInst :=
  if e = ("sersic", "devauc") then Sersic.to_devauc m
  else if e = ("sersic", "expdisk") then Sersic.to_expdisk m
  else if e = ("expdisk", "sersic") then Expdisk.to_sersic m false
  else if e = ("expdisk", "edgedisk") then Expdisk.to_edgedisk m
  else if e = ("edgedisk", "expdisk") then Edgedisk.to_expdisk m
  else if e = ("devauc", "sersic") then Devauc.to_sersic m false
  else .error .attrErr

/-- The funcs adjacency of mod_trans_to: for each registered model (in
    registry order) its direct-transform targets (in registry order); models
    without outgoing edges are absent, matching the `m not in funcs` test. -/
def buildFuncs : List (String × List String) :=
  modelRegistry.filterMap (fun m =>
    let outs := modelRegistry.filter (fun n => n ≠ m && hasDirectTrans m n)
    match outs with
    | [] => none
    | _ => some (m, outs))

/-- The breadth-first search loop of mod_trans_to over funcs: pop the front
    of tovisit, mark visited, extend paths along unvisited targets, stop as
    soon as an edge into the target is found.  The fuel bounds the number of
    loop iterations; 100 exceeds the total number of edges of the fixed
    registry, so it is never exhausted. -/
def bfsLoop (funcs : List (String × List String)) (target : String) :
    Nat → List String → List String →
    List (String × List (String × String)) →
    List (String × List (String × String))
  | 0, _, _, funcslist => funcslist
  | _ + 1, [], _, funcslist => funcslist
  | fuel + 1, m :: rest, visited, funcslist =>
    let visited := m :: visited
    match funcs.lookup m with
    | none => bfsLoop funcs target fuel rest visited funcslist
    | some outs =>
      let fs := (funcslist.lookup m).getD []
      if outs.contains target then
        alistSet funcslist target (fs ++ [(m, target)])
      else
        let st := outs.foldl
          (fun (acc : List String × List (String × List (String × String))) t =>
            if visited.contains t then acc
            else (acc.1 ++ [t], alistSet acc.2 t (fs ++ [(m, t)])))
          (rest, funcslist)
        bfsLoop funcs target fuel st.1 visited st.2

/-- model.py `mod_trans_to` with a string target (printing suppressed, no
    extra kwargs).  When the target equals the current type a copy is
    computed but — the source lacks a return there — discarded, and control
    falls through to the direct/graph search. -/
def modTransTo (self : MInst) (mod : String) : Except PyErr MInst := do
  let modNow := self.name
  let _ ← (if mod = modNow then do
             let _ ← self.copyM
             pure PUnit.unit
           else pure PUnit.unit)
  if hasDirectTrans modNow mod then applyEdge (modNow, mod) self
  else
    let toMod := modelRegistry.any (fun m => m ≠ mod && hasDirectTrans m mod)
    if ¬ toMod then .error .excErr
    else
      let funcslist := bfsLoop buildFuncs mod 100 [modNow] [] [(modNow, [])]
      match funcslist.lookup mod with
      | none => .error .excErr
      | some path => path.foldlM (fun mm e => applyEdge e mm) self

end MInst

deriving instance DecidableEq for Except

/-
  galfit.py: the GalFit document object (parts needed by the claims).
-/

/-- Character class `[0-9a-zA-Z.]` of the variant-line key. -/
def isVarKeyChar (c : Char) : Bool := isAlnumChar c || c == '.'

/-- _PATTERN_VARLINE `^\s*([0-9a-zA-Z.]+)\)\s+([^#]+?)(?:\s+#|\s*$)` via
    explicit backtracking: the greedy `\s+` tries longest first and the lazy
    value group shortest first; the first combination whose value avoids '#'
    and whose tail is `\s+#` or `\s*$` wins, exactly as in the regex. -/
def matchVarline (line : String) : Option (String × String) :=
  let l := line.data.dropWhile isWsChar
  let key := l.takeWhile isVarKeyChar
  match key with
  | [] => none
  | _ =>
    match l.drop key.length with
    | ')' :: r =>
      let w := (r.takeWhile isWsChar).length
      if w = 0 then none
      else
        (List.range w).findSome? (fun i =>
          let content := r.drop (w - i)
          (List.range content.length).findSome? (fun j =>
            let v := content.take (j + 1)
            let rest := content.drop (j + 1)
            if v.all (fun c => c ≠ '#') &&
               (rest.all isWsChar ||
                (decide ((rest.takeWhile isWsChar) ≠ []) &&
                 ((rest.dropWhile isWsChar).head? == some '#'))) then
              some (String.mk key, String.mk v)
            else none))
    | _ => none

/-- GalFit document state: header pairs, component list, work directory
    (attrs/comments are not involved in the claims). -/
structure GFDoc where
  workdir : String
  header : Pars
  comps : List MInst
  deriving DecidableEq

namespace GalFit

/-- The per-line routing of galfit.py `load_file` (chisq/input parsing off):
    a recognized `key) value` line goes to the header when the header knows
    the key, opens a new component when the key is '0' (registry lookup of
    the lower-cased value), and otherwise goes to `self.comps[-1]` — an
    IndexError when no component is open yet — if that component knows the
    key. -/
def loadLines : List String → GFDoc → Except PyErr GFDoc
  | [], doc => .ok doc
  | line :: rest, doc =>
    match matchVarline line with
    | none => loadLines rest doc
    | some (key, val) =>
      if SlotsDict.isValidKey headerSchema key then do
        let hp ← SlotsDict.setPropE headerSchema doc.header key (.vstr val)
        loadLines rest { doc with header := hp }
      else if key = "0" then
        match modelSchemaOf val.toLower with
        | none => .error .keyErr
        | some _ =>
          loadLines rest
            { doc with comps := doc.comps ++ [{ name := val.toLower, pars := [] }] }
      else
        match doc.comps.getLast? with
        | none => .error .indexErr
        | some c =>
          if SlotsDict.isValidKey c.sch key then do
            let c' ← c.setProp key (.vstr val)
            loadLines rest { doc with comps := doc.comps.dropLast ++ [c'] }
          else loadLines rest doc

/-- header.py `Header.get_file_pars` as called: the method takes no keyword
    arguments, so a call that passes any keyword raises TypeError before the
    body runs. -/
def getFileParsCall (kwargs : List String) : Except PyErr (List String) :=
  match kwargs with
  | [] => .ok ["A", "C", "D", "F", "G"]
  | _ => .error .typeErr

/-- Lexical os.path.join: an absolute second path wins, an empty directory
    contributes nothing, otherwise the two are joined with '/'. -/
def osPathJoin (d p : String) : String :=
  if p.startsWith "/" then p
  else if d = "" then p
  else if d.endsWith "/" then d ++ p
  else d ++ "/" ++ p

/-- Lexical os.path.relpath for already-comparable paths: drop the common
    leading components, then one '..' per remaining component of start. -/
def osPathRelpath (path start : String) : String :=
  let ps := (path.splitOn "/").filter (fun s => s ≠ "" && s ≠ ".")
  let ss := (start.splitOn "/").filter (fun s => s ≠ "" && s ≠ ".")
  let rec dropCommon : List String → List String → List String × List String
    | a :: as, b :: bs => if a = b then dropCommon as bs else (a :: as, b :: bs)
    | a, b => (a, b)
  let (pr, sr) := dropCommon ps ss
  let parts := (sr.map (fun _ => "..")) ++ pr
  match parts with
  | [] => "."
  | _ => String.intercalate "/" parts

/-- galfit.py `chdir_to`: unless keep_header, iterate the header's file
    parameters — but the call `self.header.get_file_pars(skip_output=...)`
    passes a keyword the method does not accept, so that branch raises
    TypeError before touching anything; with keep_header only the work
    directory changes. -/
def chdirTo (doc : GFDoc) (dest : String) (keepHeader : Bool)
    (_skipOutput : Bool) : Except PyErr GFDoc := do
  if ¬ keepHeader then do
    let pars ← getFileParsCall ["skip_output"]
    let hp ← pars.foldlM
      (fun (hp : Pars) par => do
        let none? ← Header.isParNone hp par
        if none? then pure hp
        else do
          let (v, hp1) ← SlotsDict.getVal headerSchema hp par
          match v with
          | .vstr oldf =>
            let path := osPathJoin doc.workdir oldf
            let newf := osPathRelpath path dest
            SlotsDict.setPropE headerSchema hp1 par (.vstr newf)
          | _ => .error .typeErr)
      doc.header
    .ok { doc with header := hp, workdir := dest }
  else .ok { doc with workdir := dest }

end GalFit

/-
  Heap-level view of Model.set_modvar_val for the in-place-update claim:
  Parameters live in an explicit heap and the record maps keys to addresses,
  making Python's object identity observable.  The field semantics of the
  update is the same Param.updateArgs as in the value-level embedding.
-/

/-- Parameter heap: addresses are list indices. -/
abbrev PHeap := List Param

/-- A model instance whose model-variable slots hold Parameter addresses. -/
structure MRef where
  name : String
  parsR : List (String × Nat)

namespace MRef

/-- Schema of the instance. -/
def sch (m : MRef) : Schema := (modelSchemaOf m.name).getD sersicSchema

def isSky (m : MRef) : Bool := m.name = "sky"

def isModvarKey (m : MRef) (k : String) : Bool :=
  let k := SlotsDict.getStdKey m.sch k
  SlotsDict.isValidKey m.sch k && ¬ (k = "0" || k = "Z")

def isXyvarKey (m : MRef) (k : String) : Bool := ¬ isSky m && k = "1"

/-- Base set_prop on a model-variable key: normalization by the Parameter
    constructor allocates a fresh object, and the slot is pointed at it. -/
def setPropModvarH (m : MRef) (h : PHeap) (k : String) (v : PyV) :
    Except PyErr (MRef × PHeap) := do
  let p0 ← Param.new [v]
  .ok ({ m with parsR := alistSet m.parsR (SlotsDict.getStdKey m.sch k) h.length },
       h ++ [p0])

/-- The non-xy body of set_modvar_val on the heap view: an unset required
    key allocates through the base set_prop; an unset optional key is first
    materialized from its default (also a fresh allocation); a set key's
    Parameter is updated at its existing address, the slot untouched. -/
def setModvarCoreH (m : MRef) (h : PHeap) (k : String) (v : PyV) :
    Except PyErr (MRef × PHeap) := do
  if ¬ isModvarKey m k then .error .assertErr
  else
    let p := SlotsDict.getStdKey m.sch k
    match m.parsR.lookup p with
    | none =>
      if ¬ SlotsDict.isOptKey m.sch k then m.setPropModvarH h k v
      else do
        match SlotsDict.getDefaultVal m.sch k with
        | .error e => .error e
        | .ok d => do
          let (m1, h1) ← m.setPropModvarH h k d
          match m1.parsR.lookup p with
          | none => .error .keyErr
          | some a =>
            match h1.get? a with
            | none => .error .keyErr
            | some q => do
              let q' ← q.updateArgs [v]
              .ok (m1, h1.set a q')
    | some a =>
      match h.get? a with
      | none => .error .keyErr
      | some q => do
        let q' ← q.updateArgs [v]
        .ok (m, h.set a q')

/-- Heap view of model.py `set_modvar_val` (xy pair case included). -/
def setModvarValH (m : MRef) (h : PHeap) (k : String) (v : PyV) :
    Except PyErr (MRef × PHeap) := do
  if ¬ isModvarKey m k then .error .assertErr
  else
    match v with
    | .vstr s =>
      if isXyvarKey m k then
        match splitWsChars s.data with
        | [a, b, c, d] => do
          let (m1, h1) ← m.setModvarCoreH h "1"
            (.vvec [.vstr (String.mk a), .vstr (String.mk c)])
          m1.setModvarCoreH h1 "2" (.vvec [.vstr (String.mk b), .vstr (String.mk d)])
        | _ => m.setModvarCoreH h k v
      else m.setModvarCoreH h k v
    | _ => m.setModvarCoreH h k v

end MRef

/-- A sersic instance with every model variable set (uncertainties absent, as
    after programmatic construction). -/
def sersicWithVars (x0 y0 mag re n ba pa : ℚ)
    (sx sy sm sr sn sb sp : Int) : MInst :=
  { name := "sersic",
    pars :=
      [("1", .vpar { val := x0, state := sx, uncert := none }),
       ("2", .vpar { val := y0, state := sy, uncert := none }),
       ("3", .vpar { val := mag, state := sm, uncert := none }),
       ("4", .vpar { val := re, state := sr, uncert := none }),
       ("5", .vpar { val := n, state := sn, uncert := none }),
       ("9", .vpar { val := ba, state := sb, uncert := none }),
       ("10", .vpar { val := pa, state := sp, uncert := none })] }

/-- The domain on which '%g' renders a rational exactly in fixed notation:
    zero, or a finite decimal with at most 6 significant digits and decimal
    exponent in [-4, 5] (the conditions checked inside fmtG). -/
def isGExact (q : ℚ) : Bool :=
  q == 0 ||
    (match findDecScale q with
     | none => false
     | some k =>
       let a := (qScale10 q k).num.natAbs
       let dg := (natDigits a).length
       let e : Int := (dg : Int) - (k : Int) - 1
       decide (dg ≤ 6) && decide (-4 ≤ e) && decide (e ≤ 5))

/-- The tail of an underscore-joined component list (view used in proofs). -/
def tailJoin (ds : List (List Char)) : List Char :=
  ds.foldr (fun d acc => '_' :: (d ++ acc)) []

/-- A rule on which serialization is exactly invertible: a registered kind,
    nonnegative components meeting the kind's arity (at least two for the
    hard kinds, whose separator appears in the pattern), an alphanumeric
    parameter name fixed by standard_par_name, and for soft kinds a 2-value
    range whose floats '%g' prints exactly (hard kinds carry no range). -/
def ConsRule.wellFormed (r : ConsRule) : Bool :=
  kindsOrderCons.contains r.type_cons &&
  r.comps.all (fun z => decide (0 ≤ z)) &&
  (match numCompsReq r.type_cons with
   | some n => decide (r.comps.length = n)
   | none => decide (2 ≤ r.comps.length)) &&
  decide (r.par.data ≠ []) && r.par.data.all isAlnumChar &&
  decide (standardParName r.par = .ok r.par) &&
  (if isSoftCons r.type_cons then
     match r.range_cons with
     | [a, b] => isGExact a && isGExact b
     | _ => false
   else decide (r.range_cons = []))

/-
  ===========================================================================
  Theorems
  ===========================================================================
-/

/-- Reduction of a bind on a successful Except (helper for proofs). -/
@[simp]
theorem exceptBindOk {α β : Type} (a : α) (f : α → Except PyErr β) :
    (do let x ← (Except.ok a : Except PyErr α); f x) = f a := rfl

/-- Reduction of a bind on a failed Except (helper for proofs). -/
@[simp]
theorem exceptBindError {α β : Type} (e : PyErr) (f : α → Except PyErr β) :
    (do let x ← (Except.error e : Except PyErr α); f x) = .error e := rfl

/-- C10: a recognized parameter line whose key is a component key but not a
    Header key ('3) 20.0 1'), appearing before any component-opening '0)'
    line, makes load_file fail with an uncaught IndexError from
    `self.comps[-1]` on the empty component list — it is neither skipped nor
    a structured parse error. -/
theorem c10_orphan_component_line_index_error :
    matchVarline "3) 20.0 1" = some ("3", "20.0 1") ∧
    SlotsDict.isValidKey headerSchema "3" = false ∧
    GalFit.loadLines ["3) 20.0 1"] { workdir := "", header := [], comps := [] }
      = .error .indexErr := by
  refine ⟨by decide, by decide, by decide⟩

/-- C5: chdir_to with keep_header unset always raises TypeError — the call
    `self.header.get_file_pars(skip_output=...)` passes a keyword argument the
    method does not accept — before rewriting any file parameter or the work
    directory; with keep_header set, only the work directory changes. -/
theorem c5_chdir_to_typeerror (doc : GFDoc) (dest : String) (skip : Bool) :
    GalFit.chdirTo doc dest false skip = .error .typeErr ∧
    GalFit.chdirTo doc dest true skip = .ok { doc with workdir := dest } :=
  ⟨rfl, rfl⟩

/-- C1: mod_trans_to with the target equal to the instance's own type does
    not return a copy: the copy is computed but discarded (missing return),
    and control falls through to the transform search.  For a Sky instance
    this raises ('cannot transform from sky to sky'); for a Sersic instance
    the result has gone through expdisk and back, so n is reset to 1 frozen
    instead of keeping its value — not a copy. -/
theorem c1_self_transform_is_not_copy :
    MInst.modTransTo { name := "sky", pars := [] } "sky" = .error .excErr ∧
    (MInst.modTransTo
        (sersicWithVars 50 60 20 (mkRat 1678 1000) 2 (mkRat 1 2) 30 1 1 1 1 1 0 1)
        "sersic").map (fun m => m.pars.lookup "5")
      = .ok (some (.vpar { val := 1, state := 0, uncert := none })) ∧
    (sersicWithVars 50 60 20 (mkRat 1678 1000) 2 (mkRat 1 2) 30 1 1 1 1 1 0 1).pars.lookup "5"
      = some (.vpar { val := 2, state := 1, uncert := none }) := by
  refine ⟨by decide, by decide, by decide⟩

/-- C4: the declared Sersic→Expdisk transform does rescale the radius key
    '4' by 1/1.678 (re 1.678 becomes rs 1), but Expdisk→Sersic leaves the
    radius unscaled: its guard asks the new Sersic for the key 'rs', which a
    Sersic does not have, so the intended `m.re *= 1.678` (the code comment
    says 'rs to re') is dead and rs 1.678 yields re 1.678, not 2.815684. -/
theorem c4_expdisk_to_sersic_radius_unscaled :
    (Sersic.to_expdisk
        (sersicWithVars 50 60 20 (mkRat 1678 1000) 2 (mkRat 1 2) 30 1 1 1 1 1 0 1)).map
      (fun m => m.pars.lookup "4")
      = .ok (some (.vpar { val := 1, state := 1, uncert := none })) ∧
    (Expdisk.to_sersic
        { name := "expdisk",
          pars := [("4", .vpar { val := mkRat 1678 1000, state := 1, uncert := none })] }
        false).map
      (fun m => (m.pars.lookup "4", SlotsDict.isValKnownKey m.sch m.pars "rs"))
      = .ok (some (.vpar { val := mkRat 1678 1000, state := 1, uncert := none }), false) := by
  exact ⟨by decide, by decide⟩

/-- C7: reading an unset optional key whose (example-derived) value type is
    immutable returns the declared default and leaves the stored pairs
    unchanged; reading an unset required key fails with the unset-parameter
    AttributeError.  For a fresh Header, is_par_none('A') holds, and after
    setting 'A' to 'foo.fits' reading 'A' returns it.  (The canonical key is
    assumed not to be an alias itself, as in every schema of the repo.) -/
theorem c7_get_val_unset_keys :
    (∀ (sch : Schema) (pars : Pars) (k : String) (d : PyV),
      SlotsDict.getStdKey sch (SlotsDict.getStdKey sch k)
          = SlotsDict.getStdKey sch k →
      sch.keysSorted.contains (SlotsDict.getStdKey sch k) = true →
      pars.lookup (SlotsDict.getStdKey sch k) = none →
      sch.keysOptional.contains (SlotsDict.getStdKey sch k) = true →
      SlotsDict.isMutableProp sch (SlotsDict.getStdKey sch k) = false →
      sch.valuesDefault.lookup (SlotsDict.getStdKey sch k) = some d →
      SlotsDict.getVal sch pars k = .ok (d, pars)) ∧
    (∀ (sch : Schema) (pars : Pars) (k : String),
      sch.keysSorted.contains (SlotsDict.getStdKey sch k) = true →
      pars.lookup (SlotsDict.getStdKey sch k) = none →
      sch.keysOptional.contains (SlotsDict.getStdKey sch k) = false →
      SlotsDict.getVal sch pars k = .error .attrErr) ∧
    Header.isParNone [] "A" = .ok true ∧
    SlotsDict.setPropE headerSchema [] "A" (.vstr "foo.fits")
      = .ok [("A", .vstr "foo.fits")] ∧
    SlotsDict.getVal headerSchema [("A", .vstr "foo.fits")] "A"
      = .ok (.vstr "foo.fits", [("A", .vstr "foo.fits")]) := by
  refine ⟨?_, ?_, by decide, by decide, by decide⟩
  · intro sch pars k d hid hcont hlook hopt hmut hd
    simp only [SlotsDict.getVal, SlotsDict.getDefaultVal, SlotsDict.isOptKey,
      SlotsDict.isValidKey, hid, hcont, hlook, hopt, hmut, hd,
      Bool.not_true, Bool.false_eq_true, if_false, Bool.and_self,
      Bool.true_and, ite_false, ite_true]
    simp
  · intro sch pars k hcont hlook hopt
    simp only [SlotsDict.getVal, hcont, hlook, hopt, Bool.not_true,
      Bool.false_eq_true, if_false, ite_false, ite_true]
    simp

/-- C7 witness: the generic conjuncts applied to the Header's optional key
    'A' (default 'none', immutable) and required key 'B' on a fresh header. -/
theorem c7_get_val_unset_keys_witness :
    SlotsDict.getVal headerSchema [] "A" = .ok (.vstr "none", []) ∧
    SlotsDict.getVal headerSchema [] "B" = .error .attrErr :=
  ⟨c7_get_val_unset_keys.1 headerSchema [] "A" (.vstr "none")
      (by decide) (by decide) (by decide) (by decide) (by decide) (by decide),
   c7_get_val_unset_keys.2.1 headerSchema [] "B"
      (by decide) (by decide) (by decide)⟩

/-- C9: set_prop is atomic — whenever it fails (unknown key, normalization
    failure, or allowed-value rejection) the stored pairs are exactly what
    they were before the call; and on success the stored value is the result
    of alias substitution plus normalization and has passed the
    allowed-value check. -/
theorem c9_set_prop_atomic (sch : Schema) (pars : Pars) (k : String)
    (v : PyV) :
    (∀ e, (SlotsDict.setProp sch pars k v).1 = .error e →
      (SlotsDict.setProp sch pars k v).2 = pars) ∧
    (∀ u, (SlotsDict.setProp sch pars k v).1 = .ok u →
      SlotsDict.isValidKey sch k = true ∧
      ∃ v2, slotsNormalize sch (SlotsDict.getStdKey sch k) v = .ok v2 ∧
        slotsAllowed sch (SlotsDict.getStdKey sch k) v2 = true ∧
        (SlotsDict.setProp sch pars k v).2
          = alistSet pars (SlotsDict.getStdKey sch k) v2) := by
  simp only [SlotsDict.setProp, slotsNormalize, slotsAllowed,
    SlotsDict.isValidKey]
  split
  · constructor
    · intro e _
      rfl
    · intro u h
      cases h
  case isFalse hvalid =>
    split
    case h_1 e heq =>
      constructor
      · intro e' _
        rfl
      · intro u h
        cases h
    case h_2 v2 heq =>
      split
      case h_1 vs hvs =>
        split
        case isTrue hin =>
          constructor
          · intro e h
            cases h
          · intro u _
            exact ⟨by simpa using hvalid, v2, heq, hin, rfl⟩
        case isFalse hin =>
          constructor
          · intro e _
            rfl
          · intro u h
            cases h
      case h_2 hvs =>
        constructor
        · intro e h
          cases h
        · intro u _
          exact ⟨by simpa using hvalid, v2, heq, rfl, rfl⟩

/-- C9 witness: an unknown key fails and leaves the fresh header unchanged;
    a valid assignment to 'A' stores the normalized value. -/
theorem c9_set_prop_atomic_witness :
    (SlotsDict.setProp headerSchema [] "X" (.vstr "v")).1 = .error .excErr ∧
    (SlotsDict.setProp headerSchema [] "X" (.vstr "v")).2 = [] ∧
    (SlotsDict.setProp headerSchema [] "A" (.vstr "a.fits")).1 = .ok () ∧
    (SlotsDict.setProp headerSchema [] "A" (.vstr "a.fits")).2
      = alistSet [] "A" (.vstr "a.fits") := by
  have h1 := (c9_set_prop_atomic headerSchema [] "X" (.vstr "v")).1 .excErr
    (by decide)
  have h2 := (c9_set_prop_atomic headerSchema [] "A" (.vstr "a.fits")).2 ()
    (by decide)
  refine ⟨by decide, h1, by decide, ?_⟩
  obtain ⟨-, v2, hnorm, -, hset⟩ := h2
  have hL : slotsNormalize headerSchema
      (SlotsDict.getStdKey headerSchema "A") (PyV.vstr "a.fits")
      = .ok (PyV.vstr "a.fits") := by decide
  rw [hL] at hnorm
  injection hnorm with hv
  rw [hset, ← hv]
  decide

/-- C3 counterexample: the line 'hello world' is non-blank, does not start
    with '#', and matches none of the six grammars, yet parsing raises
    nothing and add_cons appends a(n empty) rule to the collection — the
    claimed fail-fast error with no rule added does not happen. -/
theorem c3_unmatched_line_counterexample :
    ConsRule.ofLine "hello world" = .ok ConsRule.empty ∧
    Constraints.addConsLine [] "hello world" = .ok [ConsRule.empty] ∧
    stripChars "hello world".data ≠ [] ∧
    (stripChars "hello world".data).head? ≠ some '#' ∧
    firstMatchCons (stripChars "hello world".data) = none := by
  exact ⟨by decide, by decide, by decide, by decide, by decide⟩

/-- C3 amended: a non-blank, non-comment line matching none of the six
    grammars is silently ignored — load_line returns the rule unchanged and
    raises nothing, and add_cons still appends the resulting empty rule; a
    constraint-parse error (ValueError from standard_par_name) is raised only
    when a line matches a grammar but carries an invalid parameter token. -/
theorem c3_unmatched_line_silently_ignored (line : String)
    (rules : List ConsRule)
    (hne : stripChars line.data ≠ [])
    (hhash : (stripChars line.data).head? ≠ some '#')
    (hnm : firstMatchCons (stripChars line.data) = none) :
    ConsRule.ofLine line = .ok ConsRule.empty ∧
    Constraints.addConsLine rules line = .ok (rules ++ [ConsRule.empty]) ∧
    ConsRule.ofLine "1_2   zz   offset" = .error .valErr := by
  have h1 : ConsRule.ofLine line = .ok ConsRule.empty := by
    unfold ConsRule.ofLine ConsRule.load_line
    rcases hl : stripChars line.data with _ | ⟨c, t⟩
    · exact absurd hl hne
    · rw [hl] at hhash hnm
      have hc : ¬ (c = '#') := by
        intro h
        exact hhash (by simp [h])
      simp [hc, hnm]
  refine ⟨h1, ?_, by decide⟩
  unfold Constraints.addConsLine
  rw [h1]
  rfl

/-- C3 witness: the amended behavior at the concrete line 'abc'. -/
theorem c3_unmatched_line_witness :
    ConsRule.ofLine "abc" = .ok ConsRule.empty ∧
    Constraints.addConsLine [] "abc" = .ok [ConsRule.empty] ∧
    ConsRule.ofLine "1_2   zz   offset" = .error .valErr :=
  c3_unmatched_line_silently_ignored "abc" [] (by decide) (by decide)
    (by decide)

/-- C6: with the declared direct transforms as edges, transforming a Sersic
    with all model variables set to 'edgedisk' is exactly the two-hop
    composition through expdisk found by the breadth-first search (and
    succeeds, as evaluated on a sample instance); transforming to any name
    outside the registry fails with the no-transform-path error. -/
theorem c6_bfs_two_hop_and_unknown_target (x0 y0 mag re n ba pa : ℚ)
    (sx sy sm sr sn sb sp : Int) :
    (MInst.modTransTo (sersicWithVars x0 y0 mag re n ba pa sx sy sm sr sn sb sp)
        "edgedisk"
      = (Sersic.to_expdisk
          (sersicWithVars x0 y0 mag re n ba pa sx sy sm sr sn sb sp)).bind
          Expdisk.to_edgedisk) ∧
    ((MInst.modTransTo (sersicWithVars 50 60 20 (mkRat 1678 1000) 2 (mkRat 1 2)
        30 1 1 1 1 1 0 1) "edgedisk").map (fun m => m.name)
      = .ok "edgedisk") ∧
    (∀ t, modelRegistry.contains t = false →
      MInst.modTransTo (sersicWithVars x0 y0 mag re n ba pa sx sy sm sr sn sb sp)
        t = .error .excErr) := by
  refine ⟨?_, by decide, ?_⟩
  · -- the graph search is name-level only: it reduces to the two-hop path
    -- before any model values are touched
    show MInst.modTransTo _ "edgedisk" = _
    simp only [MInst.modTransTo]
    rw [show (sersicWithVars x0 y0 mag re n ba pa sx sy sm sr sn sb sp).name
          = "sersic" from rfl]
    rw [if_neg (by decide : ¬ ("edgedisk" = "sersic"))]
    rw [show MInst.hasDirectTrans "sersic" "edgedisk" = false from by decide]
    rw [show (modelRegistry.any
          (fun m => m ≠ "edgedisk" && MInst.hasDirectTrans m "edgedisk"))
          = true from by decide]
    rw [show (MInst.bfsLoop MInst.buildFuncs "edgedisk" 100 ["sersic"] []
          [("sersic", [])]).lookup "edgedisk"
          = some [("sersic", "expdisk"), ("expdisk", "edgedisk")] from by decide]
    simp only [Bool.false_eq_true, if_false, Bool.not_true, ite_true,
      ite_false, exceptBindOk, List.foldlM]
    cases hA : Sersic.to_expdisk
        (sersicWithVars x0 y0 mag re n ba pa sx sy sm sr sn sb sp) with
    | error e => simp [MInst.applyEdge, Except.bind, hA]
    | ok m1 =>
      cases hB : Expdisk.to_edgedisk m1 with
      | error e => simp [MInst.applyEdge, Except.bind, hA, hB]
      | ok m2 => simp [MInst.applyEdge, Except.bind, hA, hB]
  · intro t ht
    have h1 : ¬ (t = "sersic") := fun h => by subst h; revert ht; decide
    have h2 : ¬ (t = "devauc") := fun h => by subst h; revert ht; decide
    have h3 : ¬ (t = "expdisk") := fun h => by subst h; revert ht; decide
    have h4 : ¬ (t = "edgedisk") := fun h => by subst h; revert ht; decide
    simp [MInst.modTransTo, sersicWithVars, MInst.hasDirectTrans,
      modelRegistry, h1, h2, h3, h4]

/-- C6 witness: the unknown-target conjunct applied at the name 'foo'. -/
theorem c6_bfs_two_hop_witness :
    MInst.modTransTo
      (sersicWithVars 50 60 20 (mkRat 1678 1000) 2 (mkRat 1 2) 30
        1 1 1 1 1 0 1) "foo" = .error .excErr :=
  (c6_bfs_two_hop_and_unknown_target 50 60 20 (mkRat 1678 1000) 2 (mkRat 1 2)
      30 1 1 1 1 1 0 1).2.2 "foo" (by decide)

/-- C8: setting an already-set model-variable key updates the stored
    Parameter in place: the key keeps pointing at the same heap address (so
    every alias of the Parameter observes the update), and fields not
    supplied by the input keep their previous values — a bare scalar leaves
    state and uncertainty, a (value, state) pair leaves the uncertainty, a
    single-field numeric string behaves like the bare scalar. -/
theorem c8_set_modvar_updates_in_place (mo : MRef) (h : PHeap) (k : String)
    (a : Nat) (p : Param)
    (hmv : MRef.isModvarKey mo k = true)
    (hlook : mo.parsR.lookup (SlotsDict.getStdKey mo.sch k) = some a)
    (hheap : h.get? a = some p) :
    (∀ q : ℚ, MRef.setModvarValH mo h k (.vfloat q)
        = .ok (mo, h.set a { p with val := q })) ∧
    (∀ (q : ℚ) (st : Int),
      MRef.setModvarValH mo h k (.vvec [.vfloat q, .vint st])
        = .ok (mo, h.set a { val := q, state := st, uncert := p.uncert })) ∧
    (∀ (w : String) (q : ℚ), splitWsChars w.data = [w.data] →
      strToFloatChars w.data = .ok q →
      MRef.setModvarValH mo h k (.vstr w)
        = .ok (mo, h.set a { p with val := q })) := by
  have hcore : ∀ v q', Param.updateArgs p [v] = .ok q' →
      MRef.setModvarCoreH mo h k v = .ok (mo, h.set a q') := by
    intro v q' hup
    simp only [MRef.setModvarCoreH, hmv, Bool.not_true, Bool.false_eq_true,
      if_false, hlook, hheap, hup, ite_false, ite_true]
    simp
  refine ⟨?_, ?_, ?_⟩
  · intro q
    have := hcore (.vfloat q) { p with val := q } (by
      simp [Param.updateArgs, Param.update1, Param.setFields, pyFloat])
    simpa [MRef.setModvarValH, hmv] using this
  · intro q st
    have := hcore (.vvec [.vfloat q, .vint st])
        { val := q, state := st, uncert := p.uncert } (by
      simp [Param.updateArgs, Param.update1, Param.updateMulti,
        Param.setFields, pyFloat, Param.stateOfPyV])
    simpa [MRef.setModvarValH, hmv] using this
  · intro w q hsplit hfloat
    have := hcore (.vstr w) { p with val := q } (by
      simp [Param.updateArgs, Param.update1, hsplit, Param.setFields,
        pyFloat, strToFloat, hfloat])
    -- the xy special case does not trigger: the string has one field
    by_cases hxy : MRef.isXyvarKey mo k
    · simpa [MRef.setModvarValH, hmv, hxy, hsplit] using this
    · simpa [MRef.setModvarValH, hmv, hxy] using this

/-- C8 witness: the three update forms at a concrete sersic whose '4' slot
    points at heap address 0 (accessed through the alias 're'). -/
theorem c8_set_modvar_witness :
    MRef.setModvarValH { name := "sersic", parsR := [("4", 0)] }
      [{ val := 2, state := 1, uncert := some 3 }] "re" (.vfloat 5)
      = .ok ({ name := "sersic", parsR := [("4", 0)] },
             [{ val := 5, state := 1, uncert := some 3 }]) ∧
    MRef.setModvarValH { name := "sersic", parsR := [("4", 0)] }
      [{ val := 2, state := 1, uncert := some 3 }] "re"
      (.vvec [.vfloat 5, .vint 0])
      = .ok ({ name := "sersic", parsR := [("4", 0)] },
             [{ val := 5, state := 0, uncert := some 3 }]) ∧
    MRef.setModvarValH { name := "sersic", parsR := [("4", 0)] }
      [{ val := 2, state := 1, uncert := some 3 }] "re" (.vstr "5")
      = .ok ({ name := "sersic", parsR := [("4", 0)] },
             [{ val := 5, state := 1, uncert := some 3 }]) := by
  have hc := c8_set_modvar_updates_in_place
    { name := "sersic", parsR := [("4", 0)] }
    [{ val := 2, state := 1, uncert := some 3 }] "re" 0
    { val := 2, state := 1, uncert := some 3 }
    (by decide) (by decide) (by decide)
  exact ⟨hc.1 5, hc.2.1 5 0, hc.2.2 "5" 5 (by decide) (by decide)⟩

/-- C2 counterexample: a hard_offset rule over a single component satisfies
    the claimed component-count requirement (at least 1) and is accepted by
    set_cons, but its serialized line '1    x    offset' matches no grammar
    (fmt_comps requires at least two underscore-joined components), so
    parsing returns the empty rule, not the original. -/
theorem c2_single_component_hard_counterexample :
    ConsRule.set_cons ConsRule.empty [1] "x" "hard_offset" none
      = .ok { comps := [1], par := "x", type_cons := "hard_offset",
              range_cons := [] } ∧
    ConsRule.toStr { comps := [1], par := "x", type_cons := "hard_offset",
                     range_cons := [] } = "1    x    offset" ∧
    ConsRule.ofLine "1    x    offset" = .ok ConsRule.empty ∧
    ConsRule.empty ≠ { comps := [1], par := "x", type_cons := "hard_offset",
                       range_cons := [] } := by
  refine ⟨by decide, ?_, by decide, by decide⟩
  decide

/-
  Digit and list lemmas for the serialize/parse round trip.
-/

theorem takeWhile_append_all {p : Char → Bool} {l : List Char}
    (r : List Char) (h : l.all p) :
    (l ++ r).takeWhile p = l ++ r.takeWhile p := by
  induction l with
  | nil => simp
  | cons c t ih =>
    simp only [List.all_cons, Bool.and_eq_true] at h
    simp [List.takeWhile_cons, h.1, ih h.2]

theorem dropWhile_append_all {p : Char → Bool} {l : List Char}
    (r : List Char) (h : l.all p) :
    (l ++ r).dropWhile p = r.dropWhile p := by
  induction l with
  | nil => simp
  | cons c t ih =>
    simp only [List.all_cons, Bool.and_eq_true] at h
    simp [List.dropWhile_cons, h.1, ih h.2]

theorem takeWhile_head_false {p : Char → Bool} {l : List Char}
    (h : ∀ c, l.head? = some c → p c = false) :
    l.takeWhile p = [] := by
  cases l with
  | nil => rfl
  | cons c t => simp [List.takeWhile_cons, h c rfl]

theorem dropWhile_head_false {p : Char → Bool} {l : List Char}
    (h : ∀ c, l.head? = some c → p c = false) :
    l.dropWhile p = l := by
  cases l with
  | nil => rfl
  | cons c t => simp [List.dropWhile_cons, h c rfl]

/-- takeWhile over a token followed by a non-token character. -/
theorem takeWhile_token {p : Char → Bool} {l r : List Char}
    (hl : l.all p) (hr : ∀ c, r.head? = some c → p c = false) :
    (l ++ r).takeWhile p = l := by
  rw [takeWhile_append_all r hl, takeWhile_head_false hr, List.append_nil]

/-- The foldl of digitsToNat with a general initial value. -/
theorem digitsToNat_foldl (l : List Char) (init : Nat) :
    l.foldl (fun a c => a * 10 + (c.toNat - 48)) init
      = init * 10 ^ l.length + digitsToNat l := by
  induction l generalizing init with
  | nil => simp [digitsToNat]
  | cons c t ih =>
    simp only [List.foldl_cons, List.length_cons, digitsToNat]
    rw [ih, ih (0 * 10 + (c.toNat - 48))]
    ring

theorem digitsToNat_append (a b : List Char) :
    digitsToNat (a ++ b) = digitsToNat a * 10 ^ b.length + digitsToNat b := by
  simp only [digitsToNat, List.foldl_append]
  rw [digitsToNat_foldl]
  rfl

theorem digitsToNat_replicate_zero (m : Nat) (l : List Char) :
    digitsToNat (List.replicate m '0' ++ l) = digitsToNat l := by
  rw [digitsToNat_append]
  have : digitsToNat (List.replicate m '0') = 0 := by
    induction m with
    | zero => rfl
    | succ k ih =>
      rw [List.replicate_succ]
      simp only [digitsToNat, List.foldl_cons] at ih ⊢
      simpa using ih
  simp [this]

theorem natDigitsAux_congr : ∀ f1 f2 n, n < f1 → n < f2 →
    natDigitsAux f1 n = natDigitsAux f2 n := by
  intro f1
  induction f1 with
  | zero => intro f2 n h; omega
  | succ f ih =>
    intro f2 n h1 h2
    cases f2 with
    | zero => omega
    | succ g =>
      simp only [natDigitsAux]
      by_cases hn : n < 10
      · simp [hn]
      · simp only [hn, if_false]
        have hn10 : n / 10 < n := Nat.div_lt_self (by omega) (by norm_num)
        rw [ih g (n / 10) (by omega) (by omega)]

theorem natDigits_unfold (n : Nat) :
    natDigits n = if n < 10 then [Char.ofNat (48 + n)]
      else natDigits (n / 10) ++ [Char.ofNat (48 + n % 10)] := by
  by_cases h : n < 10
  · simp only [natDigits, natDigitsAux, h, if_true]
  · have hlt : n / 10 < n := Nat.div_lt_self (by omega) (by norm_num)
    conv_lhs => rw [natDigits]
    rw [show natDigitsAux (n + 1) n
        = if n < 10 then [Char.ofNat (48 + n)]
          else natDigitsAux n (n / 10) ++ [Char.ofNat (48 + n % 10)] from rfl]
    simp only [h, if_false]
    rw [natDigitsAux_congr n (n / 10 + 1) (n / 10) (by omega) (by omega)]
    rfl

theorem digit_char_lt_10 {d : Nat} (h : d < 10) :
    (Char.ofNat (48 + d)).toNat = 48 + d ∧
    isDigitChar (Char.ofNat (48 + d)) = true ∧
    isWsChar (Char.ofNat (48 + d)) = false := by
  interval_cases d <;> exact ⟨by decide, by decide, by decide⟩

theorem natDigits_all_digit (n : Nat) : (natDigits n).all isDigitChar := by
  induction n using Nat.strong_induction_on with
  | _ n ih =>
    rw [natDigits_unfold]
    by_cases h : n < 10
    · simp [h, (digit_char_lt_10 h).2.1]
    · have hlt : n / 10 < n := Nat.div_lt_self (by omega) (by norm_num)
      simp [h, List.all_append, ih _ hlt,
        (digit_char_lt_10 (Nat.mod_lt n (by norm_num))).2.1]

theorem natDigits_ne_nil (n : Nat) : natDigits n ≠ [] := by
  rw [natDigits_unfold]
  by_cases h : n < 10 <;> simp [h]

theorem digitsToNat_natDigits (n : Nat) : digitsToNat (natDigits n) = n := by
  induction n using Nat.strong_induction_on with
  | _ n ih =>
    rw [natDigits_unfold]
    by_cases h : n < 10
    · simp [h, digitsToNat, (digit_char_lt_10 h).1]
    · have hlt : n / 10 < n := Nat.div_lt_self (by omega) (by norm_num)
      simp only [h, if_false, digitsToNat_append]
      rw [ih _ hlt]
      have hm := (digit_char_lt_10 (Nat.mod_lt n (show 0 < 10 by norm_num))).1
      simp only [List.length_cons, List.length_nil, digitsToNat,
        List.foldl_cons, List.foldl_nil, hm]
      omega

/- Character-class facts. -/

theorem ws_not_digit {c : Char} (h : isWsChar c = true) :
    isDigitChar c = false := by
  simp only [isWsChar, Bool.or_eq_true, beq_iff_eq] at h
  rcases h with ((((h | h) | h) | h) | h) | h <;> subst h <;> decide

theorem digit_not_ws {c : Char} (h : isDigitChar c = true) :
    isWsChar c = false := by
  cases hb : isWsChar c
  · rfl
  · rw [ws_not_digit hb] at h
    exact absurd h (by simp)

theorem ws_not_alnum {c : Char} (h : isWsChar c = true) :
    isAlnumChar c = false := by
  simp only [isWsChar, Bool.or_eq_true, beq_iff_eq] at h
  rcases h with ((((h | h) | h) | h) | h) | h <;> subst h <;> decide

theorem alnum_not_ws {c : Char} (h : isAlnumChar c = true) :
    isWsChar c = false := by
  cases hb : isWsChar c
  · rfl
  · rw [ws_not_alnum hb] at h
    exact absurd h (by simp)

theorem digit_is_alnum {c : Char} (h : isDigitChar c = true) :
    isAlnumChar c = true := by
  simp [isAlnumChar, h]

theorem digit_ne_char {c c' : Char} (h : isDigitChar c = true)
    (h' : isDigitChar c' = false) : c ≠ c' := by
  intro he
  rw [he, h'] at h
  exact absurd h (by simp)

/- Whole-token parsing facts. -/

theorem all_takeWhile_self {p : Char → Bool} {l : List Char}
    (h : l.all p) : l.takeWhile p = l := by
  have := takeWhile_append_all (l := l) [] h
  simpa using this

theorem stripChars_eq_self {l : List Char}
    (h1 : ∀ c, l.head? = some c → isWsChar c = false)
    (h2 : ∀ c, l.getLast? = some c → isWsChar c = false) :
    stripChars l = l := by
  unfold stripChars
  rw [dropWhile_head_false h1]
  rw [dropWhile_head_false (by
    intro c hc
    exact h2 c (by rwa [← List.head?_reverse]))]
  exact List.reverse_reverse l

theorem strToIntChars_digits {l : List Char} (hne : l ≠ [])
    (hall : l.all isDigitChar) :
    strToIntChars l = .ok (digitsToNat l : Int) := by
  obtain ⟨c, t, rfl⟩ : ∃ c t, l = c :: t := by
    cases l with
    | nil => exact absurd rfl hne
    | cons c t => exact ⟨c, t, rfl⟩
  have hc : isDigitChar c = true := by
    simp only [List.all_cons, Bool.and_eq_true] at hall
    exact hall.1
  have hstrip : stripChars (c :: t) = c :: t := by
    refine stripChars_eq_self ?_ ?_
    · intro x hx
      simp only [List.head?_cons, Option.some.injEq] at hx
      exact hx ▸ digit_not_ws hc
    · intro x hx
      obtain ⟨hne', hxl⟩ := List.mem_getLast?_eq_getLast (Option.mem_def.mpr hx)
      have hmem : x ∈ c :: t := hxl ▸ List.getLast_mem hne'
      have : isDigitChar x = true := List.all_eq_true.mp hall x hmem
      exact digit_not_ws this
  have hcm : c ≠ '-' := digit_ne_char hc (by decide)
  have hcp : c ≠ '+' := digit_ne_char hc (by decide)
  unfold strToIntChars
  rw [hstrip]
  dsimp only
  have hm : (match c :: t with
      | '-' :: t => ((-1 : Int), t)
      | '+' :: t => ((1 : Int), t)
      | x => ((1 : Int), c :: t)) = ((1 : Int), c :: t) := by
    split
    case h_1 t' heq =>
      injection heq with h1 _
      exact absurd h1 hcm
    case h_2 t' heq =>
      injection heq with h1 _
      exact absurd h1 hcp
    case h_3 => rfl
  rw [hm]
  dsimp only
  rw [all_takeWhile_self hall]
  simp [hne]

theorem intStr_data_pos {c : Int} (h : 1 ≤ c) :
    (intStr c).data = natDigits c.natAbs := by
  unfold intStr
  rw [if_neg (by omega)]

theorem digitsTok_token {d r : List Char} (hd : d ≠ [])
    (hall : d.all isDigitChar)
    (hr : ∀ c, r.head? = some c → isDigitChar c = false) :
    digitsTok (d ++ r) = some (d, r) := by
  unfold digitsTok
  rw [takeWhile_token hall hr]
  simp [hd, List.drop_left]

/- splitOnChar and joinSep. -/

theorem splitOnChar_ne_nil (l : List Char) (c : Char) :
    splitOnChar l c ≠ [] := by
  cases l with
  | nil => simp [splitOnChar]
  | cons x t =>
    simp only [splitOnChar]
    split
    · simp
    · split <;> simp

theorem splitOnChar_no_sep {d : List Char} {c : Char}
    (h : ∀ x ∈ d, x ≠ c) : splitOnChar d c = [d] := by
  induction d with
  | nil => rfl
  | cons x t ih =>
    have hx : ¬ (x = c) := h x (by simp)
    have ht := ih (fun y hy => h y (by simp [hy]))
    simp [splitOnChar, hx, ht]

theorem splitOnChar_append_sep {d l : List Char} {c : Char}
    (h : ∀ x ∈ d, x ≠ c) :
    splitOnChar (d ++ c :: l) c = d :: splitOnChar l c := by
  induction d with
  | nil => simp [splitOnChar]
  | cons x t ih =>
    have hx : ¬ (x = c) := h x (by simp)
    have ht := ih (fun y hy => h y (by simp [hy]))
    simp only [List.cons_append, splitOnChar, hx, if_false, List.append_eq, ht]

theorem splitOnChar_joinSep {ds : List (List Char)} {c : Char}
    (hds : ds ≠ [])
    (h : ∀ d ∈ ds, ∀ x ∈ d, x ≠ c) :
    splitOnChar (joinSep [c] ds) c = ds := by
  induction ds with
  | nil => exact absurd rfl hds
  | cons d ds ih =>
    cases ds with
    | nil => exact splitOnChar_no_sep (h d (by simp))
    | cons d2 rest =>
      have hjoin : joinSep [c] (d :: d2 :: rest)
          = d ++ c :: joinSep [c] (d2 :: rest) := by
        simp [joinSep]
      rw [hjoin, splitOnChar_append_sep (h d (by simp))]
      rw [ih (by simp) (fun e he x hx => h e (by simp [he]) x hx)]

/- The greedy (?:_\d+)* group on a well-formed joined tail. -/

theorem joinSep_cons_tailJoin (d : List Char) (ds : List (List Char)) :
    joinSep ['_'] (d :: ds) = d ++ tailJoin ds := by
  induction ds generalizing d with
  | nil => simp [joinSep, tailJoin]
  | cons d2 rest ih =>
    have h2 := ih d2
    simp only [joinSep, tailJoin, List.foldr_cons] at h2 ⊢
    rw [h2]
    simp

theorem length_le_tailJoin (ds : List (List Char)) :
    ds.length ≤ (tailJoin ds).length := by
  induction ds with
  | nil => simp [tailJoin]
  | cons d rest ih =>
    simp only [tailJoin, List.foldr_cons, List.length_cons,
      List.length_append] at ih ⊢
    omega

theorem underscoreDigitsAux_tailJoin :
    ∀ (fuel : Nat) (ds : List (List Char)) (rest : List Char),
    ds.length < fuel →
    (∀ d ∈ ds, d ≠ [] ∧ d.all isDigitChar) →
    (∀ c, rest.head? = some c → isDigitChar c = false ∧ c ≠ '_') →
    underscoreDigitsAux fuel (tailJoin ds ++ rest) = (tailJoin ds, rest) := by
  intro fuel
  induction fuel with
  | zero => intro ds rest h; omega
  | succ f ih =>
    intro ds rest hlen hds hrest
    cases ds with
    | nil =>
      simp only [tailJoin, List.foldr_nil, List.nil_append]
      cases rest with
      | nil => rfl
      | cons c t =>
        have hc := hrest c rfl
        simp only [underscoreDigitsAux]
        split
        case h_1 r heq =>
          injection heq with h1 _
          exact absurd h1 hc.2
        case h_2 => rfl
    | cons d ds' =>
      obtain ⟨hdne, hdall⟩ := hds d (by simp)
      have htj : tailJoin (d :: ds') ++ rest
          = '_' :: (d ++ (tailJoin ds' ++ rest)) := by
        simp [tailJoin]
      rw [htj]
      simp only [underscoreDigitsAux]
      have hnext : ∀ c, (tailJoin ds' ++ rest).head? = some c →
          isDigitChar c = false := by
        intro c hc
        cases ds' with
        | nil =>
          simp only [tailJoin, List.foldr_nil, List.nil_append] at hc
          exact (hrest c hc).1
        | cons e es =>
          simp only [tailJoin, List.foldr_cons, List.cons_append,
            List.head?_cons, Option.some.injEq] at hc
          subst hc
          decide
      rw [takeWhile_token hdall hnext]
      simp only [List.isEmpty_iff, hdne, if_false]
      rw [List.drop_left]
      rw [ih ds' rest (by simpa using hlen)
        (fun e he => hds e (by simp [he])) hrest]
      simp [tailJoin]

theorem underscoreDigits_tailJoin (ds : List (List Char)) (rest : List Char)
    (hds : ∀ d ∈ ds, d ≠ [] ∧ d.all isDigitChar)
    (hrest : ∀ c, rest.head? = some c → isDigitChar c = false ∧ c ≠ '_') :
    underscoreDigits (tailJoin ds ++ rest) = (tailJoin ds, rest) := by
  unfold underscoreDigits
  refine underscoreDigitsAux_tailJoin _ ds rest ?_ hds hrest
  have := length_le_tailJoin ds
  simp only [List.length_append]
  omega

theorem hardCompsTok_join {ds : List (List Char)} {rest : List Char}
    (hlen : 2 ≤ ds.length)
    (hds : ∀ d ∈ ds, d ≠ [] ∧ d.all isDigitChar)
    (hrest : ∀ c, rest.head? = some c → isDigitChar c = false ∧ c ≠ '_') :
    hardCompsTok (joinSep ['_'] ds ++ rest)
      = some (joinSep ['_'] ds, rest) := by
  cases ds with
  | nil => simp at hlen
  | cons d1 ds' =>
    cases ds' with
    | nil => simp at hlen
    | cons d2 ds'' =>
      obtain ⟨h1ne, h1all⟩ := hds d1 (by simp)
      obtain ⟨h2ne, h2all⟩ := hds d2 (by simp)
      rw [joinSep_cons_tailJoin]
      have htj : tailJoin (d2 :: ds'') ++ rest
          = '_' :: (d2 ++ (tailJoin ds'' ++ rest)) := by
        simp [tailJoin]
      have hnext2 : ∀ c, (tailJoin ds'' ++ rest).head? = some c →
          isDigitChar c = false := by
        intro c hc
        cases ds'' with
        | nil =>
          simp only [tailJoin, List.foldr_nil, List.nil_append] at hc
          exact (hrest c hc).1
        | cons e es =>
          simp only [tailJoin, List.foldr_cons, List.cons_append,
            List.head?_cons, Option.some.injEq] at hc
          subst hc
          decide
      unfold hardCompsTok
      have harg : d1 ++ tailJoin (d2 :: ds'') ++ rest
          = d1 ++ ('_' :: (d2 ++ (tailJoin ds'' ++ rest))) := by
        simp [tailJoin]
      rw [harg]
      rw [digitsTok_token h1ne h1all (by
        intro c hc
        simp only [List.head?_cons, Option.some.injEq] at hc
        subst hc
        decide)]
      simp only [Option.bind_eq_bind, Option.some_bind]
      rw [digitsTok_token h2ne h2all hnext2]
      simp only [Option.some_bind]
      rw [underscoreDigits_tailJoin ds'' rest
        (fun e he => hds e (by simp [he])) hrest]
      simp [tailJoin]

theorem pairCompsTok_pair {d1 d2 rest : List Char} {sep : Char}
    (hsep : isDigitChar sep = false)
    (h1ne : d1 ≠ []) (h1all : d1.all isDigitChar)
    (h2ne : d2 ≠ []) (h2all : d2.all isDigitChar)
    (hrest : ∀ c, rest.head? = some c → isDigitChar c = false) :
    pairCompsTok sep ((d1 ++ sep :: d2) ++ rest)
      = some (d1 ++ sep :: d2, rest) := by
  unfold pairCompsTok
  rw [List.append_assoc, List.cons_append]
  rw [digitsTok_token h1ne h1all (by
    intro c hc
    simp only [List.head?_cons, Option.some.injEq] at hc
    exact hc ▸ hsep)]
  simp only [Option.bind_eq_bind, Option.some_bind, if_pos rfl]
  rw [digitsTok_token h2ne h2all hrest]
  simp

/- renderFixedChars structure. -/

theorem leftPadZeros_all_digit {l : List Char} (h : l.all isDigitChar)
    (n : Nat) : (leftPadZeros l n).all isDigitChar := by
  simp only [leftPadZeros, List.all_append, h, Bool.and_true]
  exact List.all_eq_true.mpr (fun x hx => by
    rw [List.eq_of_mem_replicate hx]; decide)

theorem leftPadZeros_length (l : List Char) (n : Nat) :
    (leftPadZeros l n).length = max n l.length := by
  simp only [leftPadZeros, List.length_append, List.length_replicate]
  omega

theorem digitsToNat_leftPadZeros (l : List Char) (n : Nat) :
    digitsToNat (leftPadZeros l n) = digitsToNat l :=
  digitsToNat_replicate_zero _ _

/-- The pieces of renderFixedChars: sign, integer digits, fraction digits. -/
theorem renderFixedChars_eq (neg : Bool) (a k : Nat) :
    renderFixedChars neg a k
      = (if neg then ['-'] else []) ++
        (ipOf a k ++ (if k = 0 then [] else '.' :: fpOf a k)) := by
  simp [renderFixedChars, ipOf, fpOf]

theorem renderFixed_parts (a k : Nat) :
    (ipOf a k).all isDigitChar ∧ (fpOf a k).all isDigitChar ∧
    ipOf a k ≠ [] ∧ (fpOf a k).length = k := by
  have hall := leftPadZeros_all_digit (natDigits_all_digit a) (k + 1)
  have hlen := leftPadZeros_length (natDigits a) (k + 1)
  have hge : k + 1 ≤ (leftPadZeros (natDigits a) (k + 1)).length := by omega
  refine ⟨?_, ?_, ?_, ?_⟩
  · exact List.all_eq_true.mpr (fun x hx =>
      List.all_eq_true.mp hall x (List.take_subset _ _ hx))
  · exact List.all_eq_true.mpr (fun x hx =>
      List.all_eq_true.mp hall x (List.drop_subset _ _ hx))
  · have hl : (ipOf a k).length
        = (leftPadZeros (natDigits a) (k + 1)).length - k := by
      simp only [ipOf, List.length_take]
      omega
    intro hnil
    rw [hnil] at hl
    simp only [List.length_nil] at hl
    omega
  · simp only [fpOf, List.length_drop]
    omega

/-- The numeric value carried by the two digit pieces. -/
theorem renderFixed_value (a k : Nat) :
    digitsToNat (ipOf a k) * 10 ^ (fpOf a k).length
      + digitsToNat (fpOf a k) = a := by
  rw [← digitsToNat_append, ipOf, fpOf, List.take_append_drop,
    digitsToNat_leftPadZeros, digitsToNat_natDigits]

theorem expPart_stop {rest : List Char}
    (he : ∀ c, rest.head? = some c → c ≠ 'e' ∧ c ≠ 'E') :
    expPart rest = ([], rest) := by
  cases rest with
  | nil => rfl
  | cons c t =>
    have hc := he c rfl
    have hne : ¬((c == 'e' || c == 'E') = true) := by
      simp only [Bool.or_eq_true, beq_iff_eq]
      exact fun h => h.elim hc.1 hc.2
    simp only [expPart, List.head?_cons, if_neg hne]

theorem head_beq_false {l : List Char} {ch : Char}
    (h : ∀ c, l.head? = some c → c ≠ ch) : (l.head? == some ch) = false := by
  cases hl : l.head? with
  | none => rfl
  | some c =>
    exact beq_eq_false_iff_ne.mpr (fun hcc => h c hl (Option.some.inj hcc))

/-- The fraction scan shared by fltTok and strToFloatChars: after the
    integer digits, a positive scale consumes '.' and the fraction digits,
    scale zero consumes nothing. -/
theorem frac_scan (a k : Nat) (rest : List Char)
    (hd : ∀ c, rest.head? = some c → isDigitChar c = false) :
    (fpOf a k ++ rest).takeWhile isDigitChar = fpOf a k ∧
    (fpOf a k ++ rest).dropWhile isDigitChar = rest := by
  obtain ⟨-, hfp_all, -, -⟩ := renderFixed_parts a k
  exact ⟨takeWhile_token hfp_all hd,
    by rw [dropWhile_append_all rest hfp_all, dropWhile_head_false hd]⟩

theorem dropWhile_all_nil {p : Char → Bool} {l : List Char} (h : l.all p) :
    l.dropWhile p = [] := by
  have := dropWhile_append_all (l := l) [] h
  simpa using this

theorem getLast?_all {p : Char → Bool} {c : Char} :
    ∀ {l : List Char}, l.all p = true → l.getLast? = some c → p c = true
  | [], _, h => by cases h
  | [a], hall, h => by
    have ha : a = c := Option.some.inj h
    subst ha
    simpa using hall
  | _ :: b :: t, hall, h => by
    rw [List.getLast?_cons_cons] at h
    exact getLast?_all (l := b :: t)
      (by
        simp only [List.all_cons, Bool.and_eq_true] at hall ⊢
        exact hall.2) h

/-- fltTok consumes exactly a rendered fixed-notation number when what
    follows cannot extend the token. -/
theorem fltTok_render (neg : Bool) (a k : Nat) (rest : List Char)
    (hd : ∀ c, rest.head? = some c → isDigitChar c = false)
    (hdot : ∀ c, rest.head? = some c → c ≠ '.')
    (he : ∀ c, rest.head? = some c → c ≠ 'e' ∧ c ≠ 'E') :
    fltTok (renderFixedChars neg a k ++ rest)
      = some (renderFixedChars neg a k, rest) := by
  obtain ⟨hip_all, hfp_all, hip_ne, hfp_len⟩ := renderFixed_parts a k
  obtain ⟨c0, t0, hip⟩ : ∃ c t, ipOf a k = c :: t := by
    cases hip' : ipOf a k with
    | nil => exact absurd hip' hip_ne
    | cons c t => exact ⟨c, t, rfl⟩
  have hc0 : isDigitChar c0 = true := by
    have := List.all_eq_true.mp hip_all c0 (by rw [hip]; simp)
    exact this
  have hnosgn : ¬((c0 == '+' || c0 == '-') = true) := by
    simp only [Bool.or_eq_true, beq_iff_eq]
    exact fun h => h.elim (digit_ne_char hc0 (by decide))
      (digit_ne_char hc0 (by decide))
  have hfracn : ¬((rest.head? == some '.') = true) := by
    rw [head_beq_false (fun c hc => hdot c hc)]
    exact Bool.false_ne_true
  rw [renderFixedChars_eq]
  by_cases hk : k = 0
  · -- no fraction part
    subst hk
    rw [if_pos (show (0 : Nat) = 0 from rfl)]
    simp only [List.append_nil]
    cases neg with
    | false =>
      simp only [if_neg (by decide : ¬(false = true)), List.nil_append]
      rw [hip, List.cons_append]
      simp only [fltTok, List.head?_cons, if_neg hnosgn]
      rw [← List.cons_append, ← hip,
        digitsTok_token hip_ne hip_all hd]
      simp only [if_neg hfracn, expPart_stop he, List.append_nil,
        List.nil_append]
    | true =>
      rw [show (if (true : Bool) = true then ['-'] else ([] : List Char))
            = ['-'] from rfl]
      rw [List.singleton_append, List.cons_append]
      simp only [fltTok, List.head?_cons]
      rw [if_pos (by decide : (('-' == '+' || '-' == '-')) = true)]
      simp only [List.take_succ_cons, List.take_zero, List.drop_succ_cons,
        List.drop_zero]
      rw [digitsTok_token hip_ne hip_all hd]
      simp only [if_neg hfracn, expPart_stop he, List.append_nil,
        List.nil_append, List.cons_append]
      rfl
  · -- k > 0: fraction part '.' :: fpOf a k
    simp only [if_neg hk]
    have hmid : ∀ c, (('.' :: fpOf a k) ++ rest).head? = some c →
        isDigitChar c = false := by
      intro c hc
      simp only [List.cons_append, List.head?_cons, Option.some.injEq] at hc
      subst hc
      decide
    cases neg with
    | false =>
      simp only [if_neg (by decide : ¬(false = true)), List.nil_append]
      rw [List.append_assoc, hip, List.cons_append]
      simp only [fltTok, List.head?_cons, if_neg hnosgn]
      rw [← List.cons_append, ← hip,
        digitsTok_token hip_ne hip_all hmid]
      simp only [List.cons_append, List.head?_cons, beq_self_eq_true,
        List.drop_succ_cons, List.drop_zero]
      rw [(frac_scan a k rest hd).1, (frac_scan a k rest hd).2]
      rw [if_pos trivial, if_pos trivial]
      rw [expPart_stop he]
      simp
    | true =>
      rw [show (if (true : Bool) = true then ['-'] else ([] : List Char))
            = ['-'] from rfl]
      rw [List.singleton_append, List.cons_append]
      simp only [fltTok, List.head?_cons]
      rw [if_pos (by decide : (('-' == '+' || '-' == '-')) = true)]
      simp only [List.take_succ_cons, List.take_zero, List.drop_succ_cons,
        List.drop_zero]
      rw [List.append_assoc, digitsTok_token hip_ne hip_all hmid]
      simp only [List.cons_append, List.head?_cons, beq_self_eq_true,
        List.drop_succ_cons, List.drop_zero]
      rw [(frac_scan a k rest hd).1, (frac_scan a k rest hd).2]
      rw [if_pos trivial, if_pos trivial]
      rw [expPart_stop he]
      simp

/-- Value of floatOfParts on the matched pieces of a rendered number. -/
theorem floatOfParts_render (neg : Bool) (a k : Nat) :
    floatOfParts neg (ipOf a k) (fpOf a k) 0
      = Rat.divInt (if neg = true then -(a : Int) else (a : Int))
          ((10 ^ k : Nat) : Int) := by
  obtain ⟨-, -, -, hfp_len⟩ := renderFixed_parts a k
  have hval := renderFixed_value a k
  simp only [floatOfParts]
  rw [hval, hfp_len]
  by_cases hk : k = 0
  · subst hk
    rw [if_pos (by norm_num : (0 : Int) ≤ 0 - ((0 : Nat) : Int))]
    cases neg with
    | false => norm_num
    | true => norm_num
  · rw [if_neg (by
      intro h
      rw [sub_nonneg] at h
      have : (k : Int) ≤ 0 := h
      omega)]
    have ht : (-((0 : Int) - (k : Nat))).toNat = k := by omega
    rw [ht]

/-- strToFloatChars inverts the fixed-point renderer exactly. -/
theorem strToFloatChars_render (neg : Bool) (a k : Nat) :
    strToFloatChars (renderFixedChars neg a k)
      = .ok (Rat.divInt (if neg = true then -(a : Int) else (a : Int))
          ((10 ^ k : Nat) : Int)) := by
  obtain ⟨hip_all, hfp_all, hip_ne, hfp_len⟩ := renderFixed_parts a k
  obtain ⟨c0, t0, hip⟩ : ∃ c t, ipOf a k = c :: t := by
    cases hip' : ipOf a k with
    | nil => exact absurd hip' hip_ne
    | cons c t => exact ⟨c, t, rfl⟩
  have hc0 : isDigitChar c0 = true := by
    have := List.all_eq_true.mp hip_all c0 (by rw [hip]; simp)
    exact this
  have hnegb : ((some c0 : Option Char) == some '-') = false :=
    beq_eq_false_iff_ne.mpr
      (fun h => digit_ne_char hc0 (by decide) (Option.some.inj h))
  have hplusb : ((some c0 : Option Char) == some '+') = false :=
    beq_eq_false_iff_ne.mpr
      (fun h => digit_ne_char hc0 (by decide) (Option.some.inj h))
  have hfpd : (fpOf a k).dropWhile isDigitChar = [] := dropWhile_all_nil hfp_all
  have hstrip : stripChars (renderFixedChars neg a k)
      = renderFixedChars neg a k := by
    apply stripChars_eq_self
    · intro c hc
      rw [renderFixedChars_eq] at hc
      cases neg with
      | false =>
        rw [show (if (false : Bool) = true then ['-'] else ([] : List Char))
              = [] from rfl, List.nil_append, hip, List.cons_append,
            List.head?_cons] at hc
        rw [← Option.some.inj hc]
        exact digit_not_ws hc0
      | true =>
        rw [show (if (true : Bool) = true then ['-'] else ([] : List Char))
              = ['-'] from rfl, List.singleton_append, List.head?_cons] at hc
        rw [← Option.some.inj hc]
        decide
    · intro c hc
      rw [renderFixedChars_eq] at hc
      by_cases hk : k = 0
      · rw [if_pos hk, List.append_nil,
          List.getLast?_append_of_ne_nil _ hip_ne] at hc
        exact digit_not_ws (getLast?_all hip_all hc)
      · have hfp_ne : fpOf a k ≠ [] := by
          intro h0
          rw [h0] at hfp_len
          simp only [List.length_nil] at hfp_len
          exact hk hfp_len.symm
        rw [if_neg hk,
          List.getLast?_append_of_ne_nil _ (by rw [hip]; simp),
          List.getLast?_append_cons, ← List.singleton_append,
          List.getLast?_append_of_ne_nil _ hfp_ne] at hc
        exact digit_not_ws (getLast?_all hfp_all hc)
  simp only [strToFloatChars]
  rw [hstrip, renderFixedChars_eq]
  by_cases hk : k = 0
  · subst hk
    rw [if_pos (show (0 : Nat) = 0 from rfl)]
    simp only [List.append_nil]
    have hfp0 : fpOf a 0 = [] := List.length_eq_zero.mp hfp_len
    cases neg with
    | false =>
      rw [show (if (false : Bool) = true then ['-'] else ([] : List Char))
            = [] from rfl, List.nil_append, hip]
      simp only [List.head?_cons, hnegb, hplusb, Bool.or_self,
        if_neg (show ¬((false : Bool) = true) by decide)]
      rw [← hip, all_takeWhile_self hip_all, List.drop_length]
      simp only [List.head?_nil,
        show ((none : Option Char) == some '.') = false from rfl,
        if_neg (show ¬((false : Bool) = true) by decide)]
      rw [if_neg (fun hand => hip_ne hand.1)]
      rw [← hfp0, floatOfParts_render false a 0]
      rfl
    | true =>
      rw [show (if (true : Bool) = true then ['-'] else ([] : List Char))
            = ['-'] from rfl, List.singleton_append]
      simp only [List.head?_cons, beq_self_eq_true, Bool.true_or,
        if_pos trivial, List.drop_succ_cons, List.drop_zero]
      rw [all_takeWhile_self hip_all, List.drop_length]
      simp only [List.head?_nil,
        show ((none : Option Char) == some '.') = false from rfl,
        if_neg (show ¬((false : Bool) = true) by decide)]
      rw [if_neg (fun hand => hip_ne hand.1)]
      rw [← hfp0, floatOfParts_render true a 0]
      rfl
  · rw [if_neg hk]
    have hdothead : ∀ c, (('.' :: fpOf a k) : List Char).head? = some c →
        isDigitChar c = false := by
      intro c hc
      rw [← Option.some.inj hc]
      decide
    cases neg with
    | false =>
      rw [show (if (false : Bool) = true then ['-'] else ([] : List Char))
            = [] from rfl, List.nil_append, hip, List.cons_append,
        List.head?_cons]
      simp only [hnegb, hplusb, Bool.or_self,
        if_neg (show ¬((false : Bool) = true) by decide)]
      rw [← List.cons_append, ← hip,
        takeWhile_token hip_all hdothead, List.drop_left]
      simp only [List.head?_cons, beq_self_eq_true, if_pos trivial,
        List.drop_succ_cons, List.drop_zero]
      rw [all_takeWhile_self hfp_all, hfpd]
      rw [if_neg (fun hand => hip_ne hand.1)]
      rw [floatOfParts_render false a k]
      rfl
    | true =>
      rw [show (if (true : Bool) = true then ['-'] else ([] : List Char))
            = ['-'] from rfl, List.singleton_append]
      simp only [List.head?_cons, beq_self_eq_true, Bool.true_or,
        if_pos trivial, List.drop_succ_cons, List.drop_zero]
      rw [takeWhile_token hip_all hdothead, List.drop_left]
      simp only [List.head?_cons, beq_self_eq_true, if_pos trivial,
        List.drop_succ_cons, List.drop_zero]
      rw [all_takeWhile_self hfp_all, hfpd]
      rw [if_neg (fun hand => hip_ne hand.1)]
      rw [floatOfParts_render true a k]
      rfl

/-- qScale10 agrees with multiplication by a power of ten. -/
theorem qScale10_eq (q : ℚ) (k : Nat) : qScale10 q k = q * (10 : ℚ) ^ k := by
  rw [qScale10, Rat.divInt_eq_div]
  push_cast
  rw [mul_div_right_comm, Rat.num_div_den]

/-- Parsing inverts the %g formatter on its exactly-printable domain. -/
theorem strToFloat_fmtG {q : ℚ} (h : isGExact q = true) :
    strToFloatChars (fmtG q).data = .ok q := by
  by_cases hq : q = 0
  · subst hq
    decide
  · unfold isGExact at h
    rw [Bool.or_eq_true] at h
    rcases h with h0 | hm
    · exact absurd (beq_iff_eq.mp h0) hq
    · cases hfind : findDecScale q with
      | none =>
        rw [hfind] at hm
        simp at hm
      | some k =>
        rw [hfind] at hm
        simp only [Bool.and_eq_true, decide_eq_true_eq] at hm
        obtain ⟨⟨hdg, he1⟩, he2⟩ := hm
        simp only [fmtG, if_neg hq, hfind]
        rw [if_pos ⟨hdg, he1, he2⟩]
        show strToFloatChars
            (renderFixedChars (decide ((qScale10 q k).num < 0))
              (qScale10 q k).num.natAbs k) = .ok q
        rw [strToFloatChars_render]
        have hden : (qScale10 q k).den = 1 := by
          have := List.find?_some hfind
          simpa using this
        have hval : ((qScale10 q k).num : ℚ) = q * (10 : ℚ) ^ k := by
          rw [Rat.coe_int_num_of_den_eq_one hden, qScale10_eq]
        have hsgn : (if (decide ((qScale10 q k).num < 0)) = true
              then -((qScale10 q k).num.natAbs : Int)
              else ((qScale10 q k).num.natAbs : Int)) = (qScale10 q k).num := by
          by_cases hn0 : (qScale10 q k).num < 0
          · rw [if_pos (by simpa using hn0)]
            omega
          · rw [if_neg (by simpa using hn0)]
            omega
        rw [hsgn, Rat.divInt_eq_div]
        have h10 : ((10 : ℚ)) ^ k ≠ 0 := by positivity
        rw [show (((10 ^ k : Nat) : Int) : ℚ) = (10 : ℚ) ^ k by push_cast; ring]
        rw [hval, mul_div_cancel_right₀ q h10]

/- Token-level facts used by the constraint-line round trip. -/

theorem head?_all {p : Char → Bool} {l : List Char} {c : Char}
    (hall : l.all p = true) (h : l.head? = some c) : p c = true := by
  cases l with
  | nil => cases h
  | cons a t =>
    have ha : a = c := Option.some.inj h
    subst ha
    simp only [List.all_cons, Bool.and_eq_true] at hall
    exact hall.1

theorem wsPlus_space {B : List Char}
    (hB : ∀ c, B.head? = some c → isWsChar c = false) :
    wsPlus (' ' :: B) = some B := by
  show (if isWsChar ' ' = true
      then some ((' ' :: B).dropWhile isWsChar) else none) = some B
  rw [if_pos (show isWsChar ' ' = true from rfl), List.dropWhile_cons,
    if_pos (show isWsChar ' ' = true from rfl), dropWhile_head_false hB]

theorem wsPlus_none {l : List Char}
    (h : ∀ c, l.head? = some c → isWsChar c = false) : wsPlus l = none := by
  cases l with
  | nil => rfl
  | cons c t =>
    show (if isWsChar c = true
        then some ((c :: t).dropWhile isWsChar) else none) = none
    rw [if_neg (by rw [h c rfl]; exact Bool.false_ne_true)]

theorem intStr_data_nonneg {c : Int} (h : 0 ≤ c) :
    (intStr c).data = natDigits c.natAbs := by
  rw [intStr, if_neg (by omega)]

theorem intStr_parse {c : Int} (h : 0 ≤ c) :
    strToIntChars (intStr c).data = .ok c := by
  rw [intStr_data_nonneg h,
    strToIntChars_digits (natDigits_ne_nil _) (natDigits_all_digit _),
    digitsToNat_natDigits]
  congr 1
  omega

theorem mapM_intStr {cs : List Int} (h : ∀ c ∈ cs, 0 ≤ c) :
    (cs.map (fun i => (intStr i).data)).mapM strToIntChars
      = Except.ok cs := by
  induction cs with
  | nil => rfl
  | cons c t ih =>
    rw [List.map_cons, List.mapM_cons, intStr_parse (h c (by simp))]
    simp only [exceptBindOk, ih (fun x hx => h x (by simp [hx]))]
    rfl

/-- The head character of a rendered number is a digit or the minus sign. -/
theorem renderFixed_head {neg : Bool} {a k : Nat} {c : Char}
    (h : (renderFixedChars neg a k).head? = some c) :
    isDigitChar c = true ∨ c = '-' := by
  obtain ⟨hip_all, -, hip_ne, -⟩ := renderFixed_parts a k
  rw [renderFixedChars_eq] at h
  cases neg with
  | false =>
    rw [show (if (false : Bool) = true then ['-'] else ([] : List Char))
          = [] from rfl, List.nil_append,
      List.head?_append_of_ne_nil _ hip_ne] at h
    exact Or.inl (head?_all hip_all h)
  | true =>
    rw [show (if (true : Bool) = true then ['-'] else ([] : List Char))
          = ['-'] from rfl, List.singleton_append, List.head?_cons] at h
    exact Or.inr (Option.some.inj h).symm

/-- The last character of a rendered number is a digit. -/
theorem renderFixed_last {neg : Bool} {a k : Nat} {c : Char}
    (h : (renderFixedChars neg a k).getLast? = some c) :
    isDigitChar c = true := by
  obtain ⟨hip_all, hfp_all, hip_ne, hfp_len⟩ := renderFixed_parts a k
  rw [renderFixedChars_eq] at h
  by_cases hk : k = 0
  · rw [if_pos hk, List.append_nil,
      List.getLast?_append_of_ne_nil _ hip_ne] at h
    exact getLast?_all hip_all h
  · have hfp_ne : fpOf a k ≠ [] := by
      intro h0
      rw [h0] at hfp_len
      simp only [List.length_nil] at hfp_len
      exact hk hfp_len.symm
    rw [if_neg hk,
      List.getLast?_append_of_ne_nil _ (by rw [← List.nil_append (ipOf a k)] at hip_ne; simp),
      List.getLast?_append_cons, ← List.singleton_append,
      List.getLast?_append_of_ne_nil _ hfp_ne] at h
    exact getLast?_all hfp_all h

/-- A rendered number is never empty. -/
theorem renderFixed_ne_nil (neg : Bool) (a k : Nat) :
    renderFixedChars neg a k ≠ [] := by
  obtain ⟨-, -, hip_ne, -⟩ := renderFixed_parts a k
  rw [renderFixedChars_eq]
  intro h
  rcases List.append_eq_nil.mp h with ⟨-, h2⟩
  rcases List.append_eq_nil.mp h2 with ⟨h3, -⟩
  exact hip_ne h3

/-- On its exact domain, fmtG is a fixed-notation render. -/
theorem fmtG_render {q : ℚ} (h : isGExact q = true) :
    ∃ neg a k, (fmtG q).data = renderFixedChars neg a k := by
  by_cases hq : q = 0
  · subst hq
    exact ⟨false, 0, 0, by decide⟩
  · unfold isGExact at h
    rw [Bool.or_eq_true] at h
    rcases h with h0 | hm
    · exact absurd (beq_iff_eq.mp h0) hq
    · cases hfind : findDecScale q with
      | none =>
        rw [hfind] at hm
        simp at hm
      | some k =>
        rw [hfind] at hm
        simp only [Bool.and_eq_true, decide_eq_true_eq] at hm
        obtain ⟨⟨hdg, he1⟩, he2⟩ := hm
        refine ⟨decide ((qScale10 q k).num < 0), (qScale10 q k).num.natAbs,
          k, ?_⟩
        simp only [fmtG, if_neg hq, hfind]
        rw [if_pos ⟨hdg, he1, he2⟩]

theorem fmtG_ne_nil {q : ℚ} (h : isGExact q = true) : (fmtG q).data ≠ [] := by
  obtain ⟨neg, a, k, heq⟩ := fmtG_render h
  rw [heq]
  exact renderFixed_ne_nil neg a k

theorem fmtG_head {q : ℚ} (h : isGExact q = true) {c : Char}
    (hc : (fmtG q).data.head? = some c) :
    isDigitChar c = true ∨ c = '-' := by
  obtain ⟨neg, a, k, heq⟩ := fmtG_render h
  rw [heq] at hc
  exact renderFixed_head hc

theorem fmtG_last {q : ℚ} (h : isGExact q = true) {c : Char}
    (hc : (fmtG q).data.getLast? = some c) : isDigitChar c = true := by
  obtain ⟨neg, a, k, heq⟩ := fmtG_render h
  rw [heq] at hc
  exact renderFixed_last hc

theorem fltTok_fmtG {q : ℚ} (h : isGExact q = true) (rest : List Char)
    (hd : ∀ c, rest.head? = some c → isDigitChar c = false)
    (hdot : ∀ c, rest.head? = some c → c ≠ '.')
    (he : ∀ c, rest.head? = some c → c ≠ 'e' ∧ c ≠ 'E') :
    fltTok ((fmtG q).data ++ rest) = some ((fmtG q).data, rest) := by
  obtain ⟨neg, a, k, heq⟩ := fmtG_render h
  rw [heq]
  exact fltTok_render neg a k rest hd hdot he

/-- Head conditions a space satisfies for fltTok's stop set. -/
theorem space_stop :
    (∀ c, (' ' :: ([] : List Char)).head? = some c → isDigitChar c = false) ∧
    True := ⟨fun c hc => by rw [← Option.some.inj hc]; rfl, trivial⟩

theorem fmtG_head_not_ws {q : ℚ} (h : isGExact q = true) :
    ∀ c, (fmtG q).data.head? = some c → isWsChar c = false := by
  intro c hc
  rcases fmtG_head h hc with hd | hd
  · exact digit_not_ws hd
  · rw [hd]
    rfl

theorem fmtG_head_not_digit_or {q : ℚ} (h : isGExact q = true) :
    ∀ c, (fmtG q).data.head? = some c → c ≠ 't' := by
  intro c hc
  rcases fmtG_head h hc with hd | hd
  · exact digit_ne_char hd (by decide)
  · rw [hd]
    decide

/-- rangeValsTok on two rendered floats separated by one space. -/
theorem rangeValsTok_pair {x y : ℚ} (hx : isGExact x = true)
    (hy : isGExact y = true) :
    rangeValsTok ((fmtG x).data ++ ' ' :: (fmtG y).data)
      = some ([(fmtG x).data, (fmtG y).data], []) := by
  unfold rangeValsTok
  rw [fltTok_fmtG hx (' ' :: (fmtG y).data)
    (fun c hc => by rw [← Option.some.inj hc]; rfl)
    (fun c hc => by rw [← Option.some.inj hc]; decide)
    (fun c hc => by rw [← Option.some.inj hc]; exact ⟨by decide, by decide⟩)]
  simp only [Option.bind_eq_bind, Option.some_bind]
  rw [wsPlus_space (fmtG_head_not_ws hy)]
  simp only [Option.some_bind]
  have := fltTok_fmtG hy [] (fun c hc => by cases hc) (fun c hc => by cases hc)
    (fun c hc => by cases hc)
  rw [List.append_nil] at this
  rw [this]
  rfl

/-- fromtoValsTok on two rendered floats joined by ' to '. -/
theorem fromtoValsTok_pair {x y : ℚ} (hx : isGExact x = true)
    (hy : isGExact y = true) :
    fromtoValsTok ((fmtG x).data ++ ' ' :: 't' :: 'o' :: ' ' :: (fmtG y).data)
      = some ([(fmtG x).data, (fmtG y).data], []) := by
  unfold fromtoValsTok
  rw [fltTok_fmtG hx (' ' :: 't' :: 'o' :: ' ' :: (fmtG y).data)
    (fun c hc => by rw [← Option.some.inj hc]; rfl)
    (fun c hc => by rw [← Option.some.inj hc]; decide)
    (fun c hc => by rw [← Option.some.inj hc]; exact ⟨by decide, by decide⟩)]
  simp only [Option.bind_eq_bind, Option.some_bind]
  rw [wsPlus_space (fun c hc => by rw [← Option.some.inj hc]; rfl)]
  simp only [Option.some_bind]
  rw [wsPlus_space (fmtG_head_not_ws hy)]
  simp only [Option.some_bind]
  have := fltTok_fmtG hy [] (fun c hc => by cases hc) (fun c hc => by cases hc)
    (fun c hc => by cases hc)
  rw [List.append_nil] at this
  rw [this]
  rfl

/-- fromtoValsTok rejects a plain range pair: no 'to' separator. -/
theorem fromtoValsTok_range_none {x y : ℚ} (hx : isGExact x = true)
    (hy : isGExact y = true) :
    fromtoValsTok ((fmtG x).data ++ ' ' :: (fmtG y).data) = none := by
  unfold fromtoValsTok
  rw [fltTok_fmtG hx (' ' :: (fmtG y).data)
    (fun c hc => by rw [← Option.some.inj hc]; rfl)
    (fun c hc => by rw [← Option.some.inj hc]; decide)
    (fun c hc => by rw [← Option.some.inj hc]; exact ⟨by decide, by decide⟩)]
  simp only [Option.bind_eq_bind, Option.some_bind]
  rw [wsPlus_space (fmtG_head_not_ws hy)]
  simp only [Option.some_bind]
  split
  case h_1 r3 heq =>
    exact absurd rfl (by
      have := fmtG_head_not_digit_or hy 't' (by rw [heq]; rfl)
      exact this)
  case h_2 => rfl

/-- hardCompsTok stops when no underscore follows the first digit run. -/
theorem hardCompsTok_stop {d rest : List Char} (hdne : d ≠ [])
    (hall : d.all isDigitChar)
    (hrest : ∀ c, rest.head? = some c → isDigitChar c = false ∧ c ≠ '_') :
    hardCompsTok (d ++ rest) = none := by
  unfold hardCompsTok
  rw [digitsTok_token hdne hall (fun c hc => (hrest c hc).1)]
  simp only [Option.bind_eq_bind, Option.some_bind]
  cases rest with
  | nil => rfl
  | cons c t =>
    split
    case h_1 r2 heq =>
      exact absurd (List.cons.inj heq).1 (hrest c rfl).2
    case h_2 => rfl

/-- pairCompsTok fails when the separator after the digits is wrong. -/
theorem pairCompsTok_stop {sep : Char} {d rest : List Char} (hdne : d ≠ [])
    (hall : d.all isDigitChar)
    (hrest : ∀ c, rest.head? = some c → isDigitChar c = false ∧ c ≠ sep) :
    pairCompsTok sep (d ++ rest) = none := by
  unfold pairCompsTok
  rw [digitsTok_token hdne hall (fun c hc => (hrest c hc).1)]
  simp only [Option.bind_eq_bind, Option.some_bind]
  cases rest with
  | nil => rfl
  | cons c t =>
    show (if c = sep
        then (digitsTok t).bind fun a => some (d ++ c :: a.1, a.2) else none)
      = none
    rw [if_neg (hrest c rfl).2]

/-- matchConsPtn when the components matcher already fails. -/
theorem matchConsPtn_comps_none
    (compsTok : List Char → Option (List Char × List Char))
    (valsTok : List Char → Option (List (List Char) × List Char))
    {l : List Char}
    (hhead : ∀ c, l.head? = some c → isWsChar c = false)
    (hnone : compsTok l = none) :
    matchConsPtn compsTok valsTok l = none := by
  unfold matchConsPtn
  rw [dropWhile_head_false hhead]
  simp only [hnone, Option.bind_eq_bind, Option.none_bind]

/-- matchConsPtn when the whitespace after the components fails. -/
theorem matchConsPtn_ws_none
    (compsTok : List Char → Option (List Char × List Char))
    (valsTok : List Char → Option (List (List Char) × List Char))
    {l comps r1 : List Char}
    (hhead : ∀ c, l.head? = some c → isWsChar c = false)
    (hsome : compsTok l = some (comps, r1))
    (hws : wsPlus r1 = none) :
    matchConsPtn compsTok valsTok l = none := by
  unfold matchConsPtn
  rw [dropWhile_head_false hhead]
  simp only [hsome, Option.bind_eq_bind, Option.some_bind, hws,
    Option.none_bind]

/-- wsPlus across the four-space separator of serialized rules. -/
theorem wsPlus_spaces4 {B : List Char}
    (hB : ∀ c, B.head? = some c → isWsChar c = false) :
    wsPlus ([' ', ' ', ' ', ' '] ++ B) = some B := by
  show (if isWsChar ' ' = true
      then some (([' ', ' ', ' ', ' '] ++ B).dropWhile isWsChar) else none)
    = some B
  rw [if_pos (show isWsChar ' ' = true from rfl),
    dropWhile_append_all _ (by decide), dropWhile_head_false hB]

/-- The spine of matchConsPtn on a well-shaped serialized line. -/
theorem matchConsPtn_steps
    (compsTok : List Char → Option (List Char × List Char))
    (valsTok : List Char → Option (List (List Char) × List Char))
    {compsStr par valsStr : List Char}
    (hcne : compsStr ≠ [])
    (hchead : ∀ c, compsStr.head? = some c → isWsChar c = false)
    (hcomps : compsTok (compsStr
        ++ ([' ', ' ', ' ', ' '] ++ (par ++ ([' ', ' ', ' ', ' '] ++ valsStr))))
      = some (compsStr,
          [' ', ' ', ' ', ' '] ++ (par ++ ([' ', ' ', ' ', ' '] ++ valsStr))))
    (hpne : par ≠ []) (hpall : par.all isAlnumChar)
    (hvhead : ∀ c, valsStr.head? = some c → isWsChar c = false) :
    matchConsPtn compsTok valsTok
        (compsStr
          ++ ([' ', ' ', ' ', ' '] ++ (par ++ ([' ', ' ', ' ', ' '] ++ valsStr))))
      = Option.bind (valsTok valsStr) (fun g =>
          if tailWsOrComment g.2 then some (compsStr, par, g.1) else none) := by
  unfold matchConsPtn
  rw [dropWhile_head_false (by
    intro c hc
    rw [List.head?_append_of_ne_nil _ hcne] at hc
    exact hchead c hc)]
  have hw1 : wsPlus ([' ', ' ', ' ', ' ']
        ++ (par ++ ([' ', ' ', ' ', ' '] ++ valsStr)))
      = some (par ++ ([' ', ' ', ' ', ' '] ++ valsStr)) :=
    wsPlus_spaces4 (by
      intro c hc
      rw [List.head?_append_of_ne_nil _ hpne] at hc
      exact alnum_not_ws (head?_all hpall hc))
  have htw : (par ++ ([' ', ' ', ' ', ' '] ++ valsStr)).takeWhile isAlnumChar
      = par :=
    takeWhile_token hpall (by
      intro c hc
      rw [show (([' ', ' ', ' ', ' '] ++ valsStr).head?) = some ' ' from rfl]
        at hc
      rw [← Option.some.inj hc]
      rfl)
  simp only [hcomps, Option.bind_eq_bind, Option.some_bind, hw1, htw,
    if_neg hpne, List.drop_left, wsPlus_spaces4 hvhead]

/-- The last character of a serialized line comes from its vals group. -/
theorem line_last {compsStr par valsStr : List Char}
    (hvne : valsStr ≠ []) :
    (compsStr
        ++ ([' ', ' ', ' ', ' '] ++ (par ++ ([' ', ' ', ' ', ' '] ++ valsStr)))).getLast?
      = valsStr.getLast? := by
  rw [List.getLast?_append_of_ne_nil _ (by simp),
    List.getLast?_append_of_ne_nil _ (by simp [hvne]),
    List.getLast?_append_of_ne_nil _ (by simp [hvne]),
    List.getLast?_append_of_ne_nil _ hvne]

/-- The last character of a soft range vals group is the last of its second
    float. -/
theorem softVals_last_range {A B : List Char} (hBne : B ≠ []) :
    (A ++ ' ' :: B).getLast? = B.getLast? := by
  rw [List.getLast?_append_cons, ← List.singleton_append,
    List.getLast?_append_of_ne_nil _ hBne]

theorem softVals_last_fromto {A B : List Char} (hBne : B ≠ []) :
    (A ++ ' ' :: 't' :: 'o' :: ' ' :: B).getLast? = B.getLast? := by
  rw [List.getLast?_append_cons]
  rw [show (' ' :: 't' :: 'o' :: ' ' :: B)
        = [' ', 't', 'o', ' '] ++ B from rfl,
    List.getLast?_append_of_ne_nil _ hBne]

/-- The four-space/parameter/vals tail of a serialized line, as matched by
    the whitespace rules of the grammar. -/
theorem lineTail_head_not_digit (par valsStr : List Char) :
    ∀ c, ([' ', ' ', ' ', ' '] ++ (par ++ ([' ', ' ', ' ', ' '] ++ valsStr))).head?
        = some c → isDigitChar c = false ∧ c ≠ '_' ∧ c ≠ '-' ∧ c ≠ '/'
          ∧ isWsChar c = true := by
  intro c hc
  rw [← Option.some.inj hc]
  exact ⟨rfl, by decide, by decide, by decide, rfl⟩

/-- pure on the Except monad (reduction helper). -/
theorem exceptPure {α : Type} (a : α) : (pure a : Except PyErr α) = .ok a := rfl

/-- Round trip of a serialized soft_shift rule. -/
theorem roundTrip_soft_shift (c : Int) (p : String) (x y : ℚ)
    (hc : 0 ≤ c) (hpne : p.data ≠ []) (hpall : p.data.all isAlnumChar = true)
    (hstd : standardParName p = .ok p)
    (hx : isGExact x = true) (hy : isGExact y = true) :
    ConsRule.ofLine (ConsRule.toStr
        { comps := [c], par := p, type_cons := "soft_shift",
          range_cons := [x, y] })
      = .ok { comps := [c], par := p, type_cons := "soft_shift",
              range_cons := [x, y] } := by
  have hdc_ne : (intStr c).data ≠ [] := by
    rw [intStr_data_nonneg hc]
    exact natDigits_ne_nil _
  have hdc_all : (intStr c).data.all isDigitChar = true := by
    rw [intStr_data_nonneg hc]
    exact natDigits_all_digit _
  have hvne : (fmtG x).data ++ ' ' :: (fmtG y).data ≠ [] := by simp
  have hvhead : ∀ ch, ((fmtG x).data ++ ' ' :: (fmtG y).data).head? = some ch →
      isWsChar ch = false := by
    intro ch hch
    rw [List.head?_append_of_ne_nil _ (fmtG_ne_nil hx)] at hch
    exact fmtG_head_not_ws hx ch hch
  have hchead : ∀ ch,
      ((intStr c).data
        ++ ([' ', ' ', ' ', ' '] ++ (p.data ++ ([' ', ' ', ' ', ' ']
          ++ ((fmtG x).data ++ ' ' :: (fmtG y).data))))).head? = some ch →
      isWsChar ch = false := by
    intro ch hch
    rw [List.head?_append_of_ne_nil _ hdc_ne] at hch
    exact digit_not_ws (head?_all hdc_all hch)
  have hrestTail := lineTail_head_not_digit p.data
    ((fmtG x).data ++ ' ' :: (fmtG y).data)
  have hcompsTok : digitsTok ((intStr c).data
        ++ ([' ', ' ', ' ', ' '] ++ (p.data ++ ([' ', ' ', ' ', ' ']
          ++ ((fmtG x).data ++ ' ' :: (fmtG y).data)))))
      = some ((intStr c).data,
          [' ', ' ', ' ', ' '] ++ (p.data ++ ([' ', ' ', ' ', ' ']
            ++ ((fmtG x).data ++ ' ' :: (fmtG y).data)))) :=
    digitsTok_token hdc_ne hdc_all (fun ch hch => (hrestTail ch hch).1)
  have e1 : matchKind "hard_offset"
      ((intStr c).data
        ++ ([' ', ' ', ' ', ' '] ++ (p.data ++ ([' ', ' ', ' ', ' ']
          ++ ((fmtG x).data ++ ' ' :: (fmtG y).data))))) = none := by
    rw [show matchKind "hard_offset"
          ((intStr c).data
            ++ ([' ', ' ', ' ', ' '] ++ (p.data ++ ([' ', ' ', ' ', ' ']
              ++ ((fmtG x).data ++ ' ' :: (fmtG y).data)))))
        = matchConsPtn hardCompsTok (litValsTok ['o', 'f', 'f', 's', 'e', 't'])
          ((intStr c).data
            ++ ([' ', ' ', ' ', ' '] ++ (p.data ++ ([' ', ' ', ' ', ' ']
              ++ ((fmtG x).data ++ ' ' :: (fmtG y).data))))) from rfl]
    exact matchConsPtn_comps_none _ _ hchead
      (hardCompsTok_stop hdc_ne hdc_all
        (fun ch hch => ⟨(hrestTail ch hch).1, (hrestTail ch hch).2.1⟩))
  have e2 : matchKind "hard_ratio"
      ((intStr c).data
        ++ ([' ', ' ', ' ', ' '] ++ (p.data ++ ([' ', ' ', ' ', ' ']
          ++ ((fmtG x).data ++ ' ' :: (fmtG y).data))))) = none := by
    rw [show matchKind "hard_ratio"
          ((intStr c).data
            ++ ([' ', ' ', ' ', ' '] ++ (p.data ++ ([' ', ' ', ' ', ' ']
              ++ ((fmtG x).data ++ ' ' :: (fmtG y).data)))))
        = matchConsPtn hardCompsTok (litValsTok ['r', 'a', 't', 'i', 'o'])
          ((intStr c).data
            ++ ([' ', ' ', ' ', ' '] ++ (p.data ++ ([' ', ' ', ' ', ' ']
              ++ ((fmtG x).data ++ ' ' :: (fmtG y).data))))) from rfl]
    exact matchConsPtn_comps_none _ _ hchead
      (hardCompsTok_stop hdc_ne hdc_all
        (fun ch hch => ⟨(hrestTail ch hch).1, (hrestTail ch hch).2.1⟩))
  have e3 : matchKind "soft_fromto"
      ((intStr c).data
        ++ ([' ', ' ', ' ', ' '] ++ (p.data ++ ([' ', ' ', ' ', ' ']
          ++ ((fmtG x).data ++ ' ' :: (fmtG y).data))))) = none := by
    rw [show matchKind "soft_fromto"
          ((intStr c).data
            ++ ([' ', ' ', ' ', ' '] ++ (p.data ++ ([' ', ' ', ' ', ' ']
              ++ ((fmtG x).data ++ ' ' :: (fmtG y).data)))))
        = matchConsPtn digitsTok fromtoValsTok
          ((intStr c).data
            ++ ([' ', ' ', ' ', ' '] ++ (p.data ++ ([' ', ' ', ' ', ' ']
              ++ ((fmtG x).data ++ ' ' :: (fmtG y).data))))) from rfl]
    rw [matchConsPtn_steps digitsTok fromtoValsTok hdc_ne
      (fun ch hch => digit_not_ws (head?_all hdc_all hch)) hcompsTok hpne hpall
      hvhead]
    rw [fromtoValsTok_range_none hx hy]
    rfl
  have e4 : matchKind "soft_shift"
      ((intStr c).data
        ++ ([' ', ' ', ' ', ' '] ++ (p.data ++ ([' ', ' ', ' ', ' ']
          ++ ((fmtG x).data ++ ' ' :: (fmtG y).data)))))
      = some ((intStr c).data, p.data, [(fmtG x).data, (fmtG y).data]) := by
    rw [show matchKind "soft_shift"
          ((intStr c).data
            ++ ([' ', ' ', ' ', ' '] ++ (p.data ++ ([' ', ' ', ' ', ' ']
              ++ ((fmtG x).data ++ ' ' :: (fmtG y).data)))))
        = matchConsPtn digitsTok rangeValsTok
          ((intStr c).data
            ++ ([' ', ' ', ' ', ' '] ++ (p.data ++ ([' ', ' ', ' ', ' ']
              ++ ((fmtG x).data ++ ' ' :: (fmtG y).data))))) from rfl]
    rw [matchConsPtn_steps digitsTok rangeValsTok hdc_ne
      (fun ch hch => digit_not_ws (head?_all hdc_all hch)) hcompsTok hpne hpall
      hvhead]
    rw [rangeValsTok_pair hx hy]
    rfl
  have hfm : firstMatchCons
      ((intStr c).data
        ++ ([' ', ' ', ' ', ' '] ++ (p.data ++ ([' ', ' ', ' ', ' ']
          ++ ((fmtG x).data ++ ' ' :: (fmtG y).data)))))
      = some ("soft_shift", (intStr c).data, p.data,
          [(fmtG x).data, (fmtG y).data]) := by
    simp only [firstMatchCons, kindsOrderCons, List.findSome?_cons, e1, e2,
      e3, e4, Option.map_none', Option.map_some']
  have hstrip : stripChars
      ((intStr c).data
        ++ ([' ', ' ', ' ', ' '] ++ (p.data ++ ([' ', ' ', ' ', ' ']
          ++ ((fmtG x).data ++ ' ' :: (fmtG y).data)))))
      = (intStr c).data
        ++ ([' ', ' ', ' ', ' '] ++ (p.data ++ ([' ', ' ', ' ', ' ']
          ++ ((fmtG x).data ++ ' ' :: (fmtG y).data)))) := by
    apply stripChars_eq_self hchead
    intro ch hch
    rw [line_last hvne, softVals_last_range (fmtG_ne_nil hy)] at hch
    exact digit_not_ws (fmtG_last hy hch)
  obtain ⟨d0, dt, hd0cons⟩ : ∃ d0 dt, (intStr c).data = d0 :: dt := by
    cases hdc : (intStr c).data with
    | nil => exact absurd hdc hdc_ne
    | cons d0 dt => exact ⟨d0, dt, rfl⟩
  have hd0 : isDigitChar d0 = true := by
    apply head?_all hdc_all
    rw [hd0cons]
    rfl
  have hdata : (ConsRule.toStr
      { comps := [c], par := p, type_cons := "soft_shift",
        range_cons := [x, y] }).data
    = (intStr c).data
        ++ ([' ', ' ', ' ', ' '] ++ (p.data ++ ([' ', ' ', ' ', ' ']
          ++ ((fmtG x).data ++ ' ' :: (fmtG y).data)))) := by
    show ConsRule.lineChars
        { comps := [c], par := p, type_cons := "soft_shift",
          range_cons := [x, y] } = _
    simp only [ConsRule.lineChars, List.map_cons, List.map_nil]
    rw [if_neg (show ¬((("soft_shift" : String)).data.take 5
          = ['h', 'a', 'r', 'd', '_']) by decide)]
    rw [if_neg (show ¬(("soft_shift" : String) = "soft_fromto") by decide)]
    rw [show (sepStrOf "soft_shift").data = ([] : List Char) from by decide]
    rw [show joinSep [] [(intStr c).data] = (intStr c).data from rfl]
    simp only [List.append_assoc]
  show ConsRule.load_line ConsRule.empty _ = _
  simp only [ConsRule.load_line, hdata, hstrip]
  rw [hd0cons, List.cons_append]
  simp only [if_neg (digit_ne_char hd0
    (show isDigitChar '#' = false from rfl))]
  rw [← List.cons_append, ← hd0cons, hfm]
  simp only []
  rw [show sepCharOf "soft_shift" = none from rfl]
  simp only [intStr_parse hc, exceptBindOk]
  rw [show isSoftCons "soft_shift" = true from rfl]
  simp only [if_pos]
  rw [show List.drop
        ((([(fmtG x).data, (fmtG y).data] : List (List Char))).length - 2)
        [(fmtG x).data, (fmtG y).data]
      = [(fmtG x).data, (fmtG y).data] from rfl]
  simp only [List.mapM_cons, List.mapM_nil, strToFloat_fmtG hx,
    strToFloat_fmtG hy, exceptBindOk, exceptPure]
  show ConsRule.set_cons ConsRule.empty [c] (String.mk p.data) "soft_shift"
      (some [x, y]) = _
  rw [show String.mk p.data = p from rfl]
  simp only [ConsRule.set_cons,
    show (mapAliasTypesCons.lookup "soft_shift") = none from rfl,
    if_neg (show ¬¬(kindsOrderCons.contains "soft_shift" = true) by decide),
    show numCompsReq "soft_shift" = some 1 from rfl,
    if_neg (show ¬(([c] : List Int).length ≠ 1) by simp),
    exceptBindOk, exceptPure, hstd,
    if_pos (show isSoftCons "soft_shift" = true from rfl),
    if_neg (show ¬(([x, y] : List ℚ).length ≠ 2) by simp)]

/-- Round trip of a serialized soft_fromto rule. -/
theorem roundTrip_soft_fromto (c : Int) (p : String) (x y : ℚ)
    (hc : 0 ≤ c) (hpne : p.data ≠ []) (hpall : p.data.all isAlnumChar = true)
    (hstd : standardParName p = .ok p)
    (hx : isGExact x = true) (hy : isGExact y = true) :
    ConsRule.ofLine (ConsRule.toStr
        { comps := [c], par := p, type_cons := "soft_fromto",
          range_cons := [x, y] })
      = .ok { comps := [c], par := p, type_cons := "soft_fromto",
              range_cons := [x, y] } := by
  have hdc_ne : (intStr c).data ≠ [] := by
    rw [intStr_data_nonneg hc]
    exact natDigits_ne_nil _
  have hdc_all : (intStr c).data.all isDigitChar = true := by
    rw [intStr_data_nonneg hc]
    exact natDigits_all_digit _
  have hvne : (fmtG x).data ++ ' ' :: 't' :: 'o' :: ' ' :: (fmtG y).data
      ≠ [] := by simp
  have hvhead : ∀ ch,
      ((fmtG x).data ++ ' ' :: 't' :: 'o' :: ' ' :: (fmtG y).data).head?
        = some ch → isWsChar ch = false := by
    intro ch hch
    rw [List.head?_append_of_ne_nil _ (fmtG_ne_nil hx)] at hch
    exact fmtG_head_not_ws hx ch hch
  have hchead : ∀ ch,
      ((intStr c).data
        ++ ([' ', ' ', ' ', ' '] ++ (p.data ++ ([' ', ' ', ' ', ' ']
          ++ ((fmtG x).data ++ ' ' :: 't' :: 'o' :: ' ' :: (fmtG y).data))))).head?
        = some ch → isWsChar ch = false := by
    intro ch hch
    rw [List.head?_append_of_ne_nil _ hdc_ne] at hch
    exact digit_not_ws (head?_all hdc_all hch)
  have hrestTail := lineTail_head_not_digit p.data
    ((fmtG x).data ++ ' ' :: 't' :: 'o' :: ' ' :: (fmtG y).data)
  have hcompsTok : digitsTok ((intStr c).data
        ++ ([' ', ' ', ' ', ' '] ++ (p.data ++ ([' ', ' ', ' ', ' ']
          ++ ((fmtG x).data ++ ' ' :: 't' :: 'o' :: ' ' :: (fmtG y).data)))))
      = some ((intStr c).data,
          [' ', ' ', ' ', ' '] ++ (p.data ++ ([' ', ' ', ' ', ' ']
            ++ ((fmtG x).data ++ ' ' :: 't' :: 'o' :: ' ' :: (fmtG y).data)))) :=
    digitsTok_token hdc_ne hdc_all (fun ch hch => (hrestTail ch hch).1)
  have e1 : matchKind "hard_offset"
      ((intStr c).data
        ++ ([' ', ' ', ' ', ' '] ++ (p.data ++ ([' ', ' ', ' ', ' ']
          ++ ((fmtG x).data ++ ' ' :: 't' :: 'o' :: ' ' :: (fmtG y).data)))))
      = none := by
    rw [show matchKind "hard_offset"
          ((intStr c).data
            ++ ([' ', ' ', ' ', ' '] ++ (p.data ++ ([' ', ' ', ' ', ' ']
              ++ ((fmtG x).data ++ ' ' :: 't' :: 'o' :: ' ' :: (fmtG y).data)))))
        = matchConsPtn hardCompsTok (litValsTok ['o', 'f', 'f', 's', 'e', 't'])
          ((intStr c).data
            ++ ([' ', ' ', ' ', ' '] ++ (p.data ++ ([' ', ' ', ' ', ' ']
              ++ ((fmtG x).data ++ ' ' :: 't' :: 'o' :: ' ' :: (fmtG y).data)))))
        from rfl]
    exact matchConsPtn_comps_none _ _ hchead
      (hardCompsTok_stop hdc_ne hdc_all
        (fun ch hch => ⟨(hrestTail ch hch).1, (hrestTail ch hch).2.1⟩))
  have e2 : matchKind "hard_ratio"
      ((intStr c).data
        ++ ([' ', ' ', ' ', ' '] ++ (p.data ++ ([' ', ' ', ' ', ' ']
          ++ ((fmtG x).data ++ ' ' :: 't' :: 'o' :: ' ' :: (fmtG y).data)))))
      = none := by
    rw [show matchKind "hard_ratio"
          ((intStr c).data
            ++ ([' ', ' ', ' ', ' '] ++ (p.data ++ ([' ', ' ', ' ', ' ']
              ++ ((fmtG x).data ++ ' ' :: 't' :: 'o' :: ' ' :: (fmtG y).data)))))
        = matchConsPtn hardCompsTok (litValsTok ['r', 'a', 't', 'i', 'o'])
          ((intStr c).data
            ++ ([' ', ' ', ' ', ' '] ++ (p.data ++ ([' ', ' ', ' ', ' ']
              ++ ((fmtG x).data ++ ' ' :: 't' :: 'o' :: ' ' :: (fmtG y).data)))))
        from rfl]
    exact matchConsPtn_comps_none _ _ hchead
      (hardCompsTok_stop hdc_ne hdc_all
        (fun ch hch => ⟨(hrestTail ch hch).1, (hrestTail ch hch).2.1⟩))
  have e3 : matchKind "soft_fromto"
      ((intStr c).data
        ++ ([' ', ' ', ' ', ' '] ++ (p.data ++ ([' ', ' ', ' ', ' ']
          ++ ((fmtG x).data ++ ' ' :: 't' :: 'o' :: ' ' :: (fmtG y).data)))))
      = some ((intStr c).data, p.data, [(fmtG x).data, (fmtG y).data]) := by
    rw [show matchKind "soft_fromto"
          ((intStr c).data
            ++ ([' ', ' ', ' ', ' '] ++ (p.data ++ ([' ', ' ', ' ', ' ']
              ++ ((fmtG x).data ++ ' ' :: 't' :: 'o' :: ' ' :: (fmtG y).data)))))
        = matchConsPtn digitsTok fromtoValsTok
          ((intStr c).data
            ++ ([' ', ' ', ' ', ' '] ++ (p.data ++ ([' ', ' ', ' ', ' ']
              ++ ((fmtG x).data ++ ' ' :: 't' :: 'o' :: ' ' :: (fmtG y).data)))))
        from rfl]
    rw [matchConsPtn_steps digitsTok fromtoValsTok hdc_ne
      (fun ch hch => digit_not_ws (head?_all hdc_all hch)) hcompsTok hpne hpall
      hvhead]
    rw [fromtoValsTok_pair hx hy]
    rfl
  have hfm : firstMatchCons
      ((intStr c).data
        ++ ([' ', ' ', ' ', ' '] ++ (p.data ++ ([' ', ' ', ' ', ' ']
          ++ ((fmtG x).data ++ ' ' :: 't' :: 'o' :: ' ' :: (fmtG y).data)))))
      = some ("soft_fromto", (intStr c).data, p.data,
          [(fmtG x).data, (fmtG y).data]) := by
    simp only [firstMatchCons, kindsOrderCons, List.findSome?_cons, e1, e2,
      e3, Option.map_none', Option.map_some']
  have hstrip : stripChars
      ((intStr c).data
        ++ ([' ', ' ', ' ', ' '] ++ (p.data ++ ([' ', ' ', ' ', ' ']
          ++ ((fmtG x).data ++ ' ' :: 't' :: 'o' :: ' ' :: (fmtG y).data)))))
      = (intStr c).data
        ++ ([' ', ' ', ' ', ' '] ++ (p.data ++ ([' ', ' ', ' ', ' ']
          ++ ((fmtG x).data ++ ' ' :: 't' :: 'o' :: ' ' :: (fmtG y).data)))) := by
    apply stripChars_eq_self hchead
    intro ch hch
    rw [line_last hvne, softVals_last_fromto (fmtG_ne_nil hy)] at hch
    exact digit_not_ws (fmtG_last hy hch)
  obtain ⟨d0, dt, hd0cons⟩ : ∃ d0 dt, (intStr c).data = d0 :: dt := by
    cases hdc : (intStr c).data with
    | nil => exact absurd hdc hdc_ne
    | cons d0 dt => exact ⟨d0, dt, rfl⟩
  have hd0 : isDigitChar d0 = true := by
    apply head?_all hdc_all
    rw [hd0cons]
    rfl
  have hdata : (ConsRule.toStr
      { comps := [c], par := p, type_cons := "soft_fromto",
        range_cons := [x, y] }).data
    = (intStr c).data
        ++ ([' ', ' ', ' ', ' '] ++ (p.data ++ ([' ', ' ', ' ', ' ']
          ++ ((fmtG x).data ++ ' ' :: 't' :: 'o' :: ' ' :: (fmtG y).data)))) := by
    show ConsRule.lineChars
        { comps := [c], par := p, type_cons := "soft_fromto",
          range_cons := [x, y] } = _
    simp only [ConsRule.lineChars, List.map_cons, List.map_nil]
    rw [if_neg (show ¬((("soft_fromto" : String)).data.take 5
          = ['h', 'a', 'r', 'd', '_']) by decide)]
    rw [show (sepStrOf "soft_fromto").data = ([] : List Char) from by decide]
    rw [show joinSep [] [(intStr c).data] = (intStr c).data from rfl]
    simp only [List.append_assoc]
    rw [if_pos trivial]
  show ConsRule.load_line ConsRule.empty _ = _
  simp only [ConsRule.load_line, hdata, hstrip]
  rw [hd0cons, List.cons_append]
  simp only [if_neg (digit_ne_char hd0
    (show isDigitChar '#' = false from rfl))]
  rw [← List.cons_append, ← hd0cons, hfm]
  simp only []
  rw [show sepCharOf "soft_fromto" = none from rfl]
  simp only [intStr_parse hc, exceptBindOk]
  rw [show isSoftCons "soft_fromto" = true from rfl]
  simp only [if_pos]
  rw [show List.drop
        ((([(fmtG x).data, (fmtG y).data] : List (List Char))).length - 2)
        [(fmtG x).data, (fmtG y).data]
      = [(fmtG x).data, (fmtG y).data] from rfl]
  simp only [List.mapM_cons, List.mapM_nil, strToFloat_fmtG hx,
    strToFloat_fmtG hy, exceptBindOk, exceptPure]
  show ConsRule.set_cons ConsRule.empty [c] (String.mk p.data) "soft_fromto"
      (some [x, y]) = _
  rw [show String.mk p.data = p from rfl]
  simp only [ConsRule.set_cons,
    show (mapAliasTypesCons.lookup "soft_fromto") = none from rfl,
    if_neg (show ¬¬(kindsOrderCons.contains "soft_fromto" = true) by decide),
    show numCompsReq "soft_fromto" = some 1 from rfl,
    if_neg (show ¬(([c] : List Int).length ≠ 1) by simp),
    exceptBindOk, exceptPure, hstd,
    if_pos (show isSoftCons "soft_fromto" = true from rfl),
    if_neg (show ¬(([x, y] : List ℚ).length ≠ 2) by simp)]

/-- Round trip of a serialized soft_offset rule. -/
theorem roundTrip_soft_offset (c1 c2 : Int) (p : String) (x y : ℚ)
    (hc1 : 0 ≤ c1) (hc2 : 0 ≤ c2)
    (hpne : p.data ≠ []) (hpall : p.data.all isAlnumChar = true)
    (hstd : standardParName p = .ok p)
    (hx : isGExact x = true) (hy : isGExact y = true) :
    ConsRule.ofLine (ConsRule.toStr
        { comps := [c1, c2], par := p, type_cons := "soft_offset",
          range_cons := [x, y] })
      = .ok { comps := [c1, c2], par := p, type_cons := "soft_offset",
              range_cons := [x, y] } := by
  have h1ne : (intStr c1).data ≠ [] := by
    rw [intStr_data_nonneg hc1]
    exact natDigits_ne_nil _
  have h1all : (intStr c1).data.all isDigitChar = true := by
    rw [intStr_data_nonneg hc1]
    exact natDigits_all_digit _
  have h2ne : (intStr c2).data ≠ [] := by
    rw [intStr_data_nonneg hc2]
    exact natDigits_ne_nil _
  have h2all : (intStr c2).data.all isDigitChar = true := by
    rw [intStr_data_nonneg hc2]
    exact natDigits_all_digit _
  have hcne : (intStr c1).data ++ '-' :: (intStr c2).data ≠ [] := by
    simp [h1ne]
  have hvne : (fmtG x).data ++ ' ' :: (fmtG y).data ≠ [] := by simp
  have hvhead : ∀ ch, ((fmtG x).data ++ ' ' :: (fmtG y).data).head? = some ch →
      isWsChar ch = false := by
    intro ch hch
    rw [List.head?_append_of_ne_nil _ (fmtG_ne_nil hx)] at hch
    exact fmtG_head_not_ws hx ch hch
  have hchead : ∀ ch,
      (((intStr c1).data ++ '-' :: (intStr c2).data)
        ++ ([' ', ' ', ' ', ' '] ++ (p.data ++ ([' ', ' ', ' ', ' ']
          ++ ((fmtG x).data ++ ' ' :: (fmtG y).data))))).head? = some ch →
      isWsChar ch = false := by
    intro ch hch
    rw [List.head?_append_of_ne_nil _ hcne,
      List.head?_append_of_ne_nil _ h1ne] at hch
    exact digit_not_ws (head?_all h1all hch)
  have hrestTail := lineTail_head_not_digit p.data
    ((fmtG x).data ++ ' ' :: (fmtG y).data)
  have hassoc : ((intStr c1).data ++ '-' :: (intStr c2).data)
        ++ ([' ', ' ', ' ', ' '] ++ (p.data ++ ([' ', ' ', ' ', ' ']
          ++ ((fmtG x).data ++ ' ' :: (fmtG y).data))))
      = (intStr c1).data ++ '-' :: ((intStr c2).data
        ++ ([' ', ' ', ' ', ' '] ++ (p.data ++ ([' ', ' ', ' ', ' ']
          ++ ((fmtG x).data ++ ' ' :: (fmtG y).data))))) := by
    rw [List.append_assoc, List.cons_append]
  have hdash : ∀ ch, ('-' :: ((intStr c2).data
        ++ ([' ', ' ', ' ', ' '] ++ (p.data ++ ([' ', ' ', ' ', ' ']
          ++ ((fmtG x).data ++ ' ' :: (fmtG y).data)))))).head? = some ch →
      isDigitChar ch = false ∧ ch ≠ '_' ∧ isWsChar ch = false := by
    intro ch hch
    rw [← Option.some.inj hch]
    exact ⟨rfl, by decide, rfl⟩
  have hhardNone : hardCompsTok (((intStr c1).data ++ '-' :: (intStr c2).data)
        ++ ([' ', ' ', ' ', ' '] ++ (p.data ++ ([' ', ' ', ' ', ' ']
          ++ ((fmtG x).data ++ ' ' :: (fmtG y).data))))) = none := by
    rw [hassoc]
    exact hardCompsTok_stop h1ne h1all
      (fun ch hch => ⟨(hdash ch hch).1, (hdash ch hch).2.1⟩)
  have hdig : digitsTok (((intStr c1).data ++ '-' :: (intStr c2).data)
        ++ ([' ', ' ', ' ', ' '] ++ (p.data ++ ([' ', ' ', ' ', ' ']
          ++ ((fmtG x).data ++ ' ' :: (fmtG y).data)))))
      = some ((intStr c1).data, '-' :: ((intStr c2).data
        ++ ([' ', ' ', ' ', ' '] ++ (p.data ++ ([' ', ' ', ' ', ' ']
          ++ ((fmtG x).data ++ ' ' :: (fmtG y).data)))))) := by
    rw [hassoc]
    exact digitsTok_token h1ne h1all (fun ch hch => (hdash ch hch).1)
  have hwsNone : wsPlus ('-' :: ((intStr c2).data
        ++ ([' ', ' ', ' ', ' '] ++ (p.data ++ ([' ', ' ', ' ', ' ']
          ++ ((fmtG x).data ++ ' ' :: (fmtG y).data)))))) = none :=
    wsPlus_none (fun ch hch => (hdash ch hch).2.2)
  have hcompsTok : pairCompsTok '-'
      (((intStr c1).data ++ '-' :: (intStr c2).data)
        ++ ([' ', ' ', ' ', ' '] ++ (p.data ++ ([' ', ' ', ' ', ' ']
          ++ ((fmtG x).data ++ ' ' :: (fmtG y).data)))))
      = some ((intStr c1).data ++ '-' :: (intStr c2).data,
          [' ', ' ', ' ', ' '] ++ (p.data ++ ([' ', ' ', ' ', ' ']
            ++ ((fmtG x).data ++ ' ' :: (fmtG y).data)))) :=
    pairCompsTok_pair (by decide) h1ne h1all h2ne h2all
      (fun ch hch => (hrestTail ch hch).1)
  have e1 : matchKind "hard_offset"
      (((intStr c1).data ++ '-' :: (intStr c2).data)
        ++ ([' ', ' ', ' ', ' '] ++ (p.data ++ ([' ', ' ', ' ', ' ']
          ++ ((fmtG x).data ++ ' ' :: (fmtG y).data))))) = none := by
    rw [show matchKind "hard_offset"
          (((intStr c1).data ++ '-' :: (intStr c2).data)
            ++ ([' ', ' ', ' ', ' '] ++ (p.data ++ ([' ', ' ', ' ', ' ']
              ++ ((fmtG x).data ++ ' ' :: (fmtG y).data)))))
        = matchConsPtn hardCompsTok (litValsTok ['o', 'f', 'f', 's', 'e', 't'])
          (((intStr c1).data ++ '-' :: (intStr c2).data)
            ++ ([' ', ' ', ' ', ' '] ++ (p.data ++ ([' ', ' ', ' ', ' ']
              ++ ((fmtG x).data ++ ' ' :: (fmtG y).data))))) from rfl]
    exact matchConsPtn_comps_none _ _ hchead hhardNone
  have e2 : matchKind "hard_ratio"
      (((intStr c1).data ++ '-' :: (intStr c2).data)
        ++ ([' ', ' ', ' ', ' '] ++ (p.data ++ ([' ', ' ', ' ', ' ']
          ++ ((fmtG x).data ++ ' ' :: (fmtG y).data))))) = none := by
    rw [show matchKind "hard_ratio"
          (((intStr c1).data ++ '-' :: (intStr c2).data)
            ++ ([' ', ' ', ' ', ' '] ++ (p.data ++ ([' ', ' ', ' ', ' ']
              ++ ((fmtG x).data ++ ' ' :: (fmtG y).data)))))
        = matchConsPtn hardCompsTok (litValsTok ['r', 'a', 't', 'i', 'o'])
          (((intStr c1).data ++ '-' :: (intStr c2).data)
            ++ ([' ', ' ', ' ', ' '] ++ (p.data ++ ([' ', ' ', ' ', ' ']
              ++ ((fmtG x).data ++ ' ' :: (fmtG y).data))))) from rfl]
    exact matchConsPtn_comps_none _ _ hchead hhardNone
  have e3 : matchKind "soft_fromto"
      (((intStr c1).data ++ '-' :: (intStr c2).data)
        ++ ([' ', ' ', ' ', ' '] ++ (p.data ++ ([' ', ' ', ' ', ' ']
          ++ ((fmtG x).data ++ ' ' :: (fmtG y).data))))) = none := by
    rw [show matchKind "soft_fromto"
          (((intStr c1).data ++ '-' :: (intStr c2).data)
            ++ ([' ', ' ', ' ', ' '] ++ (p.data ++ ([' ', ' ', ' ', ' ']
              ++ ((fmtG x).data ++ ' ' :: (fmtG y).data)))))
        = matchConsPtn digitsTok fromtoValsTok
          (((intStr c1).data ++ '-' :: (intStr c2).data)
            ++ ([' ', ' ', ' ', ' '] ++ (p.data ++ ([' ', ' ', ' ', ' ']
              ++ ((fmtG x).data ++ ' ' :: (fmtG y).data))))) from rfl]
    exact matchConsPtn_ws_none _ _ hchead hdig hwsNone
  have e4 : matchKind "soft_shift"
      (((intStr c1).data ++ '-' :: (intStr c2).data)
        ++ ([' ', ' ', ' ', ' '] ++ (p.data ++ ([' ', ' ', ' ', ' ']
          ++ ((fmtG x).data ++ ' ' :: (fmtG y).data))))) = none := by
    rw [show matchKind "soft_shift"
          (((intStr c1).data ++ '-' :: (intStr c2).data)
            ++ ([' ', ' ', ' ', ' '] ++ (p.data ++ ([' ', ' ', ' ', ' ']
              ++ ((fmtG x).data ++ ' ' :: (fmtG y).data)))))
        = matchConsPtn digitsTok rangeValsTok
          (((intStr c1).data ++ '-' :: (intStr c2).data)
            ++ ([' ', ' ', ' ', ' '] ++ (p.data ++ ([' ', ' ', ' ', ' ']
              ++ ((fmtG x).data ++ ' ' :: (fmtG y).data))))) from rfl]
    exact matchConsPtn_ws_none _ _ hchead hdig hwsNone
  have e5 : matchKind "soft_offset"
      (((intStr c1).data ++ '-' :: (intStr c2).data)
        ++ ([' ', ' ', ' ', ' '] ++ (p.data ++ ([' ', ' ', ' ', ' ']
          ++ ((fmtG x).data ++ ' ' :: (fmtG y).data)))))
      = some ((intStr c1).data ++ '-' :: (intStr c2).data, p.data,
          [(fmtG x).data, (fmtG y).data]) := by
    rw [show matchKind "soft_offset"
          (((intStr c1).data ++ '-' :: (intStr c2).data)
            ++ ([' ', ' ', ' ', ' '] ++ (p.data ++ ([' ', ' ', ' ', ' ']
              ++ ((fmtG x).data ++ ' ' :: (fmtG y).data)))))
        = matchConsPtn (pairCompsTok '-') rangeValsTok
          (((intStr c1).data ++ '-' :: (intStr c2).data)
            ++ ([' ', ' ', ' ', ' '] ++ (p.data ++ ([' ', ' ', ' ', ' ']
              ++ ((fmtG x).data ++ ' ' :: (fmtG y).data))))) from rfl]
    rw [matchConsPtn_steps (pairCompsTok '-') rangeValsTok hcne
      (fun ch hch => by
        rw [List.head?_append_of_ne_nil _ h1ne] at hch
        exact digit_not_ws (head?_all h1all hch))
      hcompsTok hpne hpall hvhead]
    rw [rangeValsTok_pair hx hy]
    rfl
  have hfm : firstMatchCons
      (((intStr c1).data ++ '-' :: (intStr c2).data)
        ++ ([' ', ' ', ' ', ' '] ++ (p.data ++ ([' ', ' ', ' ', ' ']
          ++ ((fmtG x).data ++ ' ' :: (fmtG y).data)))))
      = some ("soft_offset", (intStr c1).data ++ '-' :: (intStr c2).data,
          p.data, [(fmtG x).data, (fmtG y).data]) := by
    simp only [firstMatchCons, kindsOrderCons, List.findSome?_cons, e1, e2,
      e3, e4, e5, Option.map_none', Option.map_some']
  have hstrip : stripChars
      (((intStr c1).data ++ '-' :: (intStr c2).data)
        ++ ([' ', ' ', ' ', ' '] ++ (p.data ++ ([' ', ' ', ' ', ' ']
          ++ ((fmtG x).data ++ ' ' :: (fmtG y).data)))))
      = ((intStr c1).data ++ '-' :: (intStr c2).data)
        ++ ([' ', ' ', ' ', ' '] ++ (p.data ++ ([' ', ' ', ' ', ' ']
          ++ ((fmtG x).data ++ ' ' :: (fmtG y).data)))) := by
    apply stripChars_eq_self hchead
    intro ch hch
    rw [line_last hvne, softVals_last_range (fmtG_ne_nil hy)] at hch
    exact digit_not_ws (fmtG_last hy hch)
  obtain ⟨d0, dt, hd0cons⟩ : ∃ d0 dt, (intStr c1).data = d0 :: dt := by
    cases hdc : (intStr c1).data with
    | nil => exact absurd hdc h1ne
    | cons d0 dt => exact ⟨d0, dt, rfl⟩
  have hd0 : isDigitChar d0 = true := by
    apply head?_all h1all
    rw [hd0cons]
    rfl
  have hjoin : joinSep ['-'] [(intStr c1).data, (intStr c2).data]
      = (intStr c1).data ++ '-' :: (intStr c2).data := by
    simp [joinSep]
  have hdata : (ConsRule.toStr
      { comps := [c1, c2], par := p, type_cons := "soft_offset",
        range_cons := [x, y] }).data
    = ((intStr c1).data ++ '-' :: (intStr c2).data)
        ++ ([' ', ' ', ' ', ' '] ++ (p.data ++ ([' ', ' ', ' ', ' ']
          ++ ((fmtG x).data ++ ' ' :: (fmtG y).data)))) := by
    show ConsRule.lineChars
        { comps := [c1, c2], par := p, type_cons := "soft_offset",
          range_cons := [x, y] } = _
    simp only [ConsRule.lineChars, List.map_cons, List.map_nil]
    rw [if_neg (show ¬((("soft_offset" : String)).data.take 5
          = ['h', 'a', 'r', 'd', '_']) by decide)]
    rw [show (sepStrOf "soft_offset").data = (['-'] : List Char) from by decide]
    rw [hjoin]
    simp only [if_neg (show ¬(("soft_offset" : String) = "soft_fromto")
      by decide)]
    simp only [List.append_assoc, List.cons_append]
  show ConsRule.load_line ConsRule.empty _ = _
  simp only [ConsRule.load_line, hdata, hstrip]
  rw [hassoc, hd0cons, List.cons_append]
  simp only [if_neg (digit_ne_char hd0
    (show isDigitChar '#' = false from rfl))]
  rw [← List.cons_append, ← hd0cons, ← hassoc, hfm]
  simp only []
  rw [show sepCharOf "soft_offset" = some '-' from rfl]
  simp only []
  rw [← hjoin, splitOnChar_joinSep (by simp)
    (by
      intro d hd ch hcd
      have hdall : d.all isDigitChar = true := by
        simp only [List.mem_cons, List.mem_singleton,
          List.not_mem_nil, or_false] at hd
        rcases hd with hd | hd
        · rw [hd]; exact h1all
        · rw [hd]; exact h2all
      exact digit_ne_char (List.all_eq_true.mp hdall ch hcd)
        (show isDigitChar '-' = false from rfl))]
  rw [show [(intStr c1).data, (intStr c2).data]
      = ([c1, c2].map (fun i => (intStr i).data)) from rfl]
  rw [mapM_intStr (by
    intro z hz
    simp only [List.mem_cons, List.mem_singleton,
      List.not_mem_nil, or_false] at hz
    rcases hz with hz | hz
    · rw [hz]; exact hc1
    · rw [hz]; exact hc2)]
  simp only [exceptBindOk]
  rw [show isSoftCons "soft_offset" = true from rfl]
  simp only [if_pos]
  rw [show List.drop
        ((([(fmtG x).data, (fmtG y).data] : List (List Char))).length - 2)
        [(fmtG x).data, (fmtG y).data]
      = [(fmtG x).data, (fmtG y).data] from rfl]
  simp only [List.mapM_cons, List.mapM_nil, strToFloat_fmtG hx,
    strToFloat_fmtG hy, exceptBindOk, exceptPure]
  show ConsRule.set_cons ConsRule.empty [c1, c2] (String.mk p.data)
      "soft_offset" (some [x, y]) = _
  rw [show String.mk p.data = p from rfl]
  simp only [ConsRule.set_cons,
    show (mapAliasTypesCons.lookup "soft_offset") = none from rfl,
    if_neg (show ¬¬(kindsOrderCons.contains "soft_offset" = true) by decide),
    show numCompsReq "soft_offset" = some 2 from rfl,
    if_neg (show ¬(([c1, c2] : List Int).length ≠ 2) by simp),
    exceptBindOk, exceptPure, hstd,
    if_pos (show isSoftCons "soft_offset" = true from rfl),
    if_neg (show ¬(([x, y] : List ℚ).length ≠ 2) by simp)]

/-- Round trip of a serialized soft_ratio rule. -/
theorem roundTrip_soft_ratio (c1 c2 : Int) (p : String) (x y : ℚ)
    (hc1 : 0 ≤ c1) (hc2 : 0 ≤ c2)
    (hpne : p.data ≠ []) (hpall : p.data.all isAlnumChar = true)
    (hstd : standardParName p = .ok p)
    (hx : isGExact x = true) (hy : isGExact y = true) :
    ConsRule.ofLine (ConsRule.toStr
        { comps := [c1, c2], par := p, type_cons := "soft_ratio",
          range_cons := [x, y] })
      = .ok { comps := [c1, c2], par := p, type_cons := "soft_ratio",
              range_cons := [x, y] } := by
  have h1ne : (intStr c1).data ≠ [] := by
    rw [intStr_data_nonneg hc1]
    exact natDigits_ne_nil _
  have h1all : (intStr c1).data.all isDigitChar = true := by
    rw [intStr_data_nonneg hc1]
    exact natDigits_all_digit _
  have h2ne : (intStr c2).data ≠ [] := by
    rw [intStr_data_nonneg hc2]
    exact natDigits_ne_nil _
  have h2all : (intStr c2).data.all isDigitChar = true := by
    rw [intStr_data_nonneg hc2]
    exact natDigits_all_digit _
  have hcne : (intStr c1).data ++ '/' :: (intStr c2).data ≠ [] := by
    simp [h1ne]
  have hvne : (fmtG x).data ++ ' ' :: (fmtG y).data ≠ [] := by simp
  have hvhead : ∀ ch, ((fmtG x).data ++ ' ' :: (fmtG y).data).head? = some ch →
      isWsChar ch = false := by
    intro ch hch
    rw [List.head?_append_of_ne_nil _ (fmtG_ne_nil hx)] at hch
    exact fmtG_head_not_ws hx ch hch
  have hchead : ∀ ch,
      (((intStr c1).data ++ '/' :: (intStr c2).data)
        ++ ([' ', ' ', ' ', ' '] ++ (p.data ++ ([' ', ' ', ' ', ' ']
          ++ ((fmtG x).data ++ ' ' :: (fmtG y).data))))).head? = some ch →
      isWsChar ch = false := by
    intro ch hch
    rw [List.head?_append_of_ne_nil _ hcne,
      List.head?_append_of_ne_nil _ h1ne] at hch
    exact digit_not_ws (head?_all h1all hch)
  have hrestTail := lineTail_head_not_digit p.data
    ((fmtG x).data ++ ' ' :: (fmtG y).data)
  have hassoc : ((intStr c1).data ++ '/' :: (intStr c2).data)
        ++ ([' ', ' ', ' ', ' '] ++ (p.data ++ ([' ', ' ', ' ', ' ']
          ++ ((fmtG x).data ++ ' ' :: (fmtG y).data))))
      = (intStr c1).data ++ '/' :: ((intStr c2).data
        ++ ([' ', ' ', ' ', ' '] ++ (p.data ++ ([' ', ' ', ' ', ' ']
          ++ ((fmtG x).data ++ ' ' :: (fmtG y).data))))) := by
    rw [List.append_assoc, List.cons_append]
  have hdash : ∀ ch, ('/' :: ((intStr c2).data
        ++ ([' ', ' ', ' ', ' '] ++ (p.data ++ ([' ', ' ', ' ', ' ']
          ++ ((fmtG x).data ++ ' ' :: (fmtG y).data)))))).head? = some ch →
      isDigitChar ch = false ∧ ch ≠ '_' ∧ isWsChar ch = false ∧ ch ≠ '-' := by
    intro ch hch
    rw [← Option.some.inj hch]
    exact ⟨rfl, by decide, rfl, by decide⟩
  have hhardNone : hardCompsTok (((intStr c1).data ++ '/' :: (intStr c2).data)
        ++ ([' ', ' ', ' ', ' '] ++ (p.data ++ ([' ', ' ', ' ', ' ']
          ++ ((fmtG x).data ++ ' ' :: (fmtG y).data))))) = none := by
    rw [hassoc]
    exact hardCompsTok_stop h1ne h1all
      (fun ch hch => ⟨(hdash ch hch).1, (hdash ch hch).2.1⟩)
  have hdig : digitsTok (((intStr c1).data ++ '/' :: (intStr c2).data)
        ++ ([' ', ' ', ' ', ' '] ++ (p.data ++ ([' ', ' ', ' ', ' ']
          ++ ((fmtG x).data ++ ' ' :: (fmtG y).data)))))
      = some ((intStr c1).data, '/' :: ((intStr c2).data
        ++ ([' ', ' ', ' ', ' '] ++ (p.data ++ ([' ', ' ', ' ', ' ']
          ++ ((fmtG x).data ++ ' ' :: (fmtG y).data)))))) := by
    rw [hassoc]
    exact digitsTok_token h1ne h1all (fun ch hch => (hdash ch hch).1)
  have hwsNone : wsPlus ('/' :: ((intStr c2).data
        ++ ([' ', ' ', ' ', ' '] ++ (p.data ++ ([' ', ' ', ' ', ' ']
          ++ ((fmtG x).data ++ ' ' :: (fmtG y).data)))))) = none :=
    wsPlus_none (fun ch hch => (hdash ch hch).2.2.1)
  have hpairNone : pairCompsTok '-'
      (((intStr c1).data ++ '/' :: (intStr c2).data)
        ++ ([' ', ' ', ' ', ' '] ++ (p.data ++ ([' ', ' ', ' ', ' ']
          ++ ((fmtG x).data ++ ' ' :: (fmtG y).data))))) = none := by
    rw [hassoc]
    exact pairCompsTok_stop h1ne h1all
      (fun ch hch => ⟨(hdash ch hch).1, (hdash ch hch).2.2.2⟩)
  have hcompsTok : pairCompsTok '/'
      (((intStr c1).data ++ '/' :: (intStr c2).data)
        ++ ([' ', ' ', ' ', ' '] ++ (p.data ++ ([' ', ' ', ' ', ' ']
          ++ ((fmtG x).data ++ ' ' :: (fmtG y).data)))))
      = some ((intStr c1).data ++ '/' :: (intStr c2).data,
          [' ', ' ', ' ', ' '] ++ (p.data ++ ([' ', ' ', ' ', ' ']
            ++ ((fmtG x).data ++ ' ' :: (fmtG y).data)))) :=
    pairCompsTok_pair (by decide) h1ne h1all h2ne h2all
      (fun ch hch => (hrestTail ch hch).1)
  have e1 : matchKind "hard_offset"
      (((intStr c1).data ++ '/' :: (intStr c2).data)
        ++ ([' ', ' ', ' ', ' '] ++ (p.data ++ ([' ', ' ', ' ', ' ']
          ++ ((fmtG x).data ++ ' ' :: (fmtG y).data))))) = none := by
    rw [show matchKind "hard_offset"
          (((intStr c1).data ++ '/' :: (intStr c2).data)
            ++ ([' ', ' ', ' ', ' '] ++ (p.data ++ ([' ', ' ', ' ', ' ']
              ++ ((fmtG x).data ++ ' ' :: (fmtG y).data)))))
        = matchConsPtn hardCompsTok (litValsTok ['o', 'f', 'f', 's', 'e', 't'])
          (((intStr c1).data ++ '/' :: (intStr c2).data)
            ++ ([' ', ' ', ' ', ' '] ++ (p.data ++ ([' ', ' ', ' ', ' ']
              ++ ((fmtG x).data ++ ' ' :: (fmtG y).data))))) from rfl]
    exact matchConsPtn_comps_none _ _ hchead hhardNone
  have e2 : matchKind "hard_ratio"
      (((intStr c1).data ++ '/' :: (intStr c2).data)
        ++ ([' ', ' ', ' ', ' '] ++ (p.data ++ ([' ', ' ', ' ', ' ']
          ++ ((fmtG x).data ++ ' ' :: (fmtG y).data))))) = none := by
    rw [show matchKind "hard_ratio"
          (((intStr c1).data ++ '/' :: (intStr c2).data)
            ++ ([' ', ' ', ' ', ' '] ++ (p.data ++ ([' ', ' ', ' ', ' ']
              ++ ((fmtG x).data ++ ' ' :: (fmtG y).data)))))
        = matchConsPtn hardCompsTok (litValsTok ['r', 'a', 't', 'i', 'o'])
          (((intStr c1).data ++ '/' :: (intStr c2).data)
            ++ ([' ', ' ', ' ', ' '] ++ (p.data ++ ([' ', ' ', ' ', ' ']
              ++ ((fmtG x).data ++ ' ' :: (fmtG y).data))))) from rfl]
    exact matchConsPtn_comps_none _ _ hchead hhardNone
  have e3 : matchKind "soft_fromto"
      (((intStr c1).data ++ '/' :: (intStr c2).data)
        ++ ([' ', ' ', ' ', ' '] ++ (p.data ++ ([' ', ' ', ' ', ' ']
          ++ ((fmtG x).data ++ ' ' :: (fmtG y).data))))) = none := by
    rw [show matchKind "soft_fromto"
          (((intStr c1).data ++ '/' :: (intStr c2).data)
            ++ ([' ', ' ', ' ', ' '] ++ (p.data ++ ([' ', ' ', ' ', ' ']
              ++ ((fmtG x).data ++ ' ' :: (fmtG y).data)))))
        = matchConsPtn digitsTok fromtoValsTok
          (((intStr c1).data ++ '/' :: (intStr c2).data)
            ++ ([' ', ' ', ' ', ' '] ++ (p.data ++ ([' ', ' ', ' ', ' ']
              ++ ((fmtG x).data ++ ' ' :: (fmtG y).data))))) from rfl]
    exact matchConsPtn_ws_none _ _ hchead hdig hwsNone
  have e4 : matchKind "soft_shift"
      (((intStr c1).data ++ '/' :: (intStr c2).data)
        ++ ([' ', ' ', ' ', ' '] ++ (p.data ++ ([' ', ' ', ' ', ' ']
          ++ ((fmtG x).data ++ ' ' :: (fmtG y).data))))) = none := by
    rw [show matchKind "soft_shift"
          (((intStr c1).data ++ '/' :: (intStr c2).data)
            ++ ([' ', ' ', ' ', ' '] ++ (p.data ++ ([' ', ' ', ' ', ' ']
              ++ ((fmtG x).data ++ ' ' :: (fmtG y).data)))))
        = matchConsPtn digitsTok rangeValsTok
          (((intStr c1).data ++ '/' :: (intStr c2).data)
            ++ ([' ', ' ', ' ', ' '] ++ (p.data ++ ([' ', ' ', ' ', ' ']
              ++ ((fmtG x).data ++ ' ' :: (fmtG y).data))))) from rfl]
    exact matchConsPtn_ws_none _ _ hchead hdig hwsNone
  have e5 : matchKind "soft_offset"
      (((intStr c1).data ++ '/' :: (intStr c2).data)
        ++ ([' ', ' ', ' ', ' '] ++ (p.data ++ ([' ', ' ', ' ', ' ']
          ++ ((fmtG x).data ++ ' ' :: (fmtG y).data))))) = none := by
    rw [show matchKind "soft_offset"
          (((intStr c1).data ++ '/' :: (intStr c2).data)
            ++ ([' ', ' ', ' ', ' '] ++ (p.data ++ ([' ', ' ', ' ', ' ']
              ++ ((fmtG x).data ++ ' ' :: (fmtG y).data)))))
        = matchConsPtn (pairCompsTok '-') rangeValsTok
          (((intStr c1).data ++ '/' :: (intStr c2).data)
            ++ ([' ', ' ', ' ', ' '] ++ (p.data ++ ([' ', ' ', ' ', ' ']
              ++ ((fmtG x).data ++ ' ' :: (fmtG y).data))))) from rfl]
    exact matchConsPtn_comps_none _ _ hchead hpairNone
  have e6 : matchKind "soft_ratio"
      (((intStr c1).data ++ '/' :: (intStr c2).data)
        ++ ([' ', ' ', ' ', ' '] ++ (p.data ++ ([' ', ' ', ' ', ' ']
          ++ ((fmtG x).data ++ ' ' :: (fmtG y).data)))))
      = some ((intStr c1).data ++ '/' :: (intStr c2).data, p.data,
          [(fmtG x).data, (fmtG y).data]) := by
    rw [show matchKind "soft_ratio"
          (((intStr c1).data ++ '/' :: (intStr c2).data)
            ++ ([' ', ' ', ' ', ' '] ++ (p.data ++ ([' ', ' ', ' ', ' ']
              ++ ((fmtG x).data ++ ' ' :: (fmtG y).data)))))
        = matchConsPtn (pairCompsTok '/') rangeValsTok
          (((intStr c1).data ++ '/' :: (intStr c2).data)
            ++ ([' ', ' ', ' ', ' '] ++ (p.data ++ ([' ', ' ', ' ', ' ']
              ++ ((fmtG x).data ++ ' ' :: (fmtG y).data))))) from rfl]
    rw [matchConsPtn_steps (pairCompsTok '/') rangeValsTok hcne
      (fun ch hch => by
        rw [List.head?_append_of_ne_nil _ h1ne] at hch
        exact digit_not_ws (head?_all h1all hch))
      hcompsTok hpne hpall hvhead]
    rw [rangeValsTok_pair hx hy]
    rfl
  have hfm : firstMatchCons
      (((intStr c1).data ++ '/' :: (intStr c2).data)
        ++ ([' ', ' ', ' ', ' '] ++ (p.data ++ ([' ', ' ', ' ', ' ']
          ++ ((fmtG x).data ++ ' ' :: (fmtG y).data)))))
      = some ("soft_ratio", (intStr c1).data ++ '/' :: (intStr c2).data,
          p.data, [(fmtG x).data, (fmtG y).data]) := by
    simp only [firstMatchCons, kindsOrderCons, List.findSome?_cons, e1, e2,
      e3, e4, e5, e6, Option.map_none', Option.map_some']
  have hstrip : stripChars
      (((intStr c1).data ++ '/' :: (intStr c2).data)
        ++ ([' ', ' ', ' ', ' '] ++ (p.data ++ ([' ', ' ', ' ', ' ']
          ++ ((fmtG x).data ++ ' ' :: (fmtG y).data)))))
      = ((intStr c1).data ++ '/' :: (intStr c2).data)
        ++ ([' ', ' ', ' ', ' '] ++ (p.data ++ ([' ', ' ', ' ', ' ']
          ++ ((fmtG x).data ++ ' ' :: (fmtG y).data)))) := by
    apply stripChars_eq_self hchead
    intro ch hch
    rw [line_last hvne, softVals_last_range (fmtG_ne_nil hy)] at hch
    exact digit_not_ws (fmtG_last hy hch)
  obtain ⟨d0, dt, hd0cons⟩ : ∃ d0 dt, (intStr c1).data = d0 :: dt := by
    cases hdc : (intStr c1).data with
    | nil => exact absurd hdc h1ne
    | cons d0 dt => exact ⟨d0, dt, rfl⟩
  have hd0 : isDigitChar d0 = true := by
    apply head?_all h1all
    rw [hd0cons]
    rfl
  have hjoin : joinSep ['/'] [(intStr c1).data, (intStr c2).data]
      = (intStr c1).data ++ '/' :: (intStr c2).data := by
    simp [joinSep]
  have hdata : (ConsRule.toStr
      { comps := [c1, c2], par := p, type_cons := "soft_ratio",
        range_cons := [x, y] }).data
    = ((intStr c1).data ++ '/' :: (intStr c2).data)
        ++ ([' ', ' ', ' ', ' '] ++ (p.data ++ ([' ', ' ', ' ', ' ']
          ++ ((fmtG x).data ++ ' ' :: (fmtG y).data)))) := by
    show ConsRule.lineChars
        { comps := [c1, c2], par := p, type_cons := "soft_ratio",
          range_cons := [x, y] } = _
    simp only [ConsRule.lineChars, List.map_cons, List.map_nil]
    rw [if_neg (show ¬((("soft_ratio" : String)).data.take 5
          = ['h', 'a', 'r', 'd', '_']) by decide)]
    rw [show (sepStrOf "soft_ratio").data = (['/'] : List Char) from by decide]
    rw [hjoin]
    simp only [if_neg (show ¬(("soft_ratio" : String) = "soft_fromto")
      by decide)]
    simp only [List.append_assoc, List.cons_append]
  show ConsRule.load_line ConsRule.empty _ = _
  simp only [ConsRule.load_line, hdata, hstrip]
  rw [hassoc, hd0cons, List.cons_append]
  simp only [if_neg (digit_ne_char hd0
    (show isDigitChar '#' = false from rfl))]
  rw [← List.cons_append, ← hd0cons, ← hassoc, hfm]
  simp only []
  rw [show sepCharOf "soft_ratio" = some '/' from rfl]
  simp only []
  rw [← hjoin, splitOnChar_joinSep (by simp)
    (by
      intro d hd ch hcd
      have hdall : d.all isDigitChar = true := by
        simp only [List.mem_cons, List.mem_singleton,
          List.not_mem_nil, or_false] at hd
        rcases hd with hd | hd
        · rw [hd]; exact h1all
        · rw [hd]; exact h2all
      exact digit_ne_char (List.all_eq_true.mp hdall ch hcd)
        (show isDigitChar '/' = false from rfl))]
  rw [show [(intStr c1).data, (intStr c2).data]
      = ([c1, c2].map (fun i => (intStr i).data)) from rfl]
  rw [mapM_intStr (by
    intro z hz
    simp only [List.mem_cons, List.mem_singleton,
      List.not_mem_nil, or_false] at hz
    rcases hz with hz | hz
    · rw [hz]; exact hc1
    · rw [hz]; exact hc2)]
  simp only [exceptBindOk]
  rw [show isSoftCons "soft_ratio" = true from rfl]
  simp only [if_pos]
  rw [show List.drop
        ((([(fmtG x).data, (fmtG y).data] : List (List Char))).length - 2)
        [(fmtG x).data, (fmtG y).data]
      = [(fmtG x).data, (fmtG y).data] from rfl]
  simp only [List.mapM_cons, List.mapM_nil, strToFloat_fmtG hx,
    strToFloat_fmtG hy, exceptBindOk, exceptPure]
  show ConsRule.set_cons ConsRule.empty [c1, c2] (String.mk p.data)
      "soft_ratio" (some [x, y]) = _
  rw [show String.mk p.data = p from rfl]
  simp only [ConsRule.set_cons,
    show (mapAliasTypesCons.lookup "soft_ratio") = none from rfl,
    if_neg (show ¬¬(kindsOrderCons.contains "soft_ratio" = true) by decide),
    show numCompsReq "soft_ratio" = some 2 from rfl,
    if_neg (show ¬(([c1, c2] : List Int).length ≠ 2) by simp),
    exceptBindOk, exceptPure, hstd,
    if_pos (show isSoftCons "soft_ratio" = true from rfl),
    if_neg (show ¬(([x, y] : List ℚ).length ≠ 2) by simp)]

/-- Round trip of a serialized hard_offset rule. -/
theorem roundTrip_hard_offset (c1 : Int) (cs : List Int) (p : String)
    (hlen : 1 ≤ cs.length)
    (hnn : ∀ z ∈ c1 :: cs, 0 ≤ z)
    (hpne : p.data ≠ []) (hpall : p.data.all isAlnumChar = true)
    (hstd : standardParName p = .ok p) :
    ConsRule.ofLine (ConsRule.toStr
        { comps := c1 :: cs, par := p, type_cons := "hard_offset",
          range_cons := [] })
      = .ok { comps := c1 :: cs, par := p, type_cons := "hard_offset",
              range_cons := [] } := by
  have h1ne : (intStr c1).data ≠ [] := by
    rw [intStr_data_nonneg (hnn c1 (by simp))]
    exact natDigits_ne_nil _
  have h1all : (intStr c1).data.all isDigitChar = true := by
    rw [intStr_data_nonneg (hnn c1 (by simp))]
    exact natDigits_all_digit _
  have hds : ∀ d ∈ (c1 :: cs).map (fun i => (intStr i).data),
      d ≠ [] ∧ d.all isDigitChar := by
    intro d hd
    obtain ⟨z, hz, rfl⟩ := List.mem_map.mp hd
    refine ⟨?_, ?_⟩
    · rw [intStr_data_nonneg (hnn z hz)]
      exact natDigits_ne_nil _
    · rw [intStr_data_nonneg (hnn z hz)]
      exact natDigits_all_digit _
  have hdslen : 2 ≤ ((c1 :: cs).map (fun i => (intStr i).data)).length := by
    rw [List.length_map, List.length_cons]
    omega
  have hcne : joinSep ['_'] ((c1 :: cs).map (fun i => (intStr i).data))
      ≠ [] := by
    rw [List.map_cons, joinSep_cons_tailJoin]
    simp [h1ne]
  have hheadeq : (joinSep ['_']
        ((c1 :: cs).map (fun i => (intStr i).data))).head?
      = (intStr c1).data.head? := by
    rw [List.map_cons, joinSep_cons_tailJoin,
      List.head?_append_of_ne_nil _ h1ne]
  have hchead : ∀ ch,
      ((joinSep ['_'] ((c1 :: cs).map (fun i => (intStr i).data)))
        ++ ([' ', ' ', ' ', ' '] ++ (p.data ++ ([' ', ' ', ' ', ' ']
          ++ ['o', 'f', 'f', 's', 'e', 't'])))).head? = some ch →
      isWsChar ch = false := by
    intro ch hch
    rw [List.head?_append_of_ne_nil _ hcne, hheadeq] at hch
    exact digit_not_ws (head?_all h1all hch)
  have hrestTail := lineTail_head_not_digit p.data
    (['o', 'f', 'f', 's', 'e', 't'] : List Char)
  have hcompsTok : hardCompsTok
      ((joinSep ['_'] ((c1 :: cs).map (fun i => (intStr i).data)))
        ++ ([' ', ' ', ' ', ' '] ++ (p.data ++ ([' ', ' ', ' ', ' ']
          ++ ['o', 'f', 'f', 's', 'e', 't']))))
      = some (joinSep ['_'] ((c1 :: cs).map (fun i => (intStr i).data)),
          [' ', ' ', ' ', ' '] ++ (p.data ++ ([' ', ' ', ' ', ' ']
            ++ ['o', 'f', 'f', 's', 'e', 't']))) :=
    hardCompsTok_join hdslen hds
      (fun ch hch => ⟨(hrestTail ch hch).1, (hrestTail ch hch).2.1⟩)
  have e1 : matchKind "hard_offset"
      ((joinSep ['_'] ((c1 :: cs).map (fun i => (intStr i).data)))
        ++ ([' ', ' ', ' ', ' '] ++ (p.data ++ ([' ', ' ', ' ', ' ']
          ++ ['o', 'f', 'f', 's', 'e', 't']))))
      = some (joinSep ['_'] ((c1 :: cs).map (fun i => (intStr i).data)),
          p.data, ([] : List (List Char))) := by
    rw [show matchKind "hard_offset"
          ((joinSep ['_'] ((c1 :: cs).map (fun i => (intStr i).data)))
            ++ ([' ', ' ', ' ', ' '] ++ (p.data ++ ([' ', ' ', ' ', ' ']
              ++ ['o', 'f', 'f', 's', 'e', 't']))))
        = matchConsPtn hardCompsTok (litValsTok ['o', 'f', 'f', 's', 'e', 't'])
          ((joinSep ['_'] ((c1 :: cs).map (fun i => (intStr i).data)))
            ++ ([' ', ' ', ' ', ' '] ++ (p.data ++ ([' ', ' ', ' ', ' ']
              ++ ['o', 'f', 'f', 's', 'e', 't'])))) from rfl]
    rw [matchConsPtn_steps hardCompsTok
      (litValsTok ['o', 'f', 'f', 's', 'e', 't']) hcne
      (fun ch hch => by
        rw [hheadeq] at hch
        exact digit_not_ws (head?_all h1all hch))
      hcompsTok hpne hpall
      (fun ch hch => by rw [← Option.some.inj hch]; rfl)]
    rfl
  have hfm : firstMatchCons
      ((joinSep ['_'] ((c1 :: cs).map (fun i => (intStr i).data)))
        ++ ([' ', ' ', ' ', ' '] ++ (p.data ++ ([' ', ' ', ' ', ' ']
          ++ ['o', 'f', 'f', 's', 'e', 't']))))
      = some ("hard_offset",
          joinSep ['_'] ((c1 :: cs).map (fun i => (intStr i).data)),
          p.data, ([] : List (List Char))) := by
    simp only [firstMatchCons, kindsOrderCons, List.findSome?_cons, e1,
      Option.map_some']
  have hstrip : stripChars
      ((joinSep ['_'] ((c1 :: cs).map (fun i => (intStr i).data)))
        ++ ([' ', ' ', ' ', ' '] ++ (p.data ++ ([' ', ' ', ' ', ' ']
          ++ ['o', 'f', 'f', 's', 'e', 't']))))
      = (joinSep ['_'] ((c1 :: cs).map (fun i => (intStr i).data)))
        ++ ([' ', ' ', ' ', ' '] ++ (p.data ++ ([' ', ' ', ' ', ' ']
          ++ ['o', 'f', 'f', 's', 'e', 't']))) := by
    apply stripChars_eq_self hchead
    intro ch hch
    rw [line_last (by simp)] at hch
    rw [show (['o', 'f', 'f', 's', 'e', 't'] : List Char).getLast?
        = some 't' from rfl] at hch
    rw [← Option.some.inj hch]
    rfl
  obtain ⟨e0, et, hcs⟩ : ∃ e0 et,
      joinSep ['_'] ((c1 :: cs).map (fun i => (intStr i).data))
        = e0 :: et := by
    cases hj : joinSep ['_'] ((c1 :: cs).map (fun i => (intStr i).data)) with
    | nil => exact absurd hj hcne
    | cons e0 et => exact ⟨e0, et, rfl⟩
  have hd0 : isDigitChar e0 = true := by
    have h := hheadeq
    rw [hcs] at h
    exact head?_all h1all h.symm
  have hdata : (ConsRule.toStr
      { comps := c1 :: cs, par := p, type_cons := "hard_offset",
        range_cons := [] }).data
    = (joinSep ['_'] ((c1 :: cs).map (fun i => (intStr i).data)))
        ++ ([' ', ' ', ' ', ' '] ++ (p.data ++ ([' ', ' ', ' ', ' ']
          ++ ['o', 'f', 'f', 's', 'e', 't']))) := by
    show ConsRule.lineChars
        { comps := c1 :: cs, par := p, type_cons := "hard_offset",
          range_cons := [] } = _
    simp only [ConsRule.lineChars]
    rw [if_pos (show (("hard_offset" : String)).data.take 5
          = ['h', 'a', 'r', 'd', '_'] from by decide)]
    rw [show ("hard_offset" : String).data.drop 5
        = (['o', 'f', 'f', 's', 'e', 't'] : List Char) from by decide]
    rw [show (sepStrOf "hard_offset").data = (['_'] : List Char) from
      by decide]
    simp only [List.append_assoc]
  show ConsRule.load_line ConsRule.empty _ = _
  simp only [ConsRule.load_line, hdata, hstrip]
  rw [hcs, List.cons_append]
  simp only [if_neg (digit_ne_char hd0
    (show isDigitChar '#' = false from rfl))]
  rw [← List.cons_append, ← hcs, hfm]
  simp only []
  rw [show sepCharOf "hard_offset" = some '_' from rfl]
  simp only []
  rw [splitOnChar_joinSep (by simp)
    (by
      intro d hd ch hcd
      exact digit_ne_char (List.all_eq_true.mp (hds d hd).2 ch hcd)
        (show isDigitChar '_' = false from rfl))]
  rw [mapM_intStr hnn]
  simp only [exceptBindOk]
  simp only [if_neg (show ¬(isSoftCons "hard_offset" = true) by decide)]
  show ConsRule.set_cons ConsRule.empty (c1 :: cs) (String.mk p.data)
      "hard_offset" none = _
  rw [show String.mk p.data = p from rfl]
  simp only [ConsRule.set_cons,
    show (mapAliasTypesCons.lookup "hard_offset") = none from rfl,
    if_neg (show ¬¬(kindsOrderCons.contains "hard_offset" = true) by decide),
    show numCompsReq "hard_offset" = none from rfl,
    exceptBindOk, exceptPure, hstd,
    if_neg (show ¬(isSoftCons "hard_offset" = true) by decide)]
  rfl

/-- Round trip of a serialized hard_ratio rule. -/
theorem roundTrip_hard_ratio (c1 : Int) (cs : List Int) (p : String)
    (hlen : 1 ≤ cs.length)
    (hnn : ∀ z ∈ c1 :: cs, 0 ≤ z)
    (hpne : p.data ≠ []) (hpall : p.data.all isAlnumChar = true)
    (hstd : standardParName p = .ok p) :
    ConsRule.ofLine (ConsRule.toStr
        { comps := c1 :: cs, par := p, type_cons := "hard_ratio",
          range_cons := [] })
      = .ok { comps := c1 :: cs, par := p, type_cons := "hard_ratio",
              range_cons := [] } := by
  have h1ne : (intStr c1).data ≠ [] := by
    rw [intStr_data_nonneg (hnn c1 (by simp))]
    exact natDigits_ne_nil _
  have h1all : (intStr c1).data.all isDigitChar = true := by
    rw [intStr_data_nonneg (hnn c1 (by simp))]
    exact natDigits_all_digit _
  have hds : ∀ d ∈ (c1 :: cs).map (fun i => (intStr i).data),
      d ≠ [] ∧ d.all isDigitChar := by
    intro d hd
    obtain ⟨z, hz, rfl⟩ := List.mem_map.mp hd
    refine ⟨?_, ?_⟩
    · rw [intStr_data_nonneg (hnn z hz)]
      exact natDigits_ne_nil _
    · rw [intStr_data_nonneg (hnn z hz)]
      exact natDigits_all_digit _
  have hdslen : 2 ≤ ((c1 :: cs).map (fun i => (intStr i).data)).length := by
    rw [List.length_map, List.length_cons]
    omega
  have hcne : joinSep ['_'] ((c1 :: cs).map (fun i => (intStr i).data))
      ≠ [] := by
    rw [List.map_cons, joinSep_cons_tailJoin]
    simp [h1ne]
  have hheadeq : (joinSep ['_']
        ((c1 :: cs).map (fun i => (intStr i).data))).head?
      = (intStr c1).data.head? := by
    rw [List.map_cons, joinSep_cons_tailJoin,
      List.head?_append_of_ne_nil _ h1ne]
  have hchead : ∀ ch,
      ((joinSep ['_'] ((c1 :: cs).map (fun i => (intStr i).data)))
        ++ ([' ', ' ', ' ', ' '] ++ (p.data ++ ([' ', ' ', ' ', ' ']
          ++ ['r', 'a', 't', 'i', 'o'])))).head? = some ch →
      isWsChar ch = false := by
    intro ch hch
    rw [List.head?_append_of_ne_nil _ hcne, hheadeq] at hch
    exact digit_not_ws (head?_all h1all hch)
  have hrestTail := lineTail_head_not_digit p.data
    (['r', 'a', 't', 'i', 'o'] : List Char)
  have hcompsTok : hardCompsTok
      ((joinSep ['_'] ((c1 :: cs).map (fun i => (intStr i).data)))
        ++ ([' ', ' ', ' ', ' '] ++ (p.data ++ ([' ', ' ', ' ', ' ']
          ++ ['r', 'a', 't', 'i', 'o']))))
      = some (joinSep ['_'] ((c1 :: cs).map (fun i => (intStr i).data)),
          [' ', ' ', ' ', ' '] ++ (p.data ++ ([' ', ' ', ' ', ' ']
            ++ ['r', 'a', 't', 'i', 'o']))) :=
    hardCompsTok_join hdslen hds
      (fun ch hch => ⟨(hrestTail ch hch).1, (hrestTail ch hch).2.1⟩)
  have e1 : matchKind "hard_offset"
      ((joinSep ['_'] ((c1 :: cs).map (fun i => (intStr i).data)))
        ++ ([' ', ' ', ' ', ' '] ++ (p.data ++ ([' ', ' ', ' ', ' ']
          ++ ['r', 'a', 't', 'i', 'o'])))) = none := by
    rw [show matchKind "hard_offset"
          ((joinSep ['_'] ((c1 :: cs).map (fun i => (intStr i).data)))
            ++ ([' ', ' ', ' ', ' '] ++ (p.data ++ ([' ', ' ', ' ', ' ']
              ++ ['r', 'a', 't', 'i', 'o']))))
        = matchConsPtn hardCompsTok (litValsTok ['o', 'f', 'f', 's', 'e', 't'])
          ((joinSep ['_'] ((c1 :: cs).map (fun i => (intStr i).data)))
            ++ ([' ', ' ', ' ', ' '] ++ (p.data ++ ([' ', ' ', ' ', ' ']
              ++ ['r', 'a', 't', 'i', 'o'])))) from rfl]
    rw [matchConsPtn_steps hardCompsTok
      (litValsTok ['o', 'f', 'f', 's', 'e', 't']) hcne
      (fun ch hch => by
        rw [hheadeq] at hch
        exact digit_not_ws (head?_all h1all hch))
      hcompsTok hpne hpall
      (fun ch hch => by rw [← Option.some.inj hch]; rfl)]
    rw [show litValsTok ['o', 'f', 'f', 's', 'e', 't']
        ['r', 'a', 't', 'i', 'o'] = none from by decide]
    rfl
  have e2 : matchKind "hard_ratio"
      ((joinSep ['_'] ((c1 :: cs).map (fun i => (intStr i).data)))
        ++ ([' ', ' ', ' ', ' '] ++ (p.data ++ ([' ', ' ', ' ', ' ']
          ++ ['r', 'a', 't', 'i', 'o']))))
      = some (joinSep ['_'] ((c1 :: cs).map (fun i => (intStr i).data)),
          p.data, ([] : List (List Char))) := by
    rw [show matchKind "hard_ratio"
          ((joinSep ['_'] ((c1 :: cs).map (fun i => (intStr i).data)))
            ++ ([' ', ' ', ' ', ' '] ++ (p.data ++ ([' ', ' ', ' ', ' ']
              ++ ['r', 'a', 't', 'i', 'o']))))
        = matchConsPtn hardCompsTok (litValsTok ['r', 'a', 't', 'i', 'o'])
          ((joinSep ['_'] ((c1 :: cs).map (fun i => (intStr i).data)))
            ++ ([' ', ' ', ' ', ' '] ++ (p.data ++ ([' ', ' ', ' ', ' ']
              ++ ['r', 'a', 't', 'i', 'o'])))) from rfl]
    rw [matchConsPtn_steps hardCompsTok
      (litValsTok ['r', 'a', 't', 'i', 'o']) hcne
      (fun ch hch => by
        rw [hheadeq] at hch
        exact digit_not_ws (head?_all h1all hch))
      hcompsTok hpne hpall
      (fun ch hch => by rw [← Option.some.inj hch]; rfl)]
    rfl
  have hfm : firstMatchCons
      ((joinSep ['_'] ((c1 :: cs).map (fun i => (intStr i).data)))
        ++ ([' ', ' ', ' ', ' '] ++ (p.data ++ ([' ', ' ', ' ', ' ']
          ++ ['r', 'a', 't', 'i', 'o']))))
      = some ("hard_ratio",
          joinSep ['_'] ((c1 :: cs).map (fun i => (intStr i).data)),
          p.data, ([] : List (List Char))) := by
    simp only [firstMatchCons, kindsOrderCons, List.findSome?_cons, e1, e2,
      Option.map_none', Option.map_some']
  have hstrip : stripChars
      ((joinSep ['_'] ((c1 :: cs).map (fun i => (intStr i).data)))
        ++ ([' ', ' ', ' ', ' '] ++ (p.data ++ ([' ', ' ', ' ', ' ']
          ++ ['r', 'a', 't', 'i', 'o']))))
      = (joinSep ['_'] ((c1 :: cs).map (fun i => (intStr i).data)))
        ++ ([' ', ' ', ' ', ' '] ++ (p.data ++ ([' ', ' ', ' ', ' ']
          ++ ['r', 'a', 't', 'i', 'o']))) := by
    apply stripChars_eq_self hchead
    intro ch hch
    rw [line_last (by simp)] at hch
    rw [show (['r', 'a', 't', 'i', 'o'] : List Char).getLast?
        = some 'o' from rfl] at hch
    rw [← Option.some.inj hch]
    rfl
  obtain ⟨e0, et, hcs⟩ : ∃ e0 et,
      joinSep ['_'] ((c1 :: cs).map (fun i => (intStr i).data))
        = e0 :: et := by
    cases hj : joinSep ['_'] ((c1 :: cs).map (fun i => (intStr i).data)) with
    | nil => exact absurd hj hcne
    | cons e0 et => exact ⟨e0, et, rfl⟩
  have hd0 : isDigitChar e0 = true := by
    have h := hheadeq
    rw [hcs] at h
    exact head?_all h1all h.symm
  have hdata : (ConsRule.toStr
      { comps := c1 :: cs, par := p, type_cons := "hard_ratio",
        range_cons := [] }).data
    = (joinSep ['_'] ((c1 :: cs).map (fun i => (intStr i).data)))
        ++ ([' ', ' ', ' ', ' '] ++ (p.data ++ ([' ', ' ', ' ', ' ']
          ++ ['r', 'a', 't', 'i', 'o']))) := by
    show ConsRule.lineChars
        { comps := c1 :: cs, par := p, type_cons := "hard_ratio",
          range_cons := [] } = _
    simp only [ConsRule.lineChars]
    rw [if_pos (show (("hard_ratio" : String)).data.take 5
          = ['h', 'a', 'r', 'd', '_'] from by decide)]
    rw [show ("hard_ratio" : String).data.drop 5
        = (['r', 'a', 't', 'i', 'o'] : List Char) from by decide]
    rw [show (sepStrOf "hard_ratio").data = (['_'] : List Char) from
      by decide]
    simp only [List.append_assoc]
  show ConsRule.load_line ConsRule.empty _ = _
  simp only [ConsRule.load_line, hdata, hstrip]
  rw [hcs, List.cons_append]
  simp only [if_neg (digit_ne_char hd0
    (show isDigitChar '#' = false from rfl))]
  rw [← List.cons_append, ← hcs, hfm]
  simp only []
  rw [show sepCharOf "hard_ratio" = some '_' from rfl]
  simp only []
  rw [splitOnChar_joinSep (by simp)
    (by
      intro d hd ch hcd
      exact digit_ne_char (List.all_eq_true.mp (hds d hd).2 ch hcd)
        (show isDigitChar '_' = false from rfl))]
  rw [mapM_intStr hnn]
  simp only [exceptBindOk]
  simp only [if_neg (show ¬(isSoftCons "hard_ratio" = true) by decide)]
  show ConsRule.set_cons ConsRule.empty (c1 :: cs) (String.mk p.data)
      "hard_ratio" none = _
  rw [show String.mk p.data = p from rfl]
  simp only [ConsRule.set_cons,
    show (mapAliasTypesCons.lookup "hard_ratio") = none from rfl,
    if_neg (show ¬¬(kindsOrderCons.contains "hard_ratio" = true) by decide),
    show numCompsReq "hard_ratio" = none from rfl,
    exceptBindOk, exceptPure, hstd,
    if_neg (show ¬(isSoftCons "hard_ratio" = true) by decide)]
  rfl

/-- C2 (corrected): parse(serialize(rule)) = rule holds for every
    well-formed rule once the hard kinds require at least two components
    (the grammar's fmt_comps needs an underscore-joined pair; with a single
    component, serialization of a hard rule matches no pattern and parsing
    silently yields the empty rule, see the counterexample).  Well-formed
    means: a registered kind; nonnegative components, exactly 1 for
    soft_fromto/soft_shift, exactly 2 for soft_offset/soft_ratio, at least 2
    for hard_offset/hard_ratio; a nonempty alphanumeric parameter name fixed
    by standard_par_name; a two-value %g-exact range for soft kinds and no
    range for hard kinds. -/
theorem c2_well_formed_rule_round_trip (r : ConsRule)
    (h : ConsRule.wellFormed r = true) :
    ConsRule.ofLine r.toStr = .ok r := by
  obtain ⟨rcomps, rpar, rtype, rrange⟩ := r
  simp only [ConsRule.wellFormed, Bool.and_eq_true, decide_eq_true_eq] at h
  obtain ⟨⟨⟨⟨⟨⟨hmem, hall⟩, hcnt⟩, hpne⟩, hpall⟩, hstd⟩, hrange⟩ := h
  have hall2 : ∀ z ∈ rcomps, 0 ≤ z := by
    intro z hz
    have := List.all_eq_true.mp hall z hz
    simpa using this
  have hmem2 : rtype ∈ kindsOrderCons := List.elem_iff.mp hmem
  simp only [kindsOrderCons, List.mem_cons, List.not_mem_nil, or_false]
    at hmem2
  rcases hmem2 with ht | ht | ht | ht | ht | ht <;> subst ht
  · -- hard_offset
    rw [show numCompsReq "hard_offset" = none from rfl] at hcnt
    rw [if_neg (show ¬(isSoftCons "hard_offset" = true) by decide)] at hrange
    have hrange2 : rrange = [] := of_decide_eq_true hrange
    subst hrange2
    cases rcomps with
    | nil => simp at hcnt
    | cons c1 cs =>
      refine roundTrip_hard_offset c1 cs rpar ?_ hall2 hpne hpall hstd
      simp only [List.length_cons, decide_eq_true_eq] at hcnt
      omega
  · -- hard_ratio
    rw [show numCompsReq "hard_ratio" = none from rfl] at hcnt
    rw [if_neg (show ¬(isSoftCons "hard_ratio" = true) by decide)] at hrange
    have hrange2 : rrange = [] := of_decide_eq_true hrange
    subst hrange2
    cases rcomps with
    | nil => simp at hcnt
    | cons c1 cs =>
      refine roundTrip_hard_ratio c1 cs rpar ?_ hall2 hpne hpall hstd
      simp only [List.length_cons, decide_eq_true_eq] at hcnt
      omega
  · -- soft_fromto
    rw [show numCompsReq "soft_fromto" = some 1 from rfl] at hcnt
    rw [if_pos (show isSoftCons "soft_fromto" = true from rfl)] at hrange
    obtain ⟨c, hc⟩ : ∃ c, rcomps = [c] := by
      cases rcomps with
      | nil => simp at hcnt
      | cons c cs =>
        cases cs with
        | nil => exact ⟨c, rfl⟩
        | cons d ds => simp at hcnt
    subst hc
    obtain ⟨x, y, hxy⟩ : ∃ x y, rrange = [x, y] := by
      cases rrange with
      | nil => simp at hrange
      | cons a t =>
        cases t with
        | nil => simp at hrange
        | cons b t2 =>
          cases t2 with
          | nil => exact ⟨a, b, rfl⟩
          | cons e t3 => simp at hrange
    subst hxy
    simp only [Bool.and_eq_true] at hrange
    exact roundTrip_soft_fromto c rpar x y (hall2 c (by simp)) hpne hpall
      hstd hrange.1 hrange.2
  · -- soft_shift
    rw [show numCompsReq "soft_shift" = some 1 from rfl] at hcnt
    rw [if_pos (show isSoftCons "soft_shift" = true from rfl)] at hrange
    obtain ⟨c, hc⟩ : ∃ c, rcomps = [c] := by
      cases rcomps with
      | nil => simp at hcnt
      | cons c cs =>
        cases cs with
        | nil => exact ⟨c, rfl⟩
        | cons d ds => simp at hcnt
    subst hc
    obtain ⟨x, y, hxy⟩ : ∃ x y, rrange = [x, y] := by
      cases rrange with
      | nil => simp at hrange
      | cons a t =>
        cases t with
        | nil => simp at hrange
        | cons b t2 =>
          cases t2 with
          | nil => exact ⟨a, b, rfl⟩
          | cons e t3 => simp at hrange
    subst hxy
    simp only [Bool.and_eq_true] at hrange
    exact roundTrip_soft_shift c rpar x y (hall2 c (by simp)) hpne hpall
      hstd hrange.1 hrange.2
  · -- soft_offset
    rw [show numCompsReq "soft_offset" = some 2 from rfl] at hcnt
    rw [if_pos (show isSoftCons "soft_offset" = true from rfl)] at hrange
    obtain ⟨c1, c2, hc⟩ : ∃ c1 c2, rcomps = [c1, c2] := by
      cases rcomps with
      | nil => simp at hcnt
      | cons c cs =>
        cases cs with
        | nil => simp at hcnt
        | cons d ds =>
          cases ds with
          | nil => exact ⟨c, d, rfl⟩
          | cons e es => simp at hcnt
    subst hc
    obtain ⟨x, y, hxy⟩ : ∃ x y, rrange = [x, y] := by
      cases rrange with
      | nil => simp at hrange
      | cons a t =>
        cases t with
        | nil => simp at hrange
        | cons b t2 =>
          cases t2 with
          | nil => exact ⟨a, b, rfl⟩
          | cons e t3 => simp at hrange
    subst hxy
    simp only [Bool.and_eq_true] at hrange
    exact roundTrip_soft_offset c1 c2 rpar x y (hall2 c1 (by simp))
      (hall2 c2 (by simp)) hpne hpall hstd hrange.1 hrange.2
  · -- soft_ratio
    rw [show numCompsReq "soft_ratio" = some 2 from rfl] at hcnt
    rw [if_pos (show isSoftCons "soft_ratio" = true from rfl)] at hrange
    obtain ⟨c1, c2, hc⟩ : ∃ c1 c2, rcomps = [c1, c2] := by
      cases rcomps with
      | nil => simp at hcnt
      | cons c cs =>
        cases cs with
        | nil => simp at hcnt
        | cons d ds =>
          cases ds with
          | nil => exact ⟨c, d, rfl⟩
          | cons e es => simp at hcnt
    subst hc
    obtain ⟨x, y, hxy⟩ : ∃ x y, rrange = [x, y] := by
      cases rrange with
      | nil => simp at hrange
      | cons a t =>
        cases t with
        | nil => simp at hrange
        | cons b t2 =>
          cases t2 with
          | nil => exact ⟨a, b, rfl⟩
          | cons e t3 => simp at hrange
    subst hxy
    simp only [Bool.and_eq_true] at hrange
    exact roundTrip_soft_ratio c1 c2 rpar x y (hall2 c1 (by simp))
      (hall2 c2 (by simp)) hpne hpall hstd hrange.1 hrange.2

/-- Witness for the corrected C2 round trip: the rule
    {comps := [1], par := "n", type_cons := "soft_fromto",
     range_cons := [1/2, 8]) is well-formed, and parsing its serialized line
    returns it unchanged. -/
theorem c2_well_formed_rule_round_trip_witness :
    ConsRule.wellFormed
        { comps := [1], par := "n", type_cons := "soft_fromto",
          range_cons := [mkRat 1 2, 8] } = true ∧
      ConsRule.ofLine (ConsRule.toStr
        { comps := [1], par := "n", type_cons := "soft_fromto",
          range_cons := [mkRat 1 2, 8] })
      = .ok { comps := [1], par := "n", type_cons := "soft_fromto",
              range_cons := [mkRat 1 2, 8] } :=
  ⟨by decide,
    c2_well_formed_rule_round_trip
      { comps := [1], par := "n", type_cons := "soft_fromto",
        range_cons := [mkRat 1 2, 8] } (by decide)⟩

end GalfitSpec
